import Mathlib

/-!
# Agent visualisation client (`random_agents.js`)

A shallow embedding of the client-side state synchronisation and of the map
parsing of `Reto/AgentsVisualization/visualization/random_agents.js`.

Conventions of the embedding:

* a JavaScript array is a `List`; the module-level `agents` array is passed
  explicitly as state;
* an object reference held by the `existingAgents` map is the index of the
  object in the `agents` array at the moment the map is built (the array only
  grows by `push` while the map is in use, so the index stays valid);
* agent ids are primitive JSON values compared with SameValueZero; they are
  modelled by `Nat`.  Coordinates are JSON numbers that the reconciliation
  only copies; they are modelled by `Int`;
* the text of the map file is the result of `response.text()`, a sequence of
  Unicode scalar values, modelled by `List Char`.
-/

namespace RandomAgents

/-! ## Data model -/

/-- One entry of `result.positions`, the body of `GET /getAgents`. -/
structure AgentSnapshot where
  id : Nat
  x : Int
  y : Int
  z : Int
deriving DecidableEq, Repr

/-- Instances of `class Object3D`: the fields set by its constructor. -/
structure Object3D where
  id : Nat
  position : List Int
  rotation : List Int
  scale : List Int
  matrix : List Int
deriving DecidableEq, Repr

/-- Result of `twgl.m4.create()`: a fresh 4x4 matrix of zeros. -/
def m4create : List Int := List.replicate 16 0

/-- The constructor `Object3D(id, position = [0,0,0], rotation = [0,0,0], scale = [1,1,1])`.
An argument that is left out is `none` and takes its default. -/
def Object3D.construct (id : Nat) (position rotation scale : Option (List Int)) : Object3D :=
  { id := id
    position := position.getD [0, 0, 0]
    rotation := rotation.getD [0, 0, 0]
    scale := scale.getD [1, 1, 1]
    matrix := m4create }

/-! ## Reconciliation body of `getAgents` -/

/-- Lookup in `new Map(agents.map(agent => [agent.id, agent]))`: the reference stored
under key `id`.  A later entry with the same key overwrites an earlier one, so the
reference is the index of the last element of `agents` carrying that id. -/
def existingAgentsGet (id : Nat) : List Object3D → Option Nat
  | [] => none
  | a :: rest =>
    match existingAgentsGet id rest with
    | some j => some (j + 1)
    | none => if a.id = id then some 0 else none

/-- The assignment `currentAgent.position = p` on the object at index `j` of the array. -/
def setPositionAt : List Object3D → Nat → List Int → List Object3D
  | [], _, _ => []
  | a :: rest, 0, p => { a with position := p } :: rest
  | a :: rest, j + 1, p => a :: setPositionAt rest j p

/-- One iteration of `for (const agent of result.positions)`: update the position of
the agent the map knows under this id, else push a new `Object3D`.  The map was built
from `existing`, the array before the loop, and is not extended by the loop. -/
def syncStep (existing : List Object3D) (agents : List Object3D) (agent : AgentSnapshot) :
    List Object3D :=
  match existingAgentsGet agent.id existing with
  | some j => setPositionAt agents j [agent.x, agent.y, agent.z]
  | none => agents ++ [Object3D.construct agent.id (some [agent.x, agent.y, agent.z]) none none]

/-- The whole `for (const agent of result.positions)` loop. -/
def syncLoop (existing : List Object3D) (agents : List Object3D) (positions : List AgentSnapshot) :
    List Object3D :=
  positions.foldl (syncStep existing) agents

/-- Membership in `serverAgentIds = new Set(result.positions.map(agent => agent.id))`. -/
def serverAgentIdsHas (positions : List AgentSnapshot) (id : Nat) : Bool :=
  (positions.map (fun agent => agent.id)).contains id

/-- The loop `agents.forEach((agent, index) => { if (!has(agent.id)) agents.splice(index, 1) })`.
`Array.prototype.forEach` reads the length once and then visits the indices
`index, index + 1, ...` (`remaining` of them), skipping an index the array no longer
has; `splice(index, 1)` removes the element at `index` and shifts the tail left. -/
def spliceLoop (has : Nat → Bool) : Nat → Nat → List Object3D → List Object3D
  | 0, _, agents => agents
  | remaining + 1, index, agents =>
    match agents[index]? with
    | none => spliceLoop has remaining (index + 1) agents
    | some agent =>
      if !has agent.id then spliceLoop has remaining (index + 1) (agents.eraseIdx index)
      else spliceLoop has remaining (index + 1) agents

/-- The removal pass of `getAgents`, run on the array as it is after the update loop. -/
def removeStale (positions : List AgentSnapshot) (agents : List Object3D) : List Object3D :=
  spliceLoop (serverAgentIdsHas positions) agents.length 0 agents

/-- The synchronous body of `getAgents` after `result` has been read: the new content
of the `agents` array, given its old content and `result.positions`. -/
def reconcile (agents : List Object3D) (positions : List AgentSnapshot) : List Object3D :=
  removeStale positions (syncLoop agents agents positions)

/-! ## Network boundary: `getAgents` and `update` -/

/-- What `result.positions` is once the body has been parsed. -/
inductive PositionsField where
  /-- The field is missing, `null`, or a value without a `map` method. -/
  | unusable
  /-- An array; an item that is `null` (so that reading `agent.id` throws) is `none`. -/
  | array (items : List (Option AgentSnapshot))
deriving DecidableEq, Repr

/-- Outcome of `await response.json()`. -/
inductive JsonResult where
  /-- The promise rejects: the body is not JSON. -/
  | rejected
  /-- The parsed body, of which only `positions` is read. -/
  | value (positions : PositionsField)
deriving DecidableEq, Repr

/-- The parts of a `Response` the client reads. -/
structure Response where
  ok : Bool
  json : JsonResult
deriving DecidableEq, Repr

/-- Outcome of `await fetch(...)`. -/
inductive FetchResult where
  /-- The promise rejects: network error. -/
  | rejected
  | resolved (response : Response)
deriving DecidableEq, Repr

/-- Computations of the client: they may throw, and they read and write the
module-level `agents` array.  A write made before a throw stays. -/
abbrev Js := ExceptT String (StateM (List Object3D))

/-- The call `await fetch(uri)`. -/
def awaitFetch : FetchResult → Js Response
  | .rejected => throw "TypeError: Failed to fetch"
  | .resolved response => pure response

/-- The call `await response.json()`. -/
def awaitJson (response : Response) : Js PositionsField :=
  match response.json with
  | .rejected => throw "SyntaxError: Unexpected token"
  | .value positions => pure positions

/-- The expression `result.positions.map(agent => agent.id)`, which throws when
`result.positions` has no `map` or when an item is `null`.  It returns the items, all
of them now known to be objects. -/
def positionsMapId : PositionsField → Js (List AgentSnapshot)
  | .unusable => throw "TypeError: result.positions.map is not a function"
  | .array items =>
    if items.all Option.isSome then pure (items.filterMap id)
    else throw "TypeError: Cannot read properties of null"

/-- The function `getAgents`, given the outcome of its request. -/
def getAgents (fetched : FetchResult) : Js Unit :=
  tryCatch
    (do
      let response ← awaitFetch fetched
      if response.ok then
        let result ← awaitJson response
        -- existingAgents is built from the array as it is here
        let agents ← get
        -- serverAgentIds: the first use of result.positions that can throw
        let positions ← positionsMapId result
        set (reconcile agents positions))
    (fun _ => pure ())

/-- The function `update`, given the outcome of its own request and of the request
`getAgents` makes when it is called. -/
def update (stepFetched : FetchResult) (agentsFetched : FetchResult) : Js Unit :=
  tryCatch
    (do
      let response ← awaitFetch stepFetched
      if response.ok then
        getAgents agentsFetched)
    (fun _ => pure ())

/-- Run a client computation on a given `agents` array: whether it raised, and the
array afterwards. -/
def Js.runOn (prog : Js Unit) (agents : List Object3D) : Except String Unit × List Object3D :=
  (ExceptT.run prog).run agents

/-! ## Map text -/

/-- The code points `String.prototype.trim` strips: WhiteSpace and LineTerminator. -/
def isTrimChar (c : Char) : Bool :=
  [0x09, 0x0A, 0x0B, 0x0C, 0x0D, 0x20, 0xA0, 0x1680, 0x2000, 0x2001, 0x2002, 0x2003, 0x2004,
    0x2005, 0x2006, 0x2007, 0x2008, 0x2009, 0x200A, 0x2028, 0x2029, 0x202F, 0x205F, 0x3000,
    0xFEFF].contains c.toNat

/-- The method `String.prototype.trim`. -/
def trim (s : List Char) : List Char :=
  ((s.dropWhile isTrimChar).reverse.dropWhile isTrimChar).reverse

/-- The property `length` of a string: its number of UTF-16 code units. -/
def utf16Length (s : List Char) : Nat :=
  (s.map (fun c => if c.toNat < 0x10000 then 1 else 2)).sum

/-- The call `fileContent.split("\n")`. -/
def splitLines : List Char → List (List Char)
  | [] => [[]]
  | c :: cs =>
    if c = '\n' then [] :: splitLines cs
    else
      match splitLines cs with
      | [] => [[c]]
      | line :: lines => (c :: line) :: lines

/-- The callback `line => line.trim() !== ""`. -/
def trimNonEmpty (line : List Char) : Bool :=
  !(trim line).isEmpty

/-- The function `getRowCount`. -/
def getRowCount (fileContent : List Char) : Nat :=
  if fileContent.isEmpty then 0
  else ((splitLines fileContent).filter trimNonEmpty).length

/-- The function `getColumnCount`. -/
def getColumnCount (fileContent : List Char) : Nat :=
  if fileContent.isEmpty then 0
  else
    match (splitLines fileContent).find? trimNonEmpty with
    | some firstRow => if firstRow.isEmpty then 0 else utf16Length firstRow
    | none => 0

/-- A grid coordinate `{ x, z }`. -/
structure Coord where
  x : Nat
  z : Nat
deriving DecidableEq, Repr

/-- The inner loop `[...row].forEach((char, x) => { if (test(char)) positions.push({ x, z }) })`:
the spread iterates the code points of the row; `positions` is the array built so far. -/
def scanRow (test : Char → Bool) (z : Nat) : List Char → Nat → List Coord → List Coord
  | [], _, positions => positions
  | char :: rest, x, positions =>
    scanRow test z rest (x + 1) (if test char then positions ++ [⟨x, z⟩] else positions)

/-- The outer loop `rows.forEach((row, z) => ...)`. -/
def scanRows (test : Char → Bool) : List (List Char) → Nat → List Coord → List Coord
  | [], _, positions => positions
  | row :: rest, z, positions => scanRows test rest (z + 1) (scanRow test z row 0 positions)

/-- The rows every extractor works on: `fileContent.split("\n").filter(line => line.trim() !== "")`. -/
def nonBlankRows (fileContent : List Char) : List (List Char) :=
  (splitLines fileContent).filter trimNonEmpty

/-- The function `getSpecialPositions`. -/
def getSpecialPositions (fileContent : List Char) : List Coord :=
  scanRows (fun char => ['<', '>', 'v', '^'].contains char) (nonBlankRows fileContent) 0 []

/-- The function `getHashTag`. -/
def getHashTag (fileContent : List Char) : List Coord :=
  scanRows (fun char => ['#'].contains char) (nonBlankRows fileContent) 0 []

/-- The function `getZebraCrossingPositions`. -/
def getZebraCrossingPositions (fileContent : List Char) : List Coord :=
  scanRows (fun char => ['s', 'S'].contains char) (nonBlankRows fileContent) 0 []

/-- The function `getRedXPositions`. -/
def getRedXPositions (fileContent : List Char) : List Coord :=
  scanRows (fun char => char = 'D') (nonBlankRows fileContent) 0 []

/-! ## Startup: `main` -/

/-- The module-level `data` object, sent as the body of `POST /init`. -/
structure InitData where
  NAgents : Nat
  width : Int
  height : Int
  file_path : String
deriving DecidableEq, Repr

/-- The steps of `main` with an effect outside of it, in program order. -/
inductive MainStep where
  /-- The call `twgl.createProgramInfo(gl, [vsGLSL, fsGLSL])`. -/
  | createProgramInfo
  /-- The call `console.error("El archivo no pudo ser leído o está vacío.")`. -/
  | consoleError
  /-- The assignments to `data.width` and `data.height`. -/
  | setDimensions (width height : Int)
  /-- The four static batches built from the extracted positions, with their buffers. -/
  | buildStaticGeometry (specialPositions hashTagPositions zebraPositions redXPositions : List Coord)
  /-- The calls `generateData(0.3)` and `generateObstacleData(1)`, with their buffers. -/
  | buildDynamicGeometry
  | setupUI
  /-- The call `initAgentsModel()`, which posts `data`. -/
  | initAgentsModel (data : InitData)
  | getAgents
  | setInterval
  /-- The first call of `drawScene`, which issues the draw calls. -/
  | drawScene
deriving DecidableEq, Repr

/-- The function `main`, given the text `readFile()` resolved to (the empty text when
the file could not be read).  A string is truthy when it is not empty. -/
def main (fileContent : List Char) : List MainStep :=
  if !fileContent.isEmpty then
    let width : Int := (getColumnCount fileContent : Int) - 1
    let height : Int := (getRowCount fileContent : Int)
    [ .createProgramInfo,
      .setDimensions width height,
      .buildStaticGeometry (getSpecialPositions fileContent) (getHashTag fileContent)
        (getZebraCrossingPositions fileContent) (getRedXPositions fileContent),
      .buildDynamicGeometry,
      .setupUI,
      .initAgentsModel ⟨1, width, height, "2022_base.txt"⟩,
      .getAgents,
      .setInterval,
      .drawScene ]
  else
    [.createProgramInfo, .consoleError]

/-! ## Numbers

JavaScript numbers are IEEE 754 doubles.  A finite double is modelled by the rational
number it denotes; `roundToDouble` rounds a rational number to the nearest double, ties
to even, and an arithmetic operation of the code is the exact operation followed by this
rounding.  Infinities, NaN, the sign of zero and overflow are not modelled. -/

/-- The integer nearest to `n / d` (for `d > 0`), a tie going to the even one. -/
def roundHalfEven (n d : Nat) : Nat :=
  if 2 * (n % d) < d then n / d
  else if d < 2 * (n % d) then n / d + 1
  else if n / d % 2 = 0 then n / d
  else n / d + 1

/-- The double nearest to the positive rational `n / d`.  With `e` the integer such that
`2 ^ e ≤ n / d < 2 ^ (e + 1)`, the quotient is rounded to a multiple of `2 ^ (e - 52)`
(53 significant bits), and to a multiple of `2 ^ (-1074)` in the subnormal range. -/
def roundPos (n d : Nat) : ℚ :=
  let a := Nat.log2 n
  let b := Nat.log2 d
  let p := 52 + b + (if 2 ^ a * d ≤ 2 ^ b * n then 0 else 1)
  if a ≤ p then
    (roundHalfEven (n * 2 ^ min (p - a) 1074) d : ℚ) / 2 ^ min (p - a) 1074
  else
    (roundHalfEven n (d * 2 ^ (a - p)) : ℚ) * 2 ^ (a - p)

/-- The double nearest to a rational number: the value of a decimal literal, and the
rounding every arithmetic operation ends with. -/
def roundToDouble (q : ℚ) : ℚ :=
  if q.num = 0 then 0
  else if 0 < q.num then roundPos q.num.natAbs q.den
  else -roundPos q.num.natAbs q.den

/-- The operation `a + b` on doubles. -/
def fadd (a b : ℚ) : ℚ :=
  roundToDouble (a + b)

/-- The operation `a - b` on doubles. -/
def fsub (a b : ℚ) : ℚ :=
  roundToDouble (a - b)

/-- The operation `a * b` on doubles. -/
def fmul (a b : ℚ) : ℚ :=
  roundToDouble (a * b)

/-- The operation `a / b` on doubles. -/
def fdiv (a b : ℚ) : ℚ :=
  roundToDouble (a / b)

/-! ## Geometry builders

In `generateZebraCrossings`, `generateData` and `generateObstacleData` every arithmetic
operation and every decimal literal is rounded to a double, as the code does.  In
`generateRedX`, `generateFloorDataFromPositions` and `generateBlueCubesFromHashTags` the
numbers are the exact rational expressions of the code: what is proved of them concerns
lengths, indices, the expressions themselves, and bounds that rounding preserves.
Indices are sums of small integers and are modelled by `Nat`. -/

/-- The object a builder returns: the `data` arrays of `a_position` (3 components),
`a_color` (4 components) and `indices` (3 components). -/
structure MeshArrays where
  a_position : List ℚ
  a_color : List ℚ
  indices : List Nat

/-- The local variables `vertices`, `colors`, `indices` and `vertexIndex` of a builder. -/
structure Builder where
  vertices : List ℚ
  colors : List ℚ
  indices : List Nat
  vertexIndex : Nat

/-- The local variables as initialised: three empty arrays and `vertexIndex = 0`. -/
def Builder.empty : Builder :=
  { vertices := [], colors := [], indices := [], vertexIndex := 0 }

/-- The object built by the `return` statement of a builder. -/
def Builder.result (b : Builder) : MeshArrays :=
  { a_position := b.vertices, a_color := b.colors, indices := b.indices }

/-- The body of `for (let i = 0; i < stripeCount; i++)` in `generateZebraCrossings`;
the loop `for (let j = 0; j < 4; j++) colors.push(...color)` is unrolled. -/
def zebraStripe (size : ℚ) (x z : Nat) (stripeWidth : ℚ) (b : Builder) (i : Nat) : Builder :=
  let baseX : ℚ := fadd (fmul (x : ℚ) size) (roundToDouble 0.05)
  let baseZ : ℚ :=
    fadd (fadd (fmul (z : ℚ) size) (-roundToDouble 0.35)) (fmul (i : ℚ) stripeWidth)
  let color : List ℚ := if i % 2 = 0 then [1, 1, 1, 1] else [0, 0, 0, 1]
  { vertices := b.vertices ++
      [ fsub baseX (fdiv size 2), 0, baseZ,
        fadd baseX (fdiv size 2), 0, baseZ,
        fadd baseX (fdiv size 2), 0, fadd baseZ stripeWidth,
        fsub baseX (fdiv size 2), 0, fadd baseZ stripeWidth ]
    colors := b.colors ++ (color ++ color ++ color ++ color)
    indices := b.indices ++
      [ b.vertexIndex, b.vertexIndex + 1, b.vertexIndex + 2,
        b.vertexIndex, b.vertexIndex + 2, b.vertexIndex + 3 ]
    vertexIndex := b.vertexIndex + 4 }

/-- The callback of `positions.forEach` in `generateZebraCrossings`. -/
def zebraCell (size : ℚ) (b : Builder) (p : Coord) : Builder :=
  let stripeCount : Nat := 6
  let stripeWidth : ℚ := fdiv size (stripeCount : ℚ)
  (List.range stripeCount).foldl (zebraStripe size p.x p.z stripeWidth) b

/-- The function `generateZebraCrossings`. -/
def generateZebraCrossings (positions : List Coord) (size : ℚ) : MeshArrays :=
  (positions.foldl (zebraCell size) Builder.empty).result

/-- The callback of `positions.forEach` in `generateRedX`; the loop that pushes the
colour of the 8 vertices is unrolled. -/
def redXCell (size : ℚ) (b : Builder) (p : Coord) : Builder :=
  let centerX : ℚ := (p.x : ℚ) * size
  let centerZ : ℚ := (p.z : ℚ) * size
  let thickness : ℚ := size * 0.3
  let halfSize : ℚ := size / 2
  { vertices := b.vertices ++
      [ centerX - halfSize, 0, centerZ - halfSize + thickness,
        centerX - halfSize, 0, centerZ - halfSize,
        centerX + halfSize, 0, centerZ + halfSize,
        centerX + halfSize, 0, centerZ + halfSize - thickness ] ++
      [ centerX + halfSize, 0, centerZ - halfSize + thickness,
        centerX + halfSize, 0, centerZ - halfSize,
        centerX - halfSize, 0, centerZ + halfSize,
        centerX - halfSize, 0, centerZ + halfSize - thickness ]
    colors := b.colors ++
      [ 1, 0, 0, 1, 1, 0, 0, 1, 1, 0, 0, 1, 1, 0, 0, 1,
        1, 0, 0, 1, 1, 0, 0, 1, 1, 0, 0, 1, 1, 0, 0, 1 ]
    indices := b.indices ++
      [ b.vertexIndex, b.vertexIndex + 1, b.vertexIndex + 2,
        b.vertexIndex + 1, b.vertexIndex + 2, b.vertexIndex + 3 ] ++
      [ b.vertexIndex + 4, b.vertexIndex + 5, b.vertexIndex + 6,
        b.vertexIndex + 5, b.vertexIndex + 6, b.vertexIndex + 7 ]
    vertexIndex := b.vertexIndex + 8 }

/-- The function `generateRedX`. -/
def generateRedX (positions : List Coord) (size : ℚ) : MeshArrays :=
  (positions.foldl (redXCell size) Builder.empty).result

/-- The callback of `positions.forEach` in `generateFloorDataFromPositions`. -/
def floorCell (size : ℚ) (b : Builder) (p : Coord) : Builder :=
  let offsetX : ℚ := -0.5
  let offsetY : ℚ := -0.5
  let baseX : ℚ := (p.x : ℚ) * size + offsetX
  let baseZ : ℚ := (p.z : ℚ) * size + offsetY
  { vertices := b.vertices ++
      [ baseX, 0, baseZ,
        baseX + size, 0, baseZ,
        baseX + size, 0, baseZ + size,
        baseX, 0, baseZ + size ]
    colors := b.colors ++
      [ 0.6, 0.6, 0.6, 1,
        0.6, 0.6, 0.6, 1,
        0.6, 0.6, 0.6, 1,
        0.6, 0.6, 0.6, 1 ]
    indices := b.indices ++
      [ b.vertexIndex, b.vertexIndex + 1, b.vertexIndex + 2,
        b.vertexIndex, b.vertexIndex + 2, b.vertexIndex + 3 ]
    vertexIndex := b.vertexIndex + 4 }

/-- The function `generateFloorDataFromPositions`. -/
def generateFloorDataFromPositions (positions : List Coord) (size : ℚ) : MeshArrays :=
  (positions.foldl (floorCell size) Builder.empty).result

/-- The callback of `positions.forEach` in `generateBlueCubesFromHashTags`, given the
value `random` that `Math.random()` returns in it; the colour loop over the 8 vertices
(even `i` dark blue, odd `i` light blue) is unrolled. -/
def blueCube (size : ℚ) (random : ℚ) (b : Builder) (p : Coord) : Builder :=
  let baseX : ℚ := (p.x : ℚ) * size
  let baseZ : ℚ := (p.z : ℚ) * size
  let height : ℚ := size * (2 + random * 3)
  let offset : Nat := b.vertexIndex
  { vertices := b.vertices ++
      [ baseX - size / 2, 0, baseZ - size / 2,
        baseX + size / 2, 0, baseZ - size / 2,
        baseX + size / 2, height, baseZ - size / 2,
        baseX - size / 2, height, baseZ - size / 2,
        baseX - size / 2, 0, baseZ + size / 2,
        baseX + size / 2, 0, baseZ + size / 2,
        baseX + size / 2, height, baseZ + size / 2,
        baseX - size / 2, height, baseZ + size / 2 ]
    colors := b.colors ++
      [ 0.2, 0.2, 1, 1, 0.6, 0.6, 1, 1, 0.2, 0.2, 1, 1, 0.6, 0.6, 1, 1,
        0.2, 0.2, 1, 1, 0.6, 0.6, 1, 1, 0.2, 0.2, 1, 1, 0.6, 0.6, 1, 1 ]
    indices := b.indices ++
      [ offset, offset + 1, offset + 2,
        offset, offset + 2, offset + 3,
        offset + 4, offset + 5, offset + 6,
        offset + 4, offset + 6, offset + 7,
        offset, offset + 4, offset + 7,
        offset, offset + 7, offset + 3,
        offset + 1, offset + 5, offset + 6,
        offset + 1, offset + 6, offset + 2,
        offset, offset + 1, offset + 5,
        offset, offset + 5, offset + 4,
        offset + 3, offset + 2, offset + 6,
        offset + 3, offset + 6, offset + 7 ]
    vertexIndex := b.vertexIndex + 8 }

/-- The loop `positions.forEach` of `generateBlueCubesFromHashTags`; `random n` is the
value of the `n`-th call of `Math.random()` from here on. -/
def blueCubesLoop (size : ℚ) : (Nat → ℚ) → List Coord → Builder → Builder
  | _, [], b => b
  | random, p :: rest, b =>
    blueCubesLoop size (fun n => random (n + 1)) rest (blueCube size (random 0) b p)

/-- The function `generateBlueCubesFromHashTags`, given the values `Math.random()`
returns during the call: `random n` is the one drawn for the `n`-th position. -/
def generateBlueCubesFromHashTags (positions : List Coord) (size : ℚ) (random : Nat → ℚ) :
    MeshArrays :=
  (blueCubesLoop size random positions Builder.empty).result

/-- The callback of `wheelOffsets.forEach` in `generateData`. -/
def wheel (wheelRadius : ℚ) (b : Builder) (offset : ℚ × ℚ × ℚ) : Builder :=
  let x : ℚ := offset.1
  let y : ℚ := offset.2.1
  let z : ℚ := offset.2.2
  let wheelVertices : List ℚ :=
    [ fsub x wheelRadius, y, fsub z wheelRadius,
      fadd x wheelRadius, y, fsub z wheelRadius,
      fadd x wheelRadius, y, fadd z wheelRadius,
      fsub x wheelRadius, y, fadd z wheelRadius ]
  let wheelColors : List ℚ := [0, 0, 0, 1, 0, 0, 0, 1, 0, 0, 0, 1, 0, 0, 0, 1]
  let wheelIndices : List Nat := [0, 1, 2, 0, 2, 3]
  { vertices := b.vertices ++ wheelVertices
    colors := b.colors ++ wheelColors
    indices := b.indices ++ wheelIndices.map (fun index => index + b.vertexIndex)
    vertexIndex := b.vertexIndex + 4 }

/-- The function `generateData`: the car. -/
def generateData (size : ℚ) : MeshArrays :=
  let carLength : ℚ := fmul size (roundToDouble 2.5)
  let carWidth : ℚ := fmul size (roundToDouble 1.2)
  let carHeight : ℚ := fmul size (roundToDouble 0.6)
  let cabinHeight : ℚ := fmul size (roundToDouble 0.4)
  let wheelRadius : ℚ := fmul size (roundToDouble 0.3)
  let wheelWidth : ℚ := fmul size (roundToDouble 0.2)
  let start : Builder := Builder.empty
  let bodyVertices : List ℚ :=
    [ fdiv (-carWidth) 2, carHeight, fdiv (-carLength) 2,
      fdiv carWidth 2, carHeight, fdiv (-carLength) 2,
      fdiv carWidth 2, carHeight, fdiv carLength 2,
      fdiv (-carWidth) 2, carHeight, fdiv carLength 2,
      fdiv (-carWidth) 2, 0, fdiv (-carLength) 2,
      fdiv carWidth 2, 0, fdiv (-carLength) 2,
      fdiv carWidth 2, 0, fdiv carLength 2,
      fdiv (-carWidth) 2, 0, fdiv carLength 2 ]
  let bodyColors : List ℚ :=
    [ 1, 0, 0, 1, 1, 0, 0, 1, 1, 0, 0, 1, 1, 0, 0, 1,
      1, 0, 0, 1, 1, 0, 0, 1, 1, 0, 0, 1, 1, 0, 0, 1 ]
  let bodyIndices : List Nat :=
    [ 0, 1, 2, 0, 2, 3,
      4, 5, 6, 4, 6, 7,
      0, 1, 5, 0, 5, 4,
      1, 2, 6, 1, 6, 5,
      2, 3, 7, 2, 7, 6,
      3, 0, 4, 3, 4, 7 ]
  let body : Builder :=
    { vertices := start.vertices ++ bodyVertices
      colors := start.colors ++ bodyColors
      indices := start.indices ++ bodyIndices.map (fun index => index + start.vertexIndex)
      vertexIndex := start.vertexIndex + 8 }
  let cabinVertices : List ℚ :=
    [ fdiv (-carWidth) 3, fadd carHeight cabinHeight, fdiv (-carLength) 4,
      fdiv carWidth 3, fadd carHeight cabinHeight, fdiv (-carLength) 4,
      fdiv carWidth 3, carHeight, fdiv carLength 4,
      fdiv (-carWidth) 3, carHeight, fdiv carLength 4 ]
  let cabinColors : List ℚ :=
    [ roundToDouble 0.6, roundToDouble 0.8, 1, 1,
      roundToDouble 0.6, roundToDouble 0.8, 1, 1,
      roundToDouble 0.6, roundToDouble 0.8, 1, 1,
      roundToDouble 0.6, roundToDouble 0.8, 1, 1 ]
  let cabinIndices : List Nat := [0, 1, 2, 0, 2, 3]
  let cabin : Builder :=
    { vertices := body.vertices ++ cabinVertices
      colors := body.colors ++ cabinColors
      indices := body.indices ++ cabinIndices.map (fun index => index + body.vertexIndex)
      vertexIndex := body.vertexIndex + 4 }
  let wheelOffsets : List (ℚ × ℚ × ℚ) :=
    [ (fdiv (-carWidth) 2, fdiv (-wheelWidth) 2, fdiv (-carLength) 2),
      (fdiv carWidth 2, fdiv (-wheelWidth) 2, fdiv (-carLength) 2),
      (fdiv (-carWidth) 2, fdiv (-wheelWidth) 2, fdiv carLength 2),
      (fdiv carWidth 2, fdiv (-wheelWidth) 2, fdiv carLength 2) ]
  (wheelOffsets.foldl (wheel wheelRadius) cabin).result

/-- The function `generateObstacleData`: the cube. -/
def generateObstacleData (size : ℚ) : MeshArrays :=
  { a_position :=
      ([ -0.5, -0.5, 0.5,
         0.5, -0.5, 0.5,
         0.5, 0.5, 0.5,
         -0.5, 0.5, 0.5,
         -0.5, -0.5, -0.5,
         -0.5, 0.5, -0.5,
         0.5, 0.5, -0.5,
         0.5, -0.5, -0.5,
         -0.5, 0.5, -0.5,
         -0.5, 0.5, 0.5,
         0.5, 0.5, 0.5,
         0.5, 0.5, -0.5,
         -0.5, -0.5, -0.5,
         0.5, -0.5, -0.5,
         0.5, -0.5, 0.5,
         -0.5, -0.5, 0.5,
         0.5, -0.5, -0.5,
         0.5, 0.5, -0.5,
         0.5, 0.5, 0.5,
         0.5, -0.5, 0.5,
         -0.5, -0.5, -0.5,
         -0.5, -0.5, 0.5,
         -0.5, 0.5, 0.5,
         -0.5, 0.5, -0.5 ] : List ℚ).map (fun e => fmul size e)
    a_color :=
      [ 0, 0, 0, 1,
        0, 0, 0, 1,
        0, 0, 0, 1,
        0, 0, 0, 1,
        roundToDouble 0.333, roundToDouble 0.333, roundToDouble 0.333, 1,
        roundToDouble 0.333, roundToDouble 0.333, roundToDouble 0.333, 1,
        roundToDouble 0.333, roundToDouble 0.333, roundToDouble 0.333, 1,
        roundToDouble 0.333, roundToDouble 0.333, roundToDouble 0.333, 1,
        0.5, 0.5, 0.5, 1,
        0.5, 0.5, 0.5, 1,
        0.5, 0.5, 0.5, 1,
        0.5, 0.5, 0.5, 1,
        roundToDouble 0.666, roundToDouble 0.666, roundToDouble 0.666, 1,
        roundToDouble 0.666, roundToDouble 0.666, roundToDouble 0.666, 1,
        roundToDouble 0.666, roundToDouble 0.666, roundToDouble 0.666, 1,
        roundToDouble 0.666, roundToDouble 0.666, roundToDouble 0.666, 1,
        roundToDouble 0.833, roundToDouble 0.833, roundToDouble 0.833, 1,
        roundToDouble 0.833, roundToDouble 0.833, roundToDouble 0.833, 1,
        roundToDouble 0.833, roundToDouble 0.833, roundToDouble 0.833, 1,
        roundToDouble 0.833, roundToDouble 0.833, roundToDouble 0.833, 1,
        1, 1, 1, 1,
        1, 1, 1, 1,
        1, 1, 1, 1,
        1, 1, 1, 1 ]
    indices :=
      [ 0, 1, 2, 0, 2, 3,
        4, 5, 6, 4, 6, 7,
        8, 9, 10, 8, 10, 11,
        12, 13, 14, 12, 14, 15,
        16, 17, 18, 16, 18, 19,
        20, 21, 22, 20, 22, 23 ] }

/-! ## The render loop and `addAgent` -/

/-- What one call of `drawScene` does, in order. -/
inductive FrameEvent where
  /-- The synchronous draw work: resize, clear, the static batches, agents, obstacles. -/
  | draw
  /-- The call `update()`, which issues the request `GET /update`. -/
  | update
  /-- The promise of `update()` has settled and `await update()` returns. -/
  | updateSettled
  /-- The call `requestAnimationFrame(...)`, which schedules the next frame. -/
  | requestAnimationFrame
deriving DecidableEq, Repr

/-- One call of `drawScene`: from the value of `frameCount` before the call and whether
the promise of `update()` ever settles, the value of `frameCount` after it and what the
call does.  The statements after `await update()` run only once that promise has
settled. -/
def drawScene (frameCount : Nat) (updateSettles : Bool) : Nat × List FrameEvent :=
  let frameCount := frameCount + 1
  if frameCount % 30 = 0 then
    if updateSettles then
      (frameCount, [.draw, .update, .updateSettled, .requestAnimationFrame])
    else
      (frameCount, [.draw, .update])
  else
    (frameCount, [.draw, .requestAnimationFrame])

/-- Outcome of `await response.json()` in `addAgent`, of which `message` is read. -/
inductive MessageResult where
  /-- The promise rejects: the body is not JSON. -/
  | rejected
  /-- The body is `null`, so that reading `result.message` throws. -/
  | null
  /-- Any other value: `result.message` is read and logged. -/
  | value
deriving DecidableEq, Repr

/-- The parts of the response to `POST /addAgent` the client reads. -/
structure AddResponse where
  ok : Bool
  json : MessageResult
deriving DecidableEq, Repr

/-- Outcome of `await fetch(agent_server_uri + "addAgent", ...)`. -/
inductive AddFetchResult where
  /-- The promise rejects: network error. -/
  | rejected
  | resolved (response : AddResponse)
deriving DecidableEq, Repr

/-- The function `addAgent`, given the outcome of its own request and of the request
`getAgents` makes when it is called. -/
def addAgent (addFetched : AddFetchResult) (agentsFetched : FetchResult) : Js Unit :=
  tryCatch
    (do
      let response ← (match addFetched with
        | .rejected => throw "TypeError: Failed to fetch"
        | .resolved response => pure response : Js AddResponse)
      if response.ok then
        match response.json with
        | .rejected => throw "SyntaxError: Unexpected token"
        | .null => throw "TypeError: Cannot read properties of null"
        | .value => getAgents agentsFetched)
    (fun _ => pure ())

/-! ## Auxiliary definitions used to state the results -/

/-- The position array `[agent.x, agent.y, agent.z]` built from a snapshot entry. -/
def AgentSnapshot.pos (agent : AgentSnapshot) : List Int :=
  [agent.x, agent.y, agent.z]

/-- The last entry of a snapshot that carries the given id, if there is one. -/
def lastEntryFor (positions : List AgentSnapshot) (id : Nat) : Option AgentSnapshot :=
  (positions.filter (fun agent => agent.id = id)).getLast?

/-- The update half of the loop body: what `syncStep` does to the part of the array
that existed before the loop. -/
def updateStep (existing : List Object3D) (agents : List Object3D) (agent : AgentSnapshot) :
    List Object3D :=
  match existingAgentsGet agent.id existing with
  | some j => setPositionAt agents j [agent.x, agent.y, agent.z]
  | none => agents

/-- The objects the loop pushes, in the order it pushes them. -/
def newAgents (existing : List Object3D) (positions : List AgentSnapshot) : List Object3D :=
  (positions.filter (fun agent => (existingAgentsGet agent.id existing).isNone)).map
    (fun agent => Object3D.construct agent.id (some [agent.x, agent.y, agent.z]) none none)

/-- The request threw or came back with a non-success status. -/
def FetchResult.requestFailed : FetchResult → Bool
  | .rejected => true
  | .resolved response => !response.ok

/-- The parsed `positions` field is a list all of whose items are objects. -/
def PositionsField.usable : PositionsField → Bool
  | .unusable => false
  | .array items => items.all Option.isSome

/-- The body of the response carries a usable `positions` list. -/
def Response.hasUsablePositions (response : Response) : Bool :=
  match response.json with
  | .rejected => false
  | .value positions => positions.usable

/-- A failed `getAgents` fetch: the request threw, the status is not a success, or the
body has no usable `positions` list. -/
def FetchResult.failed : FetchResult → Bool
  | .rejected => true
  | .resolved response => !response.ok || !response.hasUsablePositions

/-- A line is blank when it consists of white space only (the empty line included). -/
def isBlank (line : List Char) : Bool :=
  line.all isTrimChar

/-- The positions `scanRow` appends for one row, read off the row directly. -/
def rowHits (test : Char → Bool) (z : Nat) : List Char → Nat → List Coord
  | [], _ => []
  | char :: rest, x => (if test char then [⟨x, z⟩] else []) ++ rowHits test z rest (x + 1)

/-- The positions `scanRows` appends for a list of rows, read off the rows directly. -/
def gridHits (test : Char → Bool) : List (List Char) → Nat → List Coord
  | [], _ => []
  | row :: rest, z => rowHits test z row 0 ++ gridHits test rest (z + 1)

/-- Row-major order on coordinates: `z` ascending, then `x` ascending. -/
def rowMajorLt (p q : Coord) : Prop :=
  p.z < q.z ∨ (p.z = q.z ∧ p.x < q.x)

/-- Exact extraction of a symbol class: `out` contains `{x, z}` if and only if the
character at column `x` of the `z`-th non-blank row of the text is one of `symbols`,
it contains no coordinate twice, and it is in row-major order. -/
def ExtractsExactly (symbols : List Char) (fileContent : List Char) (out : List Coord) : Prop :=
  (∀ x z : Nat, (⟨x, z⟩ : Coord) ∈ out ↔
      ∃ row char, ((splitLines fileContent).filter (fun line => !isBlank line))[z]? = some row ∧
        row[x]? = some char ∧ char ∈ symbols) ∧
    out.Nodup ∧ out.Pairwise rowMajorLt

/-- The text whose lines are the given ones: the lines joined by line feeds. -/
def joinLines : List (List Char) → List Char
  | [] => []
  | [line] => line
  | line :: rest => line ++ '\n' :: joinLines rest

/-- The steps of `main` that build geometry, post `init`, or start drawing. -/
def MainStep.isStartupWork : MainStep → Bool
  | .buildStaticGeometry _ _ _ _ => true
  | .buildDynamicGeometry => true
  | .initAgentsModel _ => true
  | .drawScene => true
  | _ => false

/-- Well-formedness of a batch: `a_position` holds whole vertices, there is one colour
for each vertex, `indices` holds whole triangles, and every index names a vertex. -/
def MeshArrays.WellFormed (m : MeshArrays) : Prop :=
  m.a_position.length % 3 = 0 ∧
    m.a_color.length = 4 * (m.a_position.length / 3) ∧
    m.indices.length % 3 = 0 ∧
    ∀ i ∈ m.indices, i < m.a_position.length / 3

/-- The invariant of the local variables of a builder: `vertexIndex` is the number of
vertices pushed so far, each has its colour, and every index pushed so far names one of
them. -/
def Builder.Inv (b : Builder) : Prop :=
  b.vertices.length = 3 * b.vertexIndex ∧
    b.colors.length = 4 * b.vertexIndex ∧
    b.indices.length % 3 = 0 ∧
    ∀ i ∈ b.indices, i < b.vertexIndex

/-- The 24 numbers `blueCube` pushes onto `vertices` for one position. -/
def blueCubeVertices (size random : ℚ) (p : Coord) : List ℚ :=
  (blueCube size random Builder.empty p).vertices

/-- The numbers `blueCubesLoop` pushes onto `vertices`, cuboid after cuboid. -/
def blueCubeBlocks (size : ℚ) : (Nat → ℚ) → List Coord → List ℚ
  | _, [] => []
  | random, p :: rest =>
    blueCubeVertices size (random 0) p ++ blueCubeBlocks size (fun n => random (n + 1)) rest

/-- The value of `frameCount` after `n` calls of `drawScene`, starting from 0 (each
call returns, so that the next frame is scheduled, only if its refresh settles). -/
def frameCountAfter : Nat → Nat
  | 0 => 0
  | n + 1 => (drawScene (frameCountAfter n) true).1

/-- The request of `addAgent` succeeded and its body could be read. -/
def AddFetchResult.succeeded : AddFetchResult → Bool
  | .resolved ⟨true, .value⟩ => true
  | _ => false

/-- What the removal loop leaves of the array it is started on: an agent whose id the
snapshot has is kept; an agent with a stale id is removed, and the agent behind it, which
moves into the vacated slot, is never visited and so is kept. -/
def sweep (has : Nat → Bool) : List Object3D → List Object3D
  | [] => []
  | [a] => if has a.id then [a] else []
  | a :: b :: rest => if has a.id then a :: sweep has (b :: rest) else b :: sweep has rest

/-- The update of one agent of the registry by a snapshot: its position becomes that of
the last snapshot entry with its id, if there is one. -/
def updateOne (positions : List AgentSnapshot) (a : Object3D) : Object3D :=
  match lastEntryFor positions a.id with
  | some e => { a with position := e.pos }
  | none => a

/-- An agent with its position blanked: what reconciliation never changes of it. -/
def Object3D.withoutPosition (a : Object3D) : Object3D :=
  { a with position := [] }

/-- Every index of the `k`-th group of `m` indices (the indices of the `k`-th primitive)
lies in the `k`-th block of `v` vertices, `[v * k, v * k + v - 1]`. -/
def IndicesInOwnBlock (v m : Nat) (indices : List Nat) : Prop :=
  ∀ k j idx, j < m → indices[m * k + j]? = some idx → v * k ≤ idx ∧ idx ≤ v * k + (v - 1)

/-- The state of a builder after `n` primitives of `v` vertices and `m` indices each:
the cursor `vertexIndex` stands at `v * n` and every primitive refers to its own
vertices only. -/
def Builder.Blocks (v m n : Nat) (b : Builder) : Prop :=
  b.vertexIndex = v * n ∧ b.indices.length = m * n ∧ IndicesInOwnBlock v m b.indices

/-- The depth at which stripe `i` of the crossing in row `z` begins: the value `baseZ`
of `generateZebraCrossings`, `z * size + -0.35 + i * stripeWidth` in doubles. -/
def stripeStart (size : ℚ) (z i : Nat) : ℚ :=
  fadd (fadd (fmul (z : ℚ) size) (-roundToDouble 0.35)) (fmul (i : ℚ) (fdiv size 6))

/-- The depth at which stripe `i` of the crossing in row `z` ends: the value
`baseZ + stripeWidth` of `generateZebraCrossings`. -/
def stripeEnd (size : ℚ) (z i : Nat) : ℚ :=
  fadd (stripeStart size z i) (fdiv size 6)

/-- The X coordinate of the left edge of the crossing in column `x`: the value
`baseX - size / 2` of `generateZebraCrossings`, with `baseX = x * size + 0.05`. -/
def crossingLeft (size : ℚ) (x : Nat) : ℚ :=
  fsub (fadd (fmul (x : ℚ) size) (roundToDouble 0.05)) (fdiv size 2)

/-- The X coordinate of the right edge of the crossing in column `x`: the value
`baseX + size / 2` of `generateZebraCrossings`. -/
def crossingRight (size : ℚ) (x : Nat) : ℚ :=
  fadd (fadd (fmul (x : ℚ) size) (roundToDouble 0.05)) (fdiv size 2)

/-- The function `f` is linear up to rounding: `f x` is `x * l` for a coefficient `l` of
magnitude at most `L`, up to an error of at most `|x| * A + B`. -/
def NearLinear (f : ℚ → ℚ) (L A B : ℚ) : Prop :=
  ∃ l : ℚ, |l| ≤ L ∧ ∀ x : ℚ, |f x - x * l| ≤ |x| * A + B

/-! ## Lemmas on the `existingAgents` map and on position updates -/

theorem existingAgentsGet_eq_none {id : Nat} {agents : List Object3D} :
    existingAgentsGet id agents = none ↔ id ∉ agents.map (fun a => a.id) := by
  induction agents with
  | nil => simp [existingAgentsGet]
  | cons a rest ih =>
    simp only [existingAgentsGet, List.map_cons, List.mem_cons, not_or]
    cases h : existingAgentsGet id rest with
    | some j =>
      have hmem : id ∈ rest.map (fun a => a.id) := by
        by_contra hn
        rw [ih.mpr hn] at h; cases h
      simp only [reduceCtorEq, false_iff, not_and, not_not]
      exact fun _ => hmem
    | none =>
      have := ih.mp h
      by_cases hid : a.id = id
      · simp [hid]
      · simp [hid, this, Ne.symm hid]

theorem existingAgentsGet_some {id : Nat} {agents : List Object3D} {j : Nat}
    (h : existingAgentsGet id agents = some j) :
    ∃ a, agents[j]? = some a ∧ a.id = id := by
  induction agents generalizing j with
  | nil => simp [existingAgentsGet] at h
  | cons a rest ih =>
    simp only [existingAgentsGet] at h
    cases h1 : existingAgentsGet id rest with
    | some k =>
      rw [h1] at h
      obtain ⟨b, hb, hbid⟩ := ih h1
      cases h
      exact ⟨b, by simpa using hb, hbid⟩
    | none =>
      rw [h1] at h
      by_cases hid : a.id = id
      · simp [hid] at h
        subst h
        exact ⟨a, by simp, hid⟩
      · simp [hid] at h

theorem existingAgentsGet_lt {id : Nat} {agents : List Object3D} {j : Nat}
    (h : existingAgentsGet id agents = some j) : j < agents.length := by
  obtain ⟨a, ha, _⟩ := existingAgentsGet_some h
  exact (List.getElem?_eq_some.mp ha).1

theorem length_setPositionAt (agents : List Object3D) (j : Nat) (p : List Int) :
    (setPositionAt agents j p).length = agents.length := by
  induction agents generalizing j with
  | nil => rfl
  | cons a rest ih => cases j <;> simp [setPositionAt, ih]

theorem map_id_setPositionAt (agents : List Object3D) (j : Nat) (p : List Int) :
    (setPositionAt agents j p).map (fun a => a.id) = agents.map (fun a => a.id) := by
  induction agents generalizing j with
  | nil => rfl
  | cons a rest ih => cases j <;> simp [setPositionAt, ih]

theorem setPositionAt_append (front back : List Object3D) (j : Nat) (p : List Int)
    (h : j < front.length) :
    setPositionAt (front ++ back) j p = setPositionAt front j p ++ back := by
  induction front generalizing j with
  | nil => simp at h
  | cons a rest ih =>
    cases j with
    | zero => rfl
    | succ k =>
      simp only [List.cons_append, setPositionAt, List.cons.injEq, true_and]
      exact ih k (by simpa using h)

theorem get?_setPositionAt_self (agents : List Object3D) (j : Nat) (p : List Int) :
    (setPositionAt agents j p)[j]?
      = (agents[j]?).map (fun a => { a with position := p }) := by
  induction agents generalizing j with
  | nil => rfl
  | cons a rest ih =>
    cases j with
    | zero => simp [setPositionAt]
    | succ k => simpa [setPositionAt] using ih k

theorem get?_setPositionAt_ne (agents : List Object3D) {i j : Nat} (p : List Int) (h : i ≠ j) :
    (setPositionAt agents j p)[i]? = agents[i]? := by
  induction agents generalizing i j with
  | nil => rfl
  | cons a rest ih =>
    cases j with
    | zero =>
      cases i with
      | zero => exact absurd rfl h
      | succ k => simp [setPositionAt]
    | succ m =>
      cases i with
      | zero => simp [setPositionAt]
      | succ k =>
        simp only [setPositionAt, List.getElem?_cons_succ]
        exact ih (fun hkm => h (by rw [hkm]))

/-! ## The update loop -/

theorem length_updateStep (existing agents : List Object3D) (agent : AgentSnapshot) :
    (updateStep existing agents agent).length = agents.length := by
  unfold updateStep
  cases existingAgentsGet agent.id existing <;> simp [length_setPositionAt]

theorem map_id_updateStep (existing agents : List Object3D) (agent : AgentSnapshot) :
    (updateStep existing agents agent).map (fun a => a.id) = agents.map (fun a => a.id) := by
  unfold updateStep
  cases existingAgentsGet agent.id existing <;> simp [map_id_setPositionAt]

theorem length_foldl_updateStep (existing : List Object3D) (positions : List AgentSnapshot)
    (agents : List Object3D) :
    (positions.foldl (updateStep existing) agents).length = agents.length := by
  induction positions generalizing agents with
  | nil => rfl
  | cons e rest ih => rw [List.foldl_cons, ih, length_updateStep]

theorem map_id_foldl_updateStep (existing : List Object3D) (positions : List AgentSnapshot)
    (agents : List Object3D) :
    (positions.foldl (updateStep existing) agents).map (fun a => a.id)
      = agents.map (fun a => a.id) := by
  induction positions generalizing agents with
  | nil => rfl
  | cons e rest ih => rw [List.foldl_cons, ih, map_id_updateStep]

/-- The loop splits into updates of the old part of the array and pushes behind it. -/
theorem syncLoop_append (existing : List Object3D) (positions : List AgentSnapshot)
    (front back : List Object3D) (h : front.length = existing.length) :
    syncLoop existing (front ++ back) positions
      = positions.foldl (updateStep existing) front ++ back ++ newAgents existing positions := by
  induction positions generalizing front back with
  | nil => simp [syncLoop, newAgents]
  | cons e rest ih =>
    unfold syncLoop at ih ⊢
    rw [List.foldl_cons, List.foldl_cons]
    cases hget : existingAgentsGet e.id existing with
    | some j =>
      have hj : j < front.length := h ▸ existingAgentsGet_lt hget
      have h1 : syncStep existing (front ++ back) e
          = setPositionAt front j [e.x, e.y, e.z] ++ back := by
        simp only [syncStep, hget]
        exact setPositionAt_append front back j _ hj
      have h2 : updateStep existing front e = setPositionAt front j [e.x, e.y, e.z] := by
        simp only [updateStep, hget]
      have h3 : newAgents existing (e :: rest) = newAgents existing rest := by
        simp [newAgents, hget]
      rw [h1, h2, h3]
      exact ih _ _ (by rw [length_setPositionAt, h])
    | none =>
      have h1 : syncStep existing (front ++ back) e
          = front ++ (back ++ [Object3D.construct e.id (some [e.x, e.y, e.z]) none none]) := by
        simp only [syncStep, hget, List.append_assoc]
      have h2 : updateStep existing front e = front := by
        simp only [updateStep, hget]
      have h3 : newAgents existing (e :: rest)
          = Object3D.construct e.id (some [e.x, e.y, e.z]) none none
              :: newAgents existing rest := by
        simp [newAgents, hget]
      rw [h1, h2, h3, ih _ _ h]
      simp

theorem syncLoop_eq (agents : List Object3D) (positions : List AgentSnapshot) :
    syncLoop agents agents positions
      = positions.foldl (updateStep agents) agents ++ newAgents agents positions := by
  have := syncLoop_append agents positions agents [] rfl
  simpa using this

theorem lastEntryFor_concat (positions : List AgentSnapshot) (e : AgentSnapshot) (id : Nat) :
    lastEntryFor (positions ++ [e]) id
      = if e.id = id then some e else lastEntryFor positions id := by
  unfold lastEntryFor
  by_cases h : e.id = id
  · simp [List.filter_append, h, List.getLast?_concat]
  · simp [List.filter_append, h]

theorem lastEntryFor_isSome {positions : List AgentSnapshot} {id : Nat}
    (h : id ∈ positions.map (fun agent => agent.id)) :
    ∃ e, lastEntryFor positions id = some e ∧ e ∈ positions ∧ e.id = id := by
  obtain ⟨e0, he0, hid0⟩ := List.mem_map.mp h
  have hne : positions.filter (fun agent => agent.id = id) ≠ [] := by
    intro hnil
    have : e0 ∈ positions.filter (fun agent => agent.id = id) :=
      List.mem_filter.mpr ⟨he0, by simpa using hid0⟩
    rw [hnil] at this
    cases this
  refine ⟨(positions.filter (fun agent => agent.id = id)).getLast hne, ?_, ?_⟩
  · unfold lastEntryFor
    exact List.getLast?_eq_getLast _ hne
  · have hm := List.getLast_mem hne
    have := List.mem_filter.mp hm
    exact ⟨this.1, by simpa using this.2⟩

/-- After the update loop the object the map holds under `id` carries the position of
the last snapshot entry with that id, and is otherwise as before. -/
theorem getElem?_foldl_updateStep (existing : List Object3D) {id j : Nat}
    (h : existingAgentsGet id existing = some j) (positions : List AgentSnapshot)
    (agents : List Object3D) :
    (positions.foldl (updateStep existing) agents)[j]?
      = (agents[j]?).map (fun a =>
          match lastEntryFor positions id with
          | some e => { a with position := e.pos }
          | none => a) := by
  induction positions using List.reverseRecOn with
  | nil => simp [lastEntryFor]
  | append_singleton rest e ih =>
    rw [List.foldl_append, List.foldl_cons, List.foldl_nil, lastEntryFor_concat]
    by_cases hid : e.id = id
    · have hstep : ∀ l, updateStep existing l e = setPositionAt l j [e.x, e.y, e.z] := by
        intro l
        simp only [updateStep, hid, h]
      rw [hstep, get?_setPositionAt_self, ih, Option.map_map]
      simp only [hid, if_true]
      congr 1
      funext a
      cases lastEntryFor rest id <;> rfl
    · simp only [hid, if_false]
      rw [← ih]
      unfold updateStep
      cases hget : existingAgentsGet e.id existing with
      | none => rfl
      | some k =>
        have hkj : j ≠ k := by
          intro hjk
          subst hjk
          obtain ⟨a, ha, haid⟩ := existingAgentsGet_some h
          obtain ⟨b, hb, hbid⟩ := existingAgentsGet_some hget
          rw [ha] at hb
          cases hb
          exact hid (hbid.symm.trans haid)
        exact get?_setPositionAt_ne _ _ hkj

/-! ## The removal loop -/

theorem spliceLoop_sublist (has : Nat → Bool) (remaining index : Nat) (agents : List Object3D) :
    (spliceLoop has remaining index agents).Sublist agents := by
  induction remaining generalizing index agents with
  | zero => exact List.Sublist.refl _
  | succ n ih =>
    unfold spliceLoop
    cases hget : agents[index]? with
    | none => exact ih _ _
    | some a =>
      by_cases hh : has a.id
      · simpa [hh] using ih (index + 1) agents
      · simp only [hh, Bool.not_false, if_true]
        exact (ih _ _).trans (List.eraseIdx_sublist _ _)

theorem filter_eraseIdx_of_false {α : Type} (p : α → Bool) (l : List α) (k : Nat) (a : α)
    (h : l[k]? = some a) (hp : p a = false) : (l.eraseIdx k).filter p = l.filter p := by
  induction l generalizing k with
  | nil => simp at h
  | cons b rest ih =>
    cases k with
    | zero =>
      simp only [List.getElem?_cons_zero, Option.some.injEq] at h
      subst h
      simp [hp]
    | succ m =>
      simp only [List.getElem?_cons_succ] at h
      simp only [List.eraseIdx_cons_succ, List.filter_cons, ih m h]

/-- The removal loop never removes an agent whose id is in the snapshot. -/
theorem filter_spliceLoop (has : Nat → Bool) (remaining index : Nat) (agents : List Object3D) :
    (spliceLoop has remaining index agents).filter (fun a => has a.id)
      = agents.filter (fun a => has a.id) := by
  induction remaining generalizing index agents with
  | zero => rfl
  | succ n ih =>
    unfold spliceLoop
    cases hget : agents[index]? with
    | none => exact ih _ _
    | some a =>
      by_cases hh : has a.id
      · simpa [hh] using ih (index + 1) agents
      · simp only [hh, Bool.not_false, if_true]
        rw [ih]
        exact filter_eraseIdx_of_false _ agents index a hget (by simpa using hh)

theorem mem_spliceLoop_of_has {has : Nat → Bool} {remaining index : Nat}
    {agents : List Object3D} {a : Object3D} (ha : a ∈ agents) (hh : has a.id = true) :
    a ∈ spliceLoop has remaining index agents := by
  have h1 : a ∈ agents.filter (fun a => has a.id) := List.mem_filter.mpr ⟨ha, hh⟩
  rw [← filter_spliceLoop has remaining index agents] at h1
  exact (List.mem_filter.mp h1).1

theorem filter_id_spliceLoop (has : Nat → Bool) (remaining index : Nat)
    (agents : List Object3D) (id : Nat) (hh : has id = true) :
    (spliceLoop has remaining index agents).filter (fun a => a.id = id)
      = agents.filter (fun a => a.id = id) := by
  have key : ∀ l : List Object3D,
      l.filter (fun a => a.id = id) = (l.filter (fun a => has a.id)).filter (fun a => a.id = id) := by
    intro l
    rw [List.filter_filter]
    apply List.filter_congr
    intro a _
    by_cases haid : a.id = id
    · simp [haid, hh]
    · simp [haid]
  rw [key, filter_spliceLoop, ← key]

theorem serverAgentIdsHas_iff (positions : List AgentSnapshot) (id : Nat) :
    serverAgentIdsHas positions id = true ↔ id ∈ positions.map (fun agent => agent.id) := by
  simp [serverAgentIdsHas]

/-! ## Reconciliation: results -/

theorem reconcile_eq (agents : List Object3D) (positions : List AgentSnapshot) :
    reconcile agents positions
      = spliceLoop (serverAgentIdsHas positions)
          (positions.foldl (updateStep agents) agents ++ newAgents agents positions).length 0
          (positions.foldl (updateStep agents) agents ++ newAgents agents positions) := by
  unfold reconcile removeStale
  rw [syncLoop_eq]

theorem mem_reconcile_of_mem_syncLoop {agents : List Object3D} {positions : List AgentSnapshot}
    {a : Object3D} (ha : a ∈ syncLoop agents agents positions)
    (hid : a.id ∈ positions.map (fun agent => agent.id)) :
    a ∈ reconcile agents positions :=
  mem_spliceLoop_of_has ha ((serverAgentIdsHas_iff positions a.id).mpr hid)

theorem mem_syncLoop_of_mem_reconcile {agents : List Object3D} {positions : List AgentSnapshot}
    {a : Object3D} (ha : a ∈ reconcile agents positions) :
    a ∈ syncLoop agents agents positions :=
  (spliceLoop_sublist _ _ _ _).subset ha

theorem mem_newAgents {existing : List Object3D} {positions : List AgentSnapshot}
    {a : Object3D} :
    a ∈ newAgents existing positions ↔
      ∃ e ∈ positions, e.id ∉ existing.map (fun b => b.id) ∧
        a = Object3D.construct e.id (some [e.x, e.y, e.z]) none none := by
  unfold newAgents
  simp only [List.mem_map, List.mem_filter, Option.isNone_iff_eq_none,
    existingAgentsGet_eq_none]
  constructor
  · rintro ⟨e, ⟨he, hnew⟩, rfl⟩
    exact ⟨e, he, hnew, rfl⟩
  · rintro ⟨e, he, hnew, rfl⟩
    exact ⟨e, ⟨he, hnew⟩, rfl⟩

theorem filter_id_eq_singleton {agents : List Object3D} {b : Object3D}
    (hnd : (agents.map (fun a => a.id)).Nodup) (hb : b ∈ agents) :
    agents.filter (fun a => a.id = b.id) = [b] := by
  induction agents with
  | nil => cases hb
  | cons c rest ih =>
    simp only [List.map_cons, List.nodup_cons, List.mem_map, not_exists, not_and] at hnd
    rcases List.mem_cons.mp hb with rfl | hrest
    · have : rest.filter (fun a => a.id = b.id) = [] := by
        rw [List.filter_eq_nil_iff]
        intro a ha
        simpa using hnd.1 a ha
      simp [List.filter_cons, this]
    · have hne : ¬ c.id = b.id := fun h => hnd.1 b hrest h.symm
      simp [List.filter_cons, hne, ih hnd.2 hrest]

/-- C1 (defect of the removal loop): with agents 1, 2, 3 in the registry and a snapshot
that lists only agent 3, the reconciliation body of `getAgents` removes agent 1, skips
agent 2, which has moved into the slot just vacated, and so leaves an agent whose id is
not in the snapshot. -/
theorem reconcile_leaves_stale_agent :
    reconcile
        [⟨1, [0, 0, 0], [0, 0, 0], [1, 1, 1], m4create⟩,
         ⟨2, [1, 0, 0], [0, 0, 0], [1, 1, 1], m4create⟩,
         ⟨3, [2, 0, 0], [0, 0, 0], [1, 1, 1], m4create⟩]
        [⟨3, 4, 0, 4⟩]
      = [⟨2, [1, 0, 0], [0, 0, 0], [1, 1, 1], m4create⟩,
         ⟨3, [4, 0, 4], [0, 0, 0], [1, 1, 1], m4create⟩]
    ∧ (2 : Nat) ∉ ([⟨3, 4, 0, 4⟩] : List AgentSnapshot).map (fun agent => agent.id) := by
  decide

/-- C2: after reconciliation every id of the snapshot is in the registry: for each
snapshot entry there is an agent with the entry's id whose position is `[x, y, z]` of
the last snapshot entry carrying that id. -/
theorem snapshot_ids_present (agents : List Object3D) (positions : List AgentSnapshot)
    (e : AgentSnapshot) (he : e ∈ positions) :
    ∃ last a, lastEntryFor positions e.id = some last ∧ last ∈ positions ∧ last.id = e.id ∧
      a ∈ reconcile agents positions ∧ a.id = e.id ∧
      a.position = [last.x, last.y, last.z] := by
  have hmem : e.id ∈ positions.map (fun agent => agent.id) := List.mem_map.mpr ⟨e, he, rfl⟩
  obtain ⟨last, hlast, hlastmem, hlastid⟩ := lastEntryFor_isSome hmem
  cases hget : existingAgentsGet e.id agents with
  | some j =>
    obtain ⟨a0, ha0, ha0id⟩ := existingAgentsGet_some hget
    have hX := getElem?_foldl_updateStep agents hget positions agents
    rw [ha0, hlast] at hX
    simp only [Option.map_some'] at hX
    refine ⟨last, { a0 with position := last.pos }, hlast, hlastmem, hlastid, ?_, ha0id, rfl⟩
    apply mem_reconcile_of_mem_syncLoop
    · rw [syncLoop_eq]
      exact List.mem_append_left _ (List.getElem?_mem hX)
    · simpa [ha0id] using hmem
  | none =>
    have hnew : last.id ∉ agents.map (fun b => b.id) := by
      rw [hlastid]
      exact existingAgentsGet_eq_none.mp hget
    refine ⟨last, Object3D.construct last.id (some [last.x, last.y, last.z]) none none,
      hlast, hlastmem, hlastid, ?_, hlastid, rfl⟩
    apply mem_reconcile_of_mem_syncLoop
    · rw [syncLoop_eq]
      exact List.mem_append_right _ (mem_newAgents.mpr ⟨last, hlastmem, hnew, rfl⟩)
    · simpa [Object3D.construct, hlastid] using hmem

theorem snapshot_ids_present_witness :
    (⟨7, 1, 0, 1⟩ : AgentSnapshot) ∈ [(⟨7, 1, 0, 1⟩ : AgentSnapshot), ⟨8, 3, 0, 3⟩, ⟨7, 2, 0, 2⟩] ∧
    ∃ last a, lastEntryFor [(⟨7, 1, 0, 1⟩ : AgentSnapshot), ⟨8, 3, 0, 3⟩, ⟨7, 2, 0, 2⟩] 7 = some last ∧
      last ∈ [(⟨7, 1, 0, 1⟩ : AgentSnapshot), ⟨8, 3, 0, 3⟩, ⟨7, 2, 0, 2⟩] ∧ last.id = 7 ∧
      a ∈ reconcile [⟨8, [0, 0, 0], [0, 0, 0], [1, 1, 1], m4create⟩]
            [⟨7, 1, 0, 1⟩, ⟨8, 3, 0, 3⟩, ⟨7, 2, 0, 2⟩] ∧
      a.id = 7 ∧ a.position = [last.x, last.y, last.z] :=
  ⟨by decide,
    snapshot_ids_present [⟨8, [0, 0, 0], [0, 0, 0], [1, 1, 1], m4create⟩]
      [⟨7, 1, 0, 1⟩, ⟨8, 3, 0, 3⟩, ⟨7, 2, 0, 2⟩] ⟨7, 1, 0, 1⟩ (by decide)⟩

/-- C3: an agent whose id is in the registry (ids pairwise distinct) and in the snapshot
is, after reconciliation, the only agent with that id, and it is the old agent with its
position replaced by `[x, y, z]` of the last snapshot entry with that id: id, rotation,
scale and matrix are unchanged. -/
theorem update_keeps_rotation_scale (agents : List Object3D) (positions : List AgentSnapshot)
    (a : Object3D) (hnd : (agents.map (fun b => b.id)).Nodup) (ha : a ∈ agents)
    (hS : a.id ∈ positions.map (fun agent => agent.id)) :
    ∃ last, lastEntryFor positions a.id = some last ∧ last ∈ positions ∧ last.id = a.id ∧
      (reconcile agents positions).filter (fun b => b.id = a.id)
        = [{ a with position := [last.x, last.y, last.z] }] := by
  obtain ⟨last, hlast, hlastmem, hlastid⟩ := lastEntryFor_isSome hS
  refine ⟨last, hlast, hlastmem, hlastid, ?_⟩
  have hin : a.id ∈ agents.map (fun b => b.id) := List.mem_map.mpr ⟨a, ha, rfl⟩
  cases hget : existingAgentsGet a.id agents with
  | none => exact absurd hin (existingAgentsGet_eq_none.mp hget)
  | some j =>
    obtain ⟨a0, ha0, ha0id⟩ := existingAgentsGet_some hget
    have ha0a : a0 = a :=
      List.inj_on_of_nodup_map hnd (List.getElem?_mem ha0) ha ha0id
    subst ha0a
    have hX := getElem?_foldl_updateStep agents hget positions agents
    rw [ha0, hlast] at hX
    simp only [Option.map_some'] at hX
    have hXnd : ((positions.foldl (updateStep agents) agents).map (fun b => b.id)).Nodup := by
      rw [map_id_foldl_updateStep]
      exact hnd
    have hnewnil : (newAgents agents positions).filter (fun b => b.id = a0.id) = [] := by
      rw [List.filter_eq_nil_iff]
      intro b hb
      obtain ⟨e, _, hnew, rfl⟩ := mem_newAgents.mp hb
      simp only [Object3D.construct, decide_eq_true_eq]
      intro heq
      exact hnew (heq ▸ hin)
    unfold reconcile removeStale
    rw [filter_id_spliceLoop _ _ _ _ _ ((serverAgentIdsHas_iff positions a0.id).mpr hS),
      syncLoop_eq, List.filter_append, hnewnil, List.append_nil]
    exact filter_id_eq_singleton hXnd (List.getElem?_mem hX)

theorem update_keeps_rotation_scale_witness :
    (([⟨1, [0, 0, 0], [0, 9, 0], [2, 2, 2], [5]⟩, ⟨2, [1, 0, 0], [0, 0, 0], [1, 1, 1], []⟩] :
        List Object3D).map (fun b => b.id)).Nodup ∧
    ∃ last, lastEntryFor [(⟨1, 5, 0, 5⟩ : AgentSnapshot), ⟨1, 6, 0, 6⟩] 1 = some last ∧
      last ∈ [(⟨1, 5, 0, 5⟩ : AgentSnapshot), ⟨1, 6, 0, 6⟩] ∧ last.id = 1 ∧
      (reconcile [⟨1, [0, 0, 0], [0, 9, 0], [2, 2, 2], [5]⟩, ⟨2, [1, 0, 0], [0, 0, 0], [1, 1, 1], []⟩]
          [⟨1, 5, 0, 5⟩, ⟨1, 6, 0, 6⟩]).filter (fun b => b.id = 1)
        = [⟨1, [last.x, last.y, last.z], [0, 9, 0], [2, 2, 2], [5]⟩] :=
  ⟨by decide,
    update_keeps_rotation_scale
      [⟨1, [0, 0, 0], [0, 9, 0], [2, 2, 2], [5]⟩, ⟨2, [1, 0, 0], [0, 0, 0], [1, 1, 1], []⟩]
      [⟨1, 5, 0, 5⟩, ⟨1, 6, 0, 6⟩] ⟨1, [0, 0, 0], [0, 9, 0], [2, 2, 2], [5]⟩
      (by decide) (by decide) (by decide)⟩

/-- C4: a snapshot entry whose id is not in the registry appears after reconciliation as
the agent `new Object3D(id, [x, y, z])`, with rotation `[0, 0, 0]` and scale `[1, 1, 1]`;
and every agent that then carries this id has the default rotation and scale and the
position of a snapshot entry with this id. -/
theorem new_agents_get_defaults (agents : List Object3D) (positions : List AgentSnapshot)
    (e : AgentSnapshot) (he : e ∈ positions) (hnew : e.id ∉ agents.map (fun b => b.id)) :
    (⟨e.id, [e.x, e.y, e.z], [0, 0, 0], [1, 1, 1], m4create⟩ : Object3D)
        ∈ reconcile agents positions ∧
      ∀ a ∈ reconcile agents positions, a.id = e.id →
        a.rotation = [0, 0, 0] ∧ a.scale = [1, 1, 1] ∧
          ∃ e2 ∈ positions, e2.id = e.id ∧ a.position = [e2.x, e2.y, e2.z] := by
  constructor
  · apply mem_reconcile_of_mem_syncLoop
    · rw [syncLoop_eq]
      exact List.mem_append_right _ (mem_newAgents.mpr ⟨e, he, hnew, rfl⟩)
    · exact List.mem_map.mpr ⟨e, he, rfl⟩
  · intro a ha haid
    have hsync := mem_syncLoop_of_mem_reconcile ha
    rw [syncLoop_eq] at hsync
    rcases List.mem_append.mp hsync with hold | hpushed
    · exfalso
      apply hnew
      rw [← haid, ← map_id_foldl_updateStep agents positions agents]
      exact List.mem_map.mpr ⟨a, hold, rfl⟩
    · obtain ⟨e2, he2, _, rfl⟩ := mem_newAgents.mp hpushed
      exact ⟨rfl, rfl, e2, he2, haid, rfl⟩

theorem new_agents_get_defaults_witness :
    ((⟨3, 0, 0, 0⟩ : AgentSnapshot) ∈ [(⟨2, 5, 0, 5⟩ : AgentSnapshot), ⟨3, 0, 0, 0⟩] ∧
      (3 : Nat) ∉ ([⟨2, [1, 0, 0], [0, 0, 0], [1, 1, 1], m4create⟩] : List Object3D).map
        (fun b => b.id)) ∧
    ((⟨3, [0, 0, 0], [0, 0, 0], [1, 1, 1], m4create⟩ : Object3D)
        ∈ reconcile [⟨2, [1, 0, 0], [0, 0, 0], [1, 1, 1], m4create⟩]
            [⟨2, 5, 0, 5⟩, ⟨3, 0, 0, 0⟩] ∧
      ∀ a ∈ reconcile [⟨2, [1, 0, 0], [0, 0, 0], [1, 1, 1], m4create⟩]
            [⟨2, 5, 0, 5⟩, ⟨3, 0, 0, 0⟩], a.id = 3 →
        a.rotation = [0, 0, 0] ∧ a.scale = [1, 1, 1] ∧
          ∃ e2 ∈ [(⟨2, 5, 0, 5⟩ : AgentSnapshot), ⟨3, 0, 0, 0⟩],
            e2.id = 3 ∧ a.position = [e2.x, e2.y, e2.z]) :=
  ⟨⟨by decide, by decide⟩,
    new_agents_get_defaults [⟨2, [1, 0, 0], [0, 0, 0], [1, 1, 1], m4create⟩]
      [⟨2, 5, 0, 5⟩, ⟨3, 0, 0, 0⟩] ⟨3, 0, 0, 0⟩ (by decide) (by decide)⟩

/-- C5 (defect of the removal loop): reconciling the same snapshot a second time changes
the registry.  With agents 1, 2, 3 and a snapshot listing only agent 3, the first pass
leaves agents 2 and 3, and the second pass then removes agent 2. -/
theorem reconcile_twice_differs :
    reconcile
        (reconcile
          [⟨1, [0, 0, 0], [0, 0, 0], [1, 1, 1], m4create⟩,
           ⟨2, [1, 0, 0], [0, 0, 0], [1, 1, 1], m4create⟩,
           ⟨3, [2, 0, 0], [0, 0, 0], [1, 1, 1], m4create⟩]
          [⟨3, 4, 0, 4⟩])
        [⟨3, 4, 0, 4⟩]
      = [⟨3, [4, 0, 4], [0, 0, 0], [1, 1, 1], m4create⟩]
    ∧ reconcile
        (reconcile
          [⟨1, [0, 0, 0], [0, 0, 0], [1, 1, 1], m4create⟩,
           ⟨2, [1, 0, 0], [0, 0, 0], [1, 1, 1], m4create⟩,
           ⟨3, [2, 0, 0], [0, 0, 0], [1, 1, 1], m4create⟩]
          [⟨3, 4, 0, 4⟩])
        [⟨3, 4, 0, 4⟩]
      ≠ reconcile
          [⟨1, [0, 0, 0], [0, 0, 0], [1, 1, 1], m4create⟩,
           ⟨2, [1, 0, 0], [0, 0, 0], [1, 1, 1], m4create⟩,
           ⟨3, [2, 0, 0], [0, 0, 0], [1, 1, 1], m4create⟩]
          [⟨3, 4, 0, 4⟩] := by
  decide

/-- C6, as stated, fails: from the empty registry, a snapshot that lists id 1 twice
leaves two agents with id 1, because the map of existing agents is not extended when an
agent is pushed. -/
theorem reconcile_repeated_id_duplicates :
    (([] : List Object3D).map (fun b => b.id)).Nodup ∧
    ¬ ((reconcile [] [⟨1, 0, 0, 0⟩, ⟨1, 2, 0, 2⟩]).map (fun b => b.id)).Nodup := by
  decide

/-- C6, amended: when the ids of the registry are pairwise distinct and the ids of the
snapshot are pairwise distinct, the ids of the registry after reconciliation are
pairwise distinct. -/
theorem reconcile_ids_nodup (agents : List Object3D) (positions : List AgentSnapshot)
    (hR : (agents.map (fun b => b.id)).Nodup)
    (hS : (positions.map (fun agent => agent.id)).Nodup) :
    ((reconcile agents positions).map (fun b => b.id)).Nodup := by
  have hsub : ((reconcile agents positions).map (fun b => b.id)).Sublist
      ((syncLoop agents agents positions).map (fun b => b.id)) :=
    (spliceLoop_sublist _ _ _ _).map _
  refine hsub.nodup ?_
  rw [syncLoop_eq, List.map_append, map_id_foldl_updateStep]
  have hpushed : (newAgents agents positions).map (fun b => b.id)
      = (positions.filter (fun agent => (existingAgentsGet agent.id agents).isNone)).map
          (fun agent => agent.id) := by
    unfold newAgents
    rw [List.map_map]
    rfl
  refine List.Nodup.append hR ?_ ?_
  · rw [hpushed]
    exact ((List.filter_sublist _).map _).nodup hS
  · intro id hold hnew
    obtain ⟨b, hb, rfl⟩ := List.mem_map.mp hnew
    obtain ⟨e, _, hnot, rfl⟩ := mem_newAgents.mp hb
    exact hnot hold

theorem reconcile_ids_nodup_witness :
    ((([⟨1, [0, 0, 0], [0, 0, 0], [1, 1, 1], m4create⟩,
        ⟨2, [1, 0, 0], [0, 0, 0], [1, 1, 1], m4create⟩] : List Object3D).map
          (fun b => b.id)).Nodup ∧
      (([⟨2, 5, 0, 5⟩, ⟨3, 0, 0, 0⟩] : List AgentSnapshot).map (fun agent => agent.id)).Nodup) ∧
    ((reconcile
        [⟨1, [0, 0, 0], [0, 0, 0], [1, 1, 1], m4create⟩,
         ⟨2, [1, 0, 0], [0, 0, 0], [1, 1, 1], m4create⟩]
        [⟨2, 5, 0, 5⟩, ⟨3, 0, 0, 0⟩]).map (fun b => b.id)).Nodup :=
  ⟨⟨by decide, by decide⟩,
    reconcile_ids_nodup
      [⟨1, [0, 0, 0], [0, 0, 0], [1, 1, 1], m4create⟩,
       ⟨2, [1, 0, 0], [0, 0, 0], [1, 1, 1], m4create⟩]
      [⟨2, 5, 0, 5⟩, ⟨3, 0, 0, 0⟩] (by decide) (by decide)⟩

/-- C7: from the registry with agent 1 at `(0,0,0)` and agent 2 at `(1,0,0)`, whatever
their rotation, scale and matrix, and the snapshot `[{id:2,x:5,y:0,z:5},{id:3,x:0,y:0,z:0}]`,
reconciliation leaves exactly agent 2, now at `(5,0,5)`, followed by a new agent 3 at
`(0,0,0)`; agent 1 is removed. -/
theorem reconcile_scenario (r1 s1 m1 r2 s2 m2 : List Int) :
    reconcile [⟨1, [0, 0, 0], r1, s1, m1⟩, ⟨2, [1, 0, 0], r2, s2, m2⟩]
        [⟨2, 5, 0, 5⟩, ⟨3, 0, 0, 0⟩]
      = [⟨2, [5, 0, 5], r2, s2, m2⟩, ⟨3, [0, 0, 0], [0, 0, 0], [1, 1, 1], m4create⟩] := by
  rfl

/-! ## Failed requests -/

theorem getAgents_runOn_of_failed (agents : List Object3D) (fetched : FetchResult)
    (hfail : fetched.failed = true) :
    (getAgents fetched).runOn agents = (Except.ok (), agents) := by
  rcases fetched with _ | ⟨ok, json⟩
  · rfl
  · cases ok with
    | false => rfl
    | true =>
      rcases json with _ | positions
      · rfl
      · rcases positions with _ | items
        · rfl
        · have hitems : items.all Option.isSome = false := by
            simpa [FetchResult.failed, Response.hasUsablePositions, PositionsField.usable]
              using hfail
          simp only [Js.runOn, getAgents, awaitFetch, awaitJson, positionsMapId, pure_bind,
            hitems, if_true, Bool.false_eq_true, if_false]
          rfl

theorem getAgents_runOn_ok (agents : List Object3D) (fetched : FetchResult) :
    ((getAgents fetched).runOn agents).1 = Except.ok () := by
  rcases fetched with _ | ⟨ok, json⟩
  · rfl
  · cases ok with
    | false => rfl
    | true =>
      rcases json with _ | positions
      · rfl
      · rcases positions with _ | items
        · rfl
        · cases hitems : items.all Option.isSome
          · simp only [Js.runOn, getAgents, awaitFetch, awaitJson, positionsMapId, pure_bind,
              hitems, if_true, Bool.false_eq_true, if_false]
            rfl
          · simp only [Js.runOn, getAgents, awaitFetch, awaitJson, positionsMapId, pure_bind,
              hitems, if_true, Bool.false_eq_true, if_false]
            rfl

/-- C8: a failed `getAgents` fetch (the request throws, the status is not a success, or
the body has no usable `positions` list) leaves the `agents` array as it was, also when
`getAgents` is called from `update`; a failed step request of `update` leaves the array
as it was whatever `getAgents` would have fetched; and `getAgents` and `update` never
raise, whatever the outcome of their requests. -/
theorem failed_fetch_keeps_registry (agents : List Object3D)
    (fetched stepFetched : FetchResult) (hfail : fetched.failed = true)
    (hstep : stepFetched.requestFailed = true) :
    (getAgents fetched).runOn agents = (Except.ok (), agents) ∧
      (∀ anyStep, (update anyStep fetched).runOn agents = (Except.ok (), agents)) ∧
      (∀ anyFetch, (update stepFetched anyFetch).runOn agents = (Except.ok (), agents)) ∧
      (∀ anyFetch, ((getAgents anyFetch).runOn agents).1 = Except.ok ()) ∧
      (∀ anyStep anyFetch, ((update anyStep anyFetch).runOn agents).1 = Except.ok ()) := by
  have hupdate : ∀ anyFetch anyResponse, (update (.resolved ⟨true, anyResponse⟩) anyFetch).runOn agents
      = (getAgents anyFetch).runOn agents := by
    intro anyFetch anyResponse
    have h1 := getAgents_runOn_ok agents anyFetch
    simp only [Js.runOn, update, awaitFetch, pure_bind, if_true] at h1 ⊢
    generalize getAgents anyFetch = prog at h1 ⊢
    simp only [tryCatch, tryCatchThe, MonadExceptOf.tryCatch, ExceptT.tryCatch, ExceptT.run,
      ExceptT.mk, StateT.run, bind, StateT.bind] at h1 ⊢
    rcases hrun : prog agents with ⟨r, s⟩
    rw [hrun] at h1
    simp only at h1
    subst h1
    rfl
  refine ⟨getAgents_runOn_of_failed agents fetched hfail, ?_, ?_, getAgents_runOn_ok agents, ?_⟩
  · intro anyStep
    rcases anyStep with _ | ⟨ok, json⟩
    · rfl
    · cases ok with
      | false => rfl
      | true => rw [hupdate]; exact getAgents_runOn_of_failed agents fetched hfail
  · intro anyFetch
    rcases stepFetched with _ | ⟨ok, json⟩
    · rfl
    · cases ok with
      | false => rfl
      | true => simp [FetchResult.requestFailed] at hstep
  · intro anyStep anyFetch
    rcases anyStep with _ | ⟨ok, json⟩
    · rfl
    · cases ok with
      | false => rfl
      | true => rw [hupdate]; exact getAgents_runOn_ok agents anyFetch

theorem failed_fetch_keeps_registry_witness :
    ((FetchResult.resolved ⟨true, .value .unusable⟩).failed = true ∧
      (FetchResult.resolved ⟨false, .rejected⟩).requestFailed = true) ∧
    ((getAgents (.resolved ⟨true, .value .unusable⟩)).runOn
          [⟨1, [0, 0, 0], [0, 0, 0], [1, 1, 1], m4create⟩]
        = (Except.ok (), [⟨1, [0, 0, 0], [0, 0, 0], [1, 1, 1], m4create⟩]) ∧
      (∀ anyStep, (update anyStep (.resolved ⟨true, .value .unusable⟩)).runOn
          [⟨1, [0, 0, 0], [0, 0, 0], [1, 1, 1], m4create⟩]
        = (Except.ok (), [⟨1, [0, 0, 0], [0, 0, 0], [1, 1, 1], m4create⟩])) ∧
      (∀ anyFetch, (update (.resolved ⟨false, .rejected⟩) anyFetch).runOn
          [⟨1, [0, 0, 0], [0, 0, 0], [1, 1, 1], m4create⟩]
        = (Except.ok (), [⟨1, [0, 0, 0], [0, 0, 0], [1, 1, 1], m4create⟩])) ∧
      (∀ anyFetch, ((getAgents anyFetch).runOn
          [⟨1, [0, 0, 0], [0, 0, 0], [1, 1, 1], m4create⟩]).1 = Except.ok ()) ∧
      (∀ anyStep anyFetch, ((update anyStep anyFetch).runOn
          [⟨1, [0, 0, 0], [0, 0, 0], [1, 1, 1], m4create⟩]).1 = Except.ok ())) :=
  ⟨⟨by decide, by decide⟩,
    failed_fetch_keeps_registry [⟨1, [0, 0, 0], [0, 0, 0], [1, 1, 1], m4create⟩]
      (.resolved ⟨true, .value .unusable⟩) (.resolved ⟨false, .rejected⟩)
      (by decide) (by decide)⟩

/-! ## Map text: rows and columns -/

theorem trim_eq_nil_iff (s : List Char) : trim s = [] ↔ ∀ c ∈ s, isTrimChar c = true := by
  unfold trim
  rw [List.reverse_eq_nil_iff, List.dropWhile_eq_nil_iff]
  constructor
  · intro h
    have hd : s.dropWhile isTrimChar = [] := by
      cases hdw : s.dropWhile isTrimChar with
      | nil => rfl
      | cons c t =>
        have hhead := List.head?_dropWhile_not isTrimChar s
        rw [hdw] at hhead h
        simp only [List.head?_cons] at hhead
        have := h c (by simp)
        rw [hhead] at this
        cases this
    exact List.dropWhile_eq_nil_iff.mp hd
  · intro h
    rw [List.dropWhile_eq_nil_iff.mpr h]
    simp

theorem trimNonEmpty_eq (line : List Char) : trimNonEmpty line = !isBlank line := by
  rw [Bool.eq_iff_iff]
  simp only [trimNonEmpty, isBlank, Bool.not_eq_true', List.isEmpty_eq_false, ne_eq,
    trim_eq_nil_iff, List.all_eq_false]
  constructor
  · intro h
    by_contra hcon
    apply h
    intro c hc
    by_contra hc2
    exact hcon ⟨c, hc, hc2⟩
  · rintro ⟨c, hc, hc2⟩ h
    exact hc2 (h c hc)

theorem trimNonEmpty_eq_fun : trimNonEmpty = fun line => !isBlank line :=
  funext trimNonEmpty_eq

theorem nonBlankRows_eq (fileContent : List Char) :
    nonBlankRows fileContent = (splitLines fileContent).filter (fun line => !isBlank line) := by
  unfold nonBlankRows
  rw [trimNonEmpty_eq_fun]

/-- For a text without characters outside the Basic Multilingual Plane the `length`
of a row is its number of characters. -/
theorem utf16Length_eq_length (s : List Char) (h : ∀ c ∈ s, c.toNat < 0x10000) :
    utf16Length s = s.length := by
  induction s with
  | nil => rfl
  | cons c rest ih =>
    have hc := h c (by simp)
    have hrest := ih (fun d hd => h d (List.mem_cons_of_mem _ hd))
    unfold utf16Length at hrest ⊢
    simp only [List.map_cons, List.sum_cons, hc, if_true, hrest, List.length_cons]
    omega

/-- C9: `getColumnCount` is the length (in UTF-16 code units, as `length` counts) of the
first line of the text, split at line feeds, that is not white space only, and 0 when
there is no such line; `getRowCount` is the number of lines that are not white space
only. -/
theorem grid_dimensions (fileContent : List Char) :
    getColumnCount fileContent
        = (match (splitLines fileContent).find? (fun line => !isBlank line) with
            | some row => utf16Length row
            | none => 0) ∧
      getRowCount fileContent
        = (splitLines fileContent).countP (fun line => !isBlank line) := by
  constructor
  · unfold getColumnCount
    rw [trimNonEmpty_eq_fun]
    cases fileContent with
    | nil => rfl
    | cons c rest =>
      simp only [List.isEmpty_cons, Bool.false_eq_true, if_false]
      cases hfind : (splitLines (c :: rest)).find? (fun line => !isBlank line) with
      | none => rfl
      | some row =>
        have hrow := List.find?_some hfind
        cases row with
        | nil => simp [isBlank] at hrow
        | cons d more => rfl
  · unfold getRowCount
    rw [trimNonEmpty_eq_fun, List.countP_eq_length_filter]
    cases fileContent with
    | nil => rfl
    | cons c rest => rfl

/-! ## Map text: symbol classes -/

theorem scanRow_eq (test : Char → Bool) (z : Nat) (row : List Char) (x : Nat)
    (positions : List Coord) :
    scanRow test z row x positions = positions ++ rowHits test z row x := by
  induction row generalizing x positions with
  | nil => simp [scanRow, rowHits]
  | cons c rest ih =>
    simp only [scanRow, rowHits]
    rw [ih]
    by_cases hc : test c <;> simp [hc]

theorem scanRows_eq (test : Char → Bool) (rows : List (List Char)) (z : Nat)
    (positions : List Coord) :
    scanRows test rows z positions = positions ++ gridHits test rows z := by
  induction rows generalizing z positions with
  | nil => simp [scanRows, gridHits]
  | cons row rest ih =>
    simp only [scanRows, gridHits]
    rw [ih, scanRow_eq, List.append_assoc]

theorem mem_rowHits (test : Char → Bool) (z : Nat) (row : List Char) (x : Nat) (p : Coord) :
    p ∈ rowHits test z row x ↔
      p.z = z ∧ x ≤ p.x ∧ ∃ c, row[p.x - x]? = some c ∧ test c = true := by
  induction row generalizing x with
  | nil => simp [rowHits]
  | cons c rest ih =>
    simp only [rowHits, List.mem_append, ih]
    constructor
    · rintro (hhead | ⟨hz, hx, d, hd, hdt⟩)
      · by_cases hc : test c
        · simp only [hc, if_true, List.mem_singleton] at hhead
          subst hhead
          exact ⟨rfl, Nat.le_refl _, c, by simp, hc⟩
        · simp [hc] at hhead
      · refine ⟨hz, by omega, d, ?_, hdt⟩
        have hsub : p.x - x = (p.x - (x + 1)) + 1 := by omega
        rw [hsub, List.getElem?_cons_succ]
        exact hd
    · rintro ⟨hz, hx, d, hd, hdt⟩
      by_cases hpx : p.x = x
      · left
        rw [hpx, Nat.sub_self, List.getElem?_cons_zero] at hd
        cases hd
        simp only [hdt, if_true, List.mem_singleton]
        cases p
        simp only at hz hpx
        rw [hz, hpx]
      · right
        refine ⟨hz, by omega, d, ?_, hdt⟩
        have hsub : p.x - x = (p.x - (x + 1)) + 1 := by omega
        rw [hsub, List.getElem?_cons_succ] at hd
        exact hd

theorem mem_gridHits (test : Char → Bool) (rows : List (List Char)) (z : Nat) (p : Coord) :
    p ∈ gridHits test rows z ↔
      z ≤ p.z ∧ ∃ row c, rows[p.z - z]? = some row ∧ row[p.x]? = some c ∧ test c = true := by
  induction rows generalizing z with
  | nil => simp [gridHits]
  | cons row rest ih =>
    simp only [gridHits, List.mem_append, ih, mem_rowHits, Nat.zero_le, Nat.sub_zero, true_and]
    constructor
    · rintro (⟨hz, c, hc, hct⟩ | ⟨hz, r, c, hr, hc, hct⟩)
      · refine ⟨by omega, row, c, ?_, hc, hct⟩
        rw [hz, Nat.sub_self, List.getElem?_cons_zero]
      · refine ⟨by omega, r, c, ?_, hc, hct⟩
        have hsub : p.z - z = (p.z - (z + 1)) + 1 := by omega
        rw [hsub, List.getElem?_cons_succ]
        exact hr
    · rintro ⟨hz, r, c, hr, hc, hct⟩
      by_cases hpz : p.z = z
      · left
        rw [hpz, Nat.sub_self, List.getElem?_cons_zero] at hr
        cases hr
        exact ⟨hpz, c, hc, hct⟩
      · right
        refine ⟨by omega, r, c, ?_, hc, hct⟩
        have hsub : p.z - z = (p.z - (z + 1)) + 1 := by omega
        rw [hsub, List.getElem?_cons_succ] at hr
        exact hr

theorem pairwise_rowHits (test : Char → Bool) (z : Nat) (row : List Char) (x : Nat) :
    (rowHits test z row x).Pairwise rowMajorLt := by
  induction row generalizing x with
  | nil => simp [rowHits]
  | cons c rest ih =>
    simp only [rowHits]
    rw [List.pairwise_append]
    refine ⟨?_, ih (x + 1), ?_⟩
    · by_cases hc : test c <;> simp [hc]
    · intro a ha b hb
      have hbz := (mem_rowHits test z rest (x + 1) b).mp hb
      by_cases hc : test c
      · simp only [hc, if_true, List.mem_singleton] at ha
        subst ha
        right
        exact ⟨hbz.1.symm, by have := hbz.2.1; simp only; omega⟩
      · simp [hc] at ha

theorem pairwise_gridHits (test : Char → Bool) (rows : List (List Char)) (z : Nat) :
    (gridHits test rows z).Pairwise rowMajorLt := by
  induction rows generalizing z with
  | nil => simp [gridHits]
  | cons row rest ih =>
    simp only [gridHits]
    rw [List.pairwise_append]
    refine ⟨pairwise_rowHits test z row 0, ih (z + 1), ?_⟩
    intro a ha b hb
    have haz := ((mem_rowHits test z row 0 a).mp ha).1
    have hbz := ((mem_gridHits test rest (z + 1) b).mp hb).1
    left
    omega

theorem rowMajorLt_ne {p q : Coord} (h : rowMajorLt p q) : p ≠ q := by
  rintro rfl
  rcases h with h | ⟨_, h⟩ <;> exact Nat.lt_irrefl _ h

/-- Every extractor is the nested scan with its own test, and such a scan extracts
exactly the symbols its test accepts. -/
theorem scanRows_extractsExactly (test : Char → Bool) (symbols : List Char)
    (htest : ∀ c, test c = true ↔ c ∈ symbols) (fileContent : List Char) :
    ExtractsExactly symbols fileContent (scanRows test (nonBlankRows fileContent) 0 []) := by
  rw [scanRows_eq, List.nil_append, nonBlankRows_eq]
  refine ⟨?_, ?_, pairwise_gridHits _ _ _⟩
  · intro x z
    rw [mem_gridHits]
    simp only [Nat.zero_le, Nat.sub_zero, true_and, htest]
  · exact (pairwise_gridHits _ _ _).imp rowMajorLt_ne

/-- C10: each of `getSpecialPositions` (symbols `<`, `>`, `v`, `^`), `getHashTag` (`#`),
`getZebraCrossingPositions` (`s`, `S`) and `getRedXPositions` (`D`) returns a list that
contains `{x, z}` if and only if the character at column `x` of the `z`-th non-blank
row is one of its symbols, contains no coordinate twice, and is in row-major order. -/
theorem extraction_exact (fileContent : List Char) :
    ExtractsExactly ['<', '>', 'v', '^'] fileContent (getSpecialPositions fileContent) ∧
      ExtractsExactly ['#'] fileContent (getHashTag fileContent) ∧
      ExtractsExactly ['s', 'S'] fileContent (getZebraCrossingPositions fileContent) ∧
      ExtractsExactly ['D'] fileContent (getRedXPositions fileContent) := by
  refine ⟨?_, ?_, ?_, ?_⟩
  · exact scanRows_extractsExactly _ _ (fun c => by simp) fileContent
  · exact scanRows_extractsExactly _ _ (fun c => by simp) fileContent
  · exact scanRows_extractsExactly _ _ (fun c => by simp) fileContent
  · exact scanRows_extractsExactly _ _ (fun c => by simp) fileContent

/-! ## Map text: blank lines -/

theorem splitLines_ne_nil (text : List Char) : splitLines text ≠ [] := by
  cases text with
  | nil => simp [splitLines]
  | cons c cs =>
    unfold splitLines
    by_cases hc : c = '\n'
    · simp [hc]
    · simp only [hc, if_false]
      cases splitLines cs <;> simp

theorem splitLines_of_not_mem {line : List Char} (h : '\n' ∉ line) :
    splitLines line = [line] := by
  induction line with
  | nil => rfl
  | cons c cs ih =>
    have hc : c ≠ '\n' := fun hc => h (by simp [hc])
    have hcs : '\n' ∉ cs := fun hm => h (List.mem_cons_of_mem _ hm)
    unfold splitLines
    simp only [hc, if_false, ih hcs]

theorem splitLines_append_newline {line : List Char} (h : '\n' ∉ line) (text : List Char) :
    splitLines (line ++ '\n' :: text) = line :: splitLines text := by
  induction line with
  | nil => simp [splitLines]
  | cons c cs ih =>
    have hc : c ≠ '\n' := fun hc => h (by simp [hc])
    have hcs : '\n' ∉ cs := fun hm => h (List.mem_cons_of_mem _ hm)
    rw [List.cons_append]
    conv_lhs => unfold splitLines
    simp only [hc, if_false, ih hcs]

theorem not_mem_of_mem_splitLines {text line : List Char} (h : line ∈ splitLines text) :
    '\n' ∉ line := by
  induction text generalizing line with
  | nil =>
    simp only [splitLines, List.mem_singleton] at h
    subst h
    simp
  | cons c cs ih =>
    unfold splitLines at h
    by_cases hc : c = '\n'
    · simp only [hc, if_true, List.mem_cons] at h
      rcases h with rfl | h
      · simp
      · exact ih h
    · simp only [hc, if_false] at h
      cases hsplit : splitLines cs with
      | nil => exact absurd hsplit (splitLines_ne_nil cs)
      | cons first more =>
        rw [hsplit] at h ih
        simp only [List.mem_cons] at h
        rcases h with rfl | h
        · intro hmem
          rcases List.mem_cons.mp hmem with heq | hmem2
          · exact hc heq.symm
          · exact ih (List.mem_cons_self _ _) hmem2
        · exact ih (List.mem_cons_of_mem _ h)

theorem splitLines_joinLines {lines : List (List Char)} (hne : lines ≠ [])
    (h : ∀ line ∈ lines, '\n' ∉ line) : splitLines (joinLines lines) = lines := by
  induction lines with
  | nil => exact absurd rfl hne
  | cons line rest ih =>
    cases rest with
    | nil => exact splitLines_of_not_mem (h line (by simp))
    | cons second more =>
      have hjoin : joinLines (line :: second :: more)
          = line ++ '\n' :: joinLines (second :: more) := rfl
      rw [hjoin, splitLines_append_newline (h line (by simp)),
        ih (by simp) (fun l hl => h l (List.mem_cons_of_mem _ hl))]

/-- Every text is its lines joined by line feeds. -/
theorem joinLines_splitLines (text : List Char) : joinLines (splitLines text) = text := by
  induction text with
  | nil => rfl
  | cons c cs ih =>
    unfold splitLines
    cases hsplit : splitLines cs with
    | nil => exact absurd hsplit (splitLines_ne_nil cs)
    | cons first more =>
      rw [hsplit] at ih
      by_cases hc : c = '\n'
      · simp only [hc, if_true]
        show [] ++ '\n' :: joinLines (first :: more) = _
        rw [ih]
        rfl
      · simp only [hc, if_false]
        cases more with
        | nil =>
          simp only [joinLines] at ih ⊢
          rw [ih]
        | cons second others =>
          show (c :: first) ++ '\n' :: joinLines (second :: others) = _
          have : first ++ '\n' :: joinLines (second :: others) = cs := ih
          rw [List.cons_append, this]

theorem getRowCount_eq (fileContent : List Char) :
    getRowCount fileContent = (nonBlankRows fileContent).length := by
  cases fileContent <;> rfl

theorem head?_filter_eq_find? {α : Type} (p : α → Bool) (l : List α) :
    (l.filter p).head? = l.find? p := by
  induction l with
  | nil => rfl
  | cons a rest ih =>
    by_cases ha : p a
    · simp [List.filter_cons, List.find?_cons, ha]
    · simp [List.filter_cons, List.find?_cons, ha, ih]

theorem getColumnCount_eq (fileContent : List Char) :
    getColumnCount fileContent
      = ((nonBlankRows fileContent).head?.map utf16Length).getD 0 := by
  cases fileContent with
  | nil => rfl
  | cons c rest =>
    unfold getColumnCount nonBlankRows
    simp only [List.isEmpty_cons, Bool.false_eq_true, if_false, head?_filter_eq_find?]
    cases hfind : (splitLines (c :: rest)).find? trimNonEmpty with
    | none => rfl
    | some row =>
      have hrow := List.find?_some hfind
      cases row with
      | nil => simp [trimNonEmpty, trim] at hrow
      | cons d more => rfl

theorem nonBlankRows_insert_blank {fileContent : List Char} {before after : List (List Char)}
    {blank : List Char} (hsplit : splitLines fileContent = before ++ after)
    (hblank : isBlank blank = true) (hline : '\n' ∉ blank) :
    nonBlankRows (joinLines (before ++ blank :: after)) = nonBlankRows fileContent := by
  have hlines : ∀ line ∈ before ++ blank :: after, '\n' ∉ line := by
    intro line hmem
    rcases List.mem_append.mp hmem with hb | ha
    · exact not_mem_of_mem_splitLines (hsplit ▸ List.mem_append_left _ hb)
    · rcases List.mem_cons.mp ha with rfl | ha2
      · exact hline
      · exact not_mem_of_mem_splitLines (hsplit ▸ List.mem_append_right _ ha2)
  unfold nonBlankRows
  rw [splitLines_joinLines (by simp) hlines, hsplit, List.filter_append, List.filter_append,
    List.filter_cons]
  simp [trimNonEmpty_eq, hblank]

/-- C11: inserting a white-space-only line at any line boundary of a map text (before
the first line, between two lines, or after the last one), or deleting such a line,
leaves `getRowCount`, `getColumnCount` and the outputs of `getSpecialPositions`,
`getHashTag`, `getZebraCrossingPositions` and `getRedXPositions` unchanged. -/
theorem blank_lines_do_not_shift (fileContent : List Char) (before after : List (List Char))
    (blank : List Char) (hsplit : splitLines fileContent = before ++ after)
    (hblank : isBlank blank = true) (hline : '\n' ∉ blank) :
    getRowCount (joinLines (before ++ blank :: after)) = getRowCount fileContent ∧
      getColumnCount (joinLines (before ++ blank :: after)) = getColumnCount fileContent ∧
      getSpecialPositions (joinLines (before ++ blank :: after))
        = getSpecialPositions fileContent ∧
      getHashTag (joinLines (before ++ blank :: after)) = getHashTag fileContent ∧
      getZebraCrossingPositions (joinLines (before ++ blank :: after))
        = getZebraCrossingPositions fileContent ∧
      getRedXPositions (joinLines (before ++ blank :: after))
        = getRedXPositions fileContent := by
  have hrows := nonBlankRows_insert_blank hsplit hblank hline
  refine ⟨?_, ?_, ?_, ?_, ?_, ?_⟩
  · rw [getRowCount_eq, getRowCount_eq, hrows]
  · rw [getColumnCount_eq, getColumnCount_eq, hrows]
  · unfold getSpecialPositions
    rw [hrows]
  · unfold getHashTag
    rw [hrows]
  · unfold getZebraCrossingPositions
    rw [hrows]
  · unfold getRedXPositions
    rw [hrows]

theorem blank_lines_do_not_shift_witness :
    (splitLines ['#', '#', '\n', '.', 'D'] = [['#', '#']] ++ [['.', 'D']] ∧
      isBlank [' ', '\t'] = true ∧ '\n' ∉ [' ', '\t']) ∧
    (getRowCount (joinLines ([['#', '#']] ++ [' ', '\t'] :: [['.', 'D']]))
        = getRowCount ['#', '#', '\n', '.', 'D'] ∧
      getColumnCount (joinLines ([['#', '#']] ++ [' ', '\t'] :: [['.', 'D']]))
        = getColumnCount ['#', '#', '\n', '.', 'D'] ∧
      getSpecialPositions (joinLines ([['#', '#']] ++ [' ', '\t'] :: [['.', 'D']]))
        = getSpecialPositions ['#', '#', '\n', '.', 'D'] ∧
      getHashTag (joinLines ([['#', '#']] ++ [' ', '\t'] :: [['.', 'D']]))
        = getHashTag ['#', '#', '\n', '.', 'D'] ∧
      getZebraCrossingPositions (joinLines ([['#', '#']] ++ [' ', '\t'] :: [['.', 'D']]))
        = getZebraCrossingPositions ['#', '#', '\n', '.', 'D'] ∧
      getRedXPositions (joinLines ([['#', '#']] ++ [' ', '\t'] :: [['.', 'D']]))
        = getRedXPositions ['#', '#', '\n', '.', 'D']) :=
  ⟨⟨by decide, by decide, by decide⟩,
    blank_lines_do_not_shift ['#', '#', '\n', '.', 'D'] [['#', '#']] [['.', 'D']] [' ', '\t']
      (by decide) (by decide) (by decide)⟩

/-- C12: for the map text `"##\n.D\n"`, `getHashTag` returns `[{x:0,z:0},{x:1,z:0}]`,
`getRedXPositions` returns `[{x:1,z:1}]`, `getColumnCount` returns 2 and `getRowCount`
returns 2. -/
theorem map_scenario :
    getHashTag ['#', '#', '\n', '.', 'D', '\n'] = [⟨0, 0⟩, ⟨1, 0⟩] ∧
      getRedXPositions ['#', '#', '\n', '.', 'D', '\n'] = [⟨1, 1⟩] ∧
      getColumnCount ['#', '#', '\n', '.', 'D', '\n'] = 2 ∧
      getRowCount ['#', '#', '\n', '.', 'D', '\n'] = 2 := by
  decide

/-! ## Startup -/

/-- C13, as stated, fails: the text `"\n"` is not empty, so `main` goes on although the
grid has zero rows and zero columns: it builds the geometry, posts `init` with width
`-1` and height `0`, and starts drawing. -/
theorem main_continues_on_blank_text :
    getRowCount ['\n'] = 0 ∧ getColumnCount ['\n'] = 0 ∧
      main ['\n']
        = [ .createProgramInfo, .setDimensions (-1) 0, .buildStaticGeometry [] [] [] [],
            .buildDynamicGeometry, .setupUI, .initAgentsModel ⟨1, -1, 0, "2022_base.txt"⟩,
            .getAgents, .setInterval, .drawScene ] ∧
      (main ['\n']).any MainStep.isStartupWork = true := by
  decide

/-- C13, amended: for the empty text `getRowCount` and `getColumnCount` return 0 and
`main` stops after reporting the error, before it builds any geometry, posts `init` or
draws; and the empty text is the only text for which `main` stops. -/
theorem main_stops_on_empty_text :
    getRowCount [] = 0 ∧ getColumnCount [] = 0 ∧
      main [] = [.createProgramInfo, .consoleError] ∧
      ∀ fileContent : List Char,
        (main fileContent).any MainStep.isStartupWork = false ↔ fileContent = [] := by
  refine ⟨rfl, rfl, rfl, ?_⟩
  intro fileContent
  cases fileContent with
  | nil => simp [main, MainStep.isStartupWork]
  | cons c rest => simp [main, MainStep.isStartupWork]

/-! ## Geometry: well-formed batches -/

theorem Builder.inv_empty : Builder.empty.Inv := by
  simp [Builder.Inv, Builder.empty]

theorem Builder.Inv.wellFormed {b : Builder} (h : b.Inv) : b.result.WellFormed := by
  obtain ⟨hv, hc, hi, hb⟩ := h
  have hdiv : b.vertices.length / 3 = b.vertexIndex := by omega
  refine ⟨?_, ?_, hi, ?_⟩
  · show b.vertices.length % 3 = 0
    omega
  · show b.colors.length = 4 * (b.vertices.length / 3)
    rw [hdiv, hc]
  · intro i hmem
    show i < b.vertices.length / 3
    rw [hdiv]
    exact hb i hmem

/-- Pushing `n` vertices with their colours and whole triangles over the vertices pushed
so far keeps the invariant. -/
theorem Builder.Inv.push {b : Builder} (h : b.Inv) (vs cs : List ℚ) (is : List Nat) (n : Nat)
    (hv : vs.length = 3 * n) (hc : cs.length = 4 * n) (hi : is.length % 3 = 0)
    (hb : ∀ i ∈ is, i < b.vertexIndex + n) :
    Builder.Inv
      { vertices := b.vertices ++ vs, colors := b.colors ++ cs, indices := b.indices ++ is,
        vertexIndex := b.vertexIndex + n } := by
  obtain ⟨hv0, hc0, hi0, hb0⟩ := h
  refine ⟨?_, ?_, ?_, ?_⟩
  · simp only [List.length_append, hv0, hv]
    omega
  · simp only [List.length_append, hc0, hc]
    omega
  · simp only [List.length_append]
    omega
  · intro i hmem
    rcases List.mem_append.mp hmem with hold | hnew
    · have := hb0 i hold
      show i < b.vertexIndex + n
      omega
    · exact hb i hnew

theorem Builder.inv_foldl {α : Type} (f : Builder → α → Builder)
    (hf : ∀ b a, b.Inv → (f b a).Inv) (l : List α) (b : Builder) (h : b.Inv) :
    (l.foldl f b).Inv := by
  induction l generalizing b with
  | nil => exact h
  | cons a rest ih => exact ih _ (hf b a h)

theorem inv_floorCell (size : ℚ) (b : Builder) (p : Coord) (h : b.Inv) :
    (floorCell size b p).Inv := by
  refine h.push _ _ _ 4 rfl rfl (by simp) ?_
  intro i hmem
  simp only [List.mem_cons, List.mem_singleton, List.not_mem_nil, or_false] at hmem
  omega

theorem inv_zebraStripe (size : ℚ) (x z : Nat) (stripeWidth : ℚ) (b : Builder) (i : Nat)
    (h : b.Inv) : (zebraStripe size x z stripeWidth b i).Inv := by
  refine h.push _ _ _ 4 rfl ?_ (by simp) ?_
  · by_cases hi : i % 2 = 0 <;> simp [hi]
  · intro j hmem
    simp only [List.mem_cons, List.mem_singleton, List.not_mem_nil, or_false] at hmem
    omega

theorem inv_zebraCell (size : ℚ) (b : Builder) (p : Coord) (h : b.Inv) :
    (zebraCell size b p).Inv :=
  Builder.inv_foldl _ (fun b i hb => inv_zebraStripe size p.x p.z _ b i hb) _ b h

theorem inv_redXCell (size : ℚ) (b : Builder) (p : Coord) (h : b.Inv) :
    (redXCell size b p).Inv := by
  have hv : (redXCell size b p).vertices = b.vertices ++
      ((redXCell size Builder.empty p).vertices) := by
    simp [redXCell, Builder.empty]
  have hi : (redXCell size b p).indices = b.indices ++
      [ b.vertexIndex, b.vertexIndex + 1, b.vertexIndex + 2,
        b.vertexIndex + 1, b.vertexIndex + 2, b.vertexIndex + 3,
        b.vertexIndex + 4, b.vertexIndex + 5, b.vertexIndex + 6,
        b.vertexIndex + 5, b.vertexIndex + 6, b.vertexIndex + 7 ] := by
    simp [redXCell]
  have key := h.push (redXCell size Builder.empty p).vertices
    (redXCell size Builder.empty p).colors
    [ b.vertexIndex, b.vertexIndex + 1, b.vertexIndex + 2,
      b.vertexIndex + 1, b.vertexIndex + 2, b.vertexIndex + 3,
      b.vertexIndex + 4, b.vertexIndex + 5, b.vertexIndex + 6,
      b.vertexIndex + 5, b.vertexIndex + 6, b.vertexIndex + 7 ] 8 rfl rfl (by simp)
    (by
      intro i hmem
      simp only [List.mem_cons, List.mem_singleton, List.not_mem_nil, or_false] at hmem
      omega)
  have heq : redXCell size b p =
      { vertices := b.vertices ++ (redXCell size Builder.empty p).vertices
        colors := b.colors ++ (redXCell size Builder.empty p).colors
        indices := b.indices ++
          [ b.vertexIndex, b.vertexIndex + 1, b.vertexIndex + 2,
            b.vertexIndex + 1, b.vertexIndex + 2, b.vertexIndex + 3,
            b.vertexIndex + 4, b.vertexIndex + 5, b.vertexIndex + 6,
            b.vertexIndex + 5, b.vertexIndex + 6, b.vertexIndex + 7 ]
        vertexIndex := b.vertexIndex + 8 } := by
    simp [redXCell, Builder.empty]
  rw [heq]
  exact key

theorem inv_blueCube (size random : ℚ) (b : Builder) (p : Coord) (h : b.Inv) :
    (blueCube size random b p).Inv := by
  refine h.push _ _ _ 8 rfl rfl (by simp) ?_
  intro i hmem
  simp only [List.mem_cons, List.mem_singleton, List.not_mem_nil, or_false] at hmem
  omega

theorem inv_blueCubesLoop (size : ℚ) (random : Nat → ℚ) (positions : List Coord) (b : Builder)
    (h : b.Inv) : (blueCubesLoop size random positions b).Inv := by
  induction positions generalizing random b with
  | nil => exact h
  | cons p rest ih => exact ih _ _ (inv_blueCube size _ b p h)

/-- C14: for every coordinate list, cell size and sequence of random draws, each of
`generateFloorDataFromPositions`, `generateBlueCubesFromHashTags`,
`generateZebraCrossings` and `generateRedX` returns a batch whose positions length is a
multiple of 3, whose colours length is 4 times the number of vertices, whose indices
length is a multiple of 3, and whose indices are all less than the number of vertices. -/
theorem static_batches_wellFormed (positions : List Coord) (size : ℚ) (random : Nat → ℚ) :
    (generateFloorDataFromPositions positions size).WellFormed ∧
      (generateBlueCubesFromHashTags positions size random).WellFormed ∧
      (generateZebraCrossings positions size).WellFormed ∧
      (generateRedX positions size).WellFormed := by
  refine ⟨?_, ?_, ?_, ?_⟩
  · exact (Builder.inv_foldl _ (inv_floorCell size) positions _ Builder.inv_empty).wellFormed
  · exact (inv_blueCubesLoop size random positions _ Builder.inv_empty).wellFormed
  · exact (Builder.inv_foldl _ (inv_zebraCell size) positions _ Builder.inv_empty).wellFormed
  · exact (Builder.inv_foldl _ (inv_redXCell size) positions _ Builder.inv_empty).wellFormed

/-! ## Geometry: the car and the cube -/

theorem generateData_indices (size : ℚ) :
    (generateData size).indices
      = [ 0, 1, 2, 0, 2, 3, 4, 5, 6, 4, 6, 7, 0, 1, 5, 0, 5, 4, 1, 2, 6, 1, 6, 5,
          2, 3, 7, 2, 7, 6, 3, 0, 4, 3, 4, 7,
          8, 9, 10, 8, 10, 11,
          12, 13, 14, 12, 14, 15, 16, 17, 18, 16, 18, 19,
          20, 21, 22, 20, 22, 23, 24, 25, 26, 24, 26, 27 ] :=
  rfl

/-- C15, as stated, fails on the triangle count of the car: `generateData` emits 66
indices, that is 22 triangles (12 for the body, 2 for the cabin, 8 for the wheels), not
14. -/
theorem car_triangle_count :
    (generateData 1).indices.length = 3 * 22 ∧ (generateData 1).indices.length / 3 ≠ 14 := by
  constructor
  · rfl
  · rw [generateData_indices]
    decide

/-- C15, amended: for every scale factor the car of `generateData` has 28 vertices, 4
colour components for each of them, 22 triangles, and indices below 28; the cube of
`generateObstacleData` has 24 vertices, 4 colour components for each of them, 12
triangles, and indices below 24.  Both batches are well formed. -/
theorem dynamic_batches_wellFormed (size : ℚ) :
    ((generateData size).a_position.length = 3 * 28 ∧
        (generateData size).a_color.length = 4 * 28 ∧
        (generateData size).indices.length = 3 * 22 ∧
        (∀ i ∈ (generateData size).indices, i < 28) ∧
        (generateData size).WellFormed) ∧
      ((generateObstacleData size).a_position.length = 3 * 24 ∧
        (generateObstacleData size).a_color.length = 4 * 24 ∧
        (generateObstacleData size).indices.length = 3 * 12 ∧
        (∀ i ∈ (generateObstacleData size).indices, i < 24) ∧
        (generateObstacleData size).WellFormed) := by
  have hcar : ∀ i ∈ (generateData size).indices, i < 28 := by
    rw [generateData_indices]
    decide
  have hcube : ∀ i ∈ (generateObstacleData size).indices, i < 24 := by
    show ∀ i ∈ [ 0, 1, 2, 0, 2, 3, 4, 5, 6, 4, 6, 7, 8, 9, 10, 8, 10, 11,
      12, 13, 14, 12, 14, 15, 16, 17, 18, 16, 18, 19, 20, 21, 22, 20, 22, 23 ], i < 24
    decide
  have hcarLen : (generateData size).a_position.length = 84 := rfl
  have hcubeLen : (generateObstacleData size).a_position.length = 72 := by
    simp [generateObstacleData]
  refine ⟨⟨rfl, rfl, rfl, hcar, ?_⟩, ⟨hcubeLen, rfl, rfl, hcube, ?_⟩⟩
  · have hlen : (generateData size).indices.length = 66 := rfl
    refine ⟨?_, ?_, ?_, ?_⟩
    · rw [hcarLen]
    · rw [hcarLen]; rfl
    · rw [hlen]
    · rw [hcarLen]; exact hcar
  · have hlen : (generateObstacleData size).indices.length = 36 := rfl
    refine ⟨?_, ?_, ?_, ?_⟩
    · rw [hcubeLen]
    · rw [hcubeLen]; rfl
    · rw [hlen]
    · rw [hcubeLen]; exact hcube

/-! ## Geometry: building heights -/

theorem vertices_blueCube (size random : ℚ) (b : Builder) (p : Coord) :
    (blueCube size random b p).vertices = b.vertices ++ blueCubeVertices size random p := by
  simp [blueCube, blueCubeVertices, Builder.empty]

theorem vertices_blueCubesLoop (size : ℚ) (random : Nat → ℚ) (positions : List Coord)
    (b : Builder) :
    (blueCubesLoop size random positions b).vertices
      = b.vertices ++ blueCubeBlocks size random positions := by
  induction positions generalizing random b with
  | nil => simp [blueCubesLoop, blueCubeBlocks]
  | cons p rest ih =>
    simp only [blueCubesLoop, blueCubeBlocks]
    rw [ih, vertices_blueCube, List.append_assoc]

theorem length_blueCubeVertices (size random : ℚ) (p : Coord) :
    (blueCubeVertices size random p).length = 24 :=
  rfl

theorem getElem?_blueCubeBlocks (size : ℚ) (random : Nat → ℚ) (positions : List Coord)
    (k i : Nat) (hi : i < 24) :
    (blueCubeBlocks size random positions)[24 * k + i]?
      = positions[k]?.bind (fun p => (blueCubeVertices size (random k) p)[i]?) := by
  induction positions generalizing random k with
  | nil => simp [blueCubeBlocks]
  | cons p rest ih =>
    simp only [blueCubeBlocks]
    cases k with
    | zero =>
      rw [List.getElem?_append_left (by rw [length_blueCubeVertices]; omega)]
      simp
    | succ m =>
      rw [List.getElem?_append_right (by rw [length_blueCubeVertices]; omega),
        length_blueCubeVertices]
      have hsub : 24 * (m + 1) + i - 24 = 24 * m + i := by omega
      rw [hsub, ih]
      simp

theorem length_blueCubeBlocks (size : ℚ) (random : Nat → ℚ) (positions : List Coord) :
    (blueCubeBlocks size random positions).length = 3 * (8 * positions.length) := by
  induction positions generalizing random with
  | nil => rfl
  | cons p rest ih =>
    simp only [blueCubeBlocks, List.length_append, length_blueCubeVertices, ih,
      List.length_cons]
    omega

theorem blueCubeVertices_y (size random : ℚ) (p : Coord) (j : Nat) (hj : j < 8) :
    (blueCubeVertices size random p)[3 * j + 1]?
      = some (if j % 4 < 2 then 0 else size * (2 + random * 3)) := by
  interval_cases j <;> rfl

/-- C16: for a cell size `s > 0` and random draws in `[0, 1)`, the batch of
`generateBlueCubesFromHashTags` consists of 8 vertices for each position, and the `k`-th
cuboid has height `s * (2 + 3 r)` for its own draw `r`, which lies between `2 s` and
`5 s`; of its 8 vertices, the 4 bottom ones have `y = 0` and the 4 top ones have `y`
equal to that height. -/
theorem building_height_range (size : ℚ) (hs : 0 < size) (random : Nat → ℚ)
    (hr : ∀ n, 0 ≤ random n ∧ random n < 1) (positions : List Coord) (k : Nat)
    (hk : k < positions.length) :
    (generateBlueCubesFromHashTags positions size random).a_position.length
        = 3 * (8 * positions.length) ∧
      2 * size ≤ size * (2 + random k * 3) ∧ size * (2 + random k * 3) ≤ 5 * size ∧
      ∀ j, j < 8 →
        (generateBlueCubesFromHashTags positions size random).a_position[3 * (8 * k + j) + 1]?
          = some (if j % 4 < 2 then 0 else size * (2 + random k * 3)) := by
  obtain ⟨h0, h1⟩ := hr k
  have hverts : (generateBlueCubesFromHashTags positions size random).a_position
      = blueCubeBlocks size random positions := by
    unfold generateBlueCubesFromHashTags Builder.result
    simp only [vertices_blueCubesLoop]
    rfl
  refine ⟨by rw [hverts, length_blueCubeBlocks], by nlinarith, by nlinarith, ?_⟩
  intro j hj
  have hidx : 3 * (8 * k + j) + 1 = 24 * k + (3 * j + 1) := by ring
  rw [hverts, hidx, getElem?_blueCubeBlocks size random positions k (3 * j + 1) (by omega),
    List.getElem?_eq_getElem hk]
  exact blueCubeVertices_y size (random k) _ j hj

theorem building_height_range_witness :
    ((0 : ℚ) < 1 ∧ (∀ n : Nat, (0 : ℚ) ≤ (fun _ => 1 / 2 : Nat → ℚ) n ∧
        (fun _ => 1 / 2 : Nat → ℚ) n < 1) ∧
      1 < ([⟨0, 0⟩, ⟨1, 0⟩] : List Coord).length) ∧
    ((generateBlueCubesFromHashTags [⟨0, 0⟩, ⟨1, 0⟩] 1 (fun _ => 1 / 2)).a_position.length
        = 3 * (8 * ([⟨0, 0⟩, ⟨1, 0⟩] : List Coord).length) ∧
      2 * (1 : ℚ) ≤ 1 * (2 + (fun _ => 1 / 2 : Nat → ℚ) 1 * 3) ∧
      1 * (2 + (fun _ => 1 / 2 : Nat → ℚ) 1 * 3) ≤ 5 * (1 : ℚ) ∧
      ∀ j, j < 8 →
        (generateBlueCubesFromHashTags [⟨0, 0⟩, ⟨1, 0⟩] 1 (fun _ => 1 / 2)).a_position[
            3 * (8 * 1 + j) + 1]?
          = some (if j % 4 < 2 then 0 else 1 * (2 + (fun _ => 1 / 2 : Nat → ℚ) 1 * 3))) :=
  ⟨⟨by norm_num, fun _ => by norm_num, by decide⟩,
    building_height_range 1 (by norm_num) (fun _ => 1 / 2) (fun _ => by norm_num)
      [⟨0, 0⟩, ⟨1, 0⟩] 1 (by decide)⟩

/-! ## Numbers: the rounding error of a double

`roundToDouble q` differs from `q` by at most `|q| / 2 ^ 53 + 1 / 2 ^ 1075`: half a unit in
the last place of a normal double, or half the spacing `2 ^ (-1074)` of the subnormal
ones. -/

theorem roundHalfEven_err (n d : Nat) (hd : 0 < d) :
    |(roundHalfEven n d : ℚ) - (n : ℚ) / d| ≤ 1 / 2 := by
  have hdq : (0 : ℚ) < d := by exact_mod_cast hd
  have hsplit : (n : ℚ) = (d : ℚ) * ((n / d : Nat) : ℚ) + ((n % d : Nat) : ℚ) := by
    exact_mod_cast (Nat.div_add_mod n d).symm
  have hmod : ((n % d : Nat) : ℚ) < d := by exact_mod_cast Nat.mod_lt n hd
  have hmod0 : (0 : ℚ) ≤ ((n % d : Nat) : ℚ) := Nat.cast_nonneg _
  have e : (n : ℚ) / d = ((n / d : Nat) : ℚ) + ((n % d : Nat) : ℚ) / d := by
    rw [div_eq_iff hdq.ne', add_mul, div_mul_cancel₀ _ hdq.ne']
    linarith
  rw [e, abs_le]
  unfold roundHalfEven
  split_ifs with h1 h2 h3
  · have h1q : 2 * ((n % d : Nat) : ℚ) < d := by exact_mod_cast h1
    have hx : ((n % d : Nat) : ℚ) / d ≤ 1 / 2 := by
      rw [div_le_iff₀ hdq]; linarith
    have hx0 : 0 ≤ ((n % d : Nat) : ℚ) / d := div_nonneg hmod0 hdq.le
    constructor <;> linarith
  · have h2q : (d : ℚ) < 2 * ((n % d : Nat) : ℚ) := by exact_mod_cast h2
    have hx : 1 / 2 ≤ ((n % d : Nat) : ℚ) / d := by
      rw [le_div_iff₀ hdq]; linarith
    have hx1 : ((n % d : Nat) : ℚ) / d ≤ 1 := by
      rw [div_le_iff₀ hdq]; linarith
    push_cast
    constructor <;> linarith
  · have heq : 2 * (n % d) = d := by omega
    have heqq : 2 * ((n % d : Nat) : ℚ) = d := by exact_mod_cast heq
    have hx : ((n % d : Nat) : ℚ) / d = 1 / 2 := by
      rw [div_eq_iff hdq.ne']; linarith
    constructor <;> linarith
  · have heq : 2 * (n % d) = d := by omega
    have heqq : 2 * ((n % d : Nat) : ℚ) = d := by exact_mod_cast heq
    have hx : ((n % d : Nat) : ℚ) / d = 1 / 2 := by
      rw [div_eq_iff hdq.ne']; linarith
    push_cast
    constructor <;> linarith

theorem roundPos_low (n d : Nat) (hn : 0 < n) :
    (2 : ℚ) ^ Nat.log2 n * d
      ≤ 2 ^ (Nat.log2 d + (if 2 ^ Nat.log2 n * d ≤ 2 ^ Nat.log2 d * n then 0 else 1)) * n := by
  split_ifs with h
  · exact_mod_cast h
  · have h1 : 2 ^ Nat.log2 n ≤ n := Nat.log2_self_le hn.ne'
    have h2 : d < 2 ^ (Nat.log2 d + 1) := Nat.lt_log2_self
    have h3 : 2 ^ Nat.log2 n * d ≤ 2 ^ (Nat.log2 d + 1) * n := by
      calc 2 ^ Nat.log2 n * d ≤ n * 2 ^ (Nat.log2 d + 1) := Nat.mul_le_mul h1 h2.le
        _ = 2 ^ (Nat.log2 d + 1) * n := Nat.mul_comm _ _
    exact_mod_cast h3

theorem roundHalfEven_scaled_err (n d t : Nat) (hd : 0 < d) :
    |(roundHalfEven (n * 2 ^ t) d : ℚ) / 2 ^ t - (n : ℚ) / d| ≤ 1 / 2 / 2 ^ t := by
  have h := roundHalfEven_err (n * 2 ^ t) d hd
  have hT : (0 : ℚ) < 2 ^ t := by positivity
  have hdq : (0 : ℚ) < d := by exact_mod_cast hd
  have e : (roundHalfEven (n * 2 ^ t) d : ℚ) / 2 ^ t - (n : ℚ) / d
      = ((roundHalfEven (n * 2 ^ t) d : ℚ) - ((n * 2 ^ t : Nat) : ℚ) / d) / 2 ^ t := by
    push_cast
    field_simp
    ring
  rw [e, abs_div, abs_of_pos hT]
  gcongr

theorem roundPos_err (n d : Nat) (hn : 0 < n) (hd : 0 < d) :
    |roundPos n d - (n : ℚ) / d| ≤ (n : ℚ) / d / 2 ^ 53 + 1 / 2 ^ 1075 := by
  have hnq : (0 : ℚ) < n := by exact_mod_cast hn
  have hdq : (0 : ℚ) < d := by exact_mod_cast hd
  have hq : (0 : ℚ) ≤ (n : ℚ) / d / 2 ^ 53 := by positivity
  have hlow := roundPos_low n d hn
  unfold roundPos
  simp only []
  generalize (if 2 ^ Nat.log2 n * d ≤ 2 ^ Nat.log2 d * n then 0 else 1) = c at hlow ⊢
  generalize Nat.log2 n = a at hlow ⊢
  generalize Nat.log2 d = b at hlow ⊢
  have hA : (0 : ℚ) < 2 ^ a := by positivity
  split_ifs with h
  · by_cases ht : 52 + b + c - a ≤ 1074
    · rw [Nat.min_eq_left ht]
      obtain ⟨t, hta⟩ : ∃ t, 52 + b + c - a = t := ⟨_, rfl⟩
      rw [hta]
      have hsum : a + t = 52 + (b + c) := by omega
      have hT : (0 : ℚ) < 2 ^ t := by positivity
      have hp : (2 : ℚ) ^ a * 2 ^ t = 2 ^ 52 * 2 ^ (b + c) := by
        rw [← pow_add, ← pow_add, hsum]
      have hd52 : (d : ℚ) * 2 ^ 52 ≤ 2 ^ t * (n : ℚ) := by
        have h1 : (2 : ℚ) ^ a * ((d : ℚ) * 2 ^ 52) ≤ 2 ^ a * (2 ^ t * (n : ℚ)) := by
          calc (2 : ℚ) ^ a * ((d : ℚ) * 2 ^ 52) = 2 ^ 52 * (2 ^ a * (d : ℚ)) := by ring
            _ ≤ 2 ^ 52 * (2 ^ (b + c) * (n : ℚ)) :=
                mul_le_mul_of_nonneg_left hlow (by positivity)
            _ = 2 ^ a * 2 ^ t * (n : ℚ) := by rw [hp]; ring
            _ = 2 ^ a * (2 ^ t * (n : ℚ)) := by ring
        exact le_of_mul_le_mul_left h1 hA
      have hmain : (1 : ℚ) / 2 / 2 ^ t ≤ (n : ℚ) / d / 2 ^ 53 := by
        rw [div_div, div_div, div_le_div_iff₀ (by positivity) (by positivity)]
        have e53 : (2 : ℚ) ^ 53 = 2 * 2 ^ 52 := by norm_num
        rw [e53]
        nlinarith
      have := roundHalfEven_scaled_err n d t hd
      have h1075 : (0 : ℚ) ≤ 1 / 2 ^ 1075 := by positivity
      linarith
    · have ht2 : 1074 ≤ 52 + b + c - a := by omega
      rw [Nat.min_eq_right ht2]
      have := roundHalfEven_scaled_err n d 1074 hd
      have e : (1 : ℚ) / 2 / 2 ^ 1074 = 1 / 2 ^ 1075 := by
        rw [div_div, ← pow_succ']
      linarith
  · obtain ⟨s, hs⟩ : ∃ s, a - (52 + b + c) = s := ⟨_, rfl⟩
    rw [hs]
    have hsum : a = s + 52 + (b + c) := by omega
    have hS : (0 : ℚ) < 2 ^ s := by positivity
    have hB : (0 : ℚ) < 2 ^ (b + c) := by positivity
    have hherr := roundHalfEven_err n (d * 2 ^ s) (Nat.mul_pos hd (by positivity))
    have e : (roundHalfEven n (d * 2 ^ s) : ℚ) * 2 ^ s - (n : ℚ) / d
        = ((roundHalfEven n (d * 2 ^ s) : ℚ) - (n : ℚ) / ((d * 2 ^ s : Nat) : ℚ)) * 2 ^ s := by
      push_cast
      field_simp
      ring
    have habs : |(roundHalfEven n (d * 2 ^ s) : ℚ) * 2 ^ s - (n : ℚ) / d| ≤ 1 / 2 * 2 ^ s := by
      rw [e, abs_mul, abs_of_pos hS]
      gcongr
    have hpa : (2 : ℚ) ^ a = 2 ^ s * 2 ^ 52 * 2 ^ (b + c) := by
      rw [hsum, pow_add, pow_add]
    have hd52 : (2 : ℚ) ^ s * 2 ^ 52 * (d : ℚ) ≤ (n : ℚ) := by
      have h1 : (2 : ℚ) ^ (b + c) * (2 ^ s * 2 ^ 52 * (d : ℚ)) ≤ 2 ^ (b + c) * (n : ℚ) := by
        calc (2 : ℚ) ^ (b + c) * (2 ^ s * 2 ^ 52 * (d : ℚ)) = 2 ^ a * (d : ℚ) := by
              rw [hpa]; ring
          _ ≤ 2 ^ (b + c) * (n : ℚ) := hlow
      exact le_of_mul_le_mul_left h1 hB
    have hmain : (1 : ℚ) / 2 * 2 ^ s ≤ (n : ℚ) / d / 2 ^ 53 := by
      rw [div_div, le_div_iff₀ (by positivity)]
      have e53 : (2 : ℚ) ^ 53 = 2 * 2 ^ 52 := by norm_num
      rw [e53]
      nlinarith
    have h1075 : (0 : ℚ) ≤ 1 / 2 ^ 1075 := by positivity
    linarith

theorem roundToDouble_err (q : ℚ) :
    |roundToDouble q - q| ≤ |q| / 2 ^ 53 + 1 / 2 ^ 1075 := by
  unfold roundToDouble
  have hden : 0 < q.den := q.den_pos
  split_ifs with h0 hpos
  · have : q = 0 := Rat.zero_of_num_zero h0
    subst this
    norm_num
  · have hq : ((q.num.natAbs : Nat) : ℚ) / (q.den : ℚ) = q := by
      have h2 : ((q.num.natAbs : Nat) : ℚ) = (q.num : ℚ) := by
        rw [Nat.cast_natAbs, abs_of_nonneg hpos.le]
      rw [h2]
      exact Rat.num_div_den q
    have hnat : 0 < q.num.natAbs := Int.natAbs_pos.mpr h0
    have := roundPos_err q.num.natAbs q.den hnat hden
    rw [hq] at this
    have hq0 : 0 ≤ q := Rat.num_nonneg.mp hpos.le
    rw [abs_of_nonneg hq0]
    exact this
  · have hneg : q.num < 0 := lt_of_le_of_ne (not_lt.mp hpos) h0
    have hq : ((q.num.natAbs : Nat) : ℚ) / (q.den : ℚ) = -q := by
      have h2 : ((q.num.natAbs : Nat) : ℚ) = -(q.num : ℚ) := by
        rw [Nat.cast_natAbs, abs_of_neg hneg, Int.cast_neg]
      rw [h2, neg_div, Rat.num_div_den q]
    have hnat : 0 < q.num.natAbs := Int.natAbs_pos.mpr h0
    have := roundPos_err q.num.natAbs q.den hnat hden
    rw [hq] at this
    have hq0 : q ≤ 0 := by
      have : q < 0 := Rat.num_neg.mp hneg
      exact this.le
    rw [abs_of_nonpos hq0]
    have e : -roundPos q.num.natAbs q.den - q = -(roundPos q.num.natAbs q.den - -q) := by ring
    rw [e, abs_neg]
    exact this

theorem roundToDouble_close (q t ε T : ℚ) (h : |q - t| ≤ ε) (hT : |t| ≤ T) :
    |roundToDouble q - t| ≤ ε + (T + ε) / 2 ^ 53 + 1 / 2 ^ 1075 := by
  have h1 := roundToDouble_err q
  have h2 : |q| ≤ T + ε := by
    calc |q| = |t + (q - t)| := by ring_nf
      _ ≤ |t| + |q - t| := abs_add _ _
      _ ≤ T + ε := add_le_add hT h
  have h3 : |roundToDouble q - t| ≤ |roundToDouble q - q| + |q - t| := by
    calc |roundToDouble q - t| = |(roundToDouble q - q) + (q - t)| := by ring_nf
      _ ≤ _ := abs_add _ _
  have h4 : |q| / 2 ^ 53 ≤ (T + ε) / 2 ^ 53 := by gcongr
  linarith

theorem nearLinear_zero : NearLinear (fun _ => 0) 0 0 0 :=
  ⟨0, by simp, fun x => by simp⟩

theorem nearLinear_fmul (c L : ℚ) (hc : |c| ≤ L) :
    NearLinear (fun x => fmul x c) L (L / 2 ^ 53) (1 / 2 ^ 1075) := by
  refine ⟨c, hc, fun x => ?_⟩
  have h := roundToDouble_close (x * c) (x * c) 0 (|x| * L) (by simp)
    (by rw [abs_mul]; gcongr)
  show |roundToDouble (x * c) - x * c| ≤ _
  have e2 : |x| * (L / 2 ^ 53) = (|x| * L + 0) / 2 ^ 53 := by ring
  rw [e2]
  linarith

theorem nearLinear_neg {f : ℚ → ℚ} {L A B : ℚ} (h : NearLinear f L A B) :
    NearLinear (fun x => -f x) L A B := by
  obtain ⟨l, hl, hf⟩ := h
  refine ⟨-l, by rwa [abs_neg], fun x => ?_⟩
  have e : -f x - x * -l = -(f x - x * l) := by ring
  rw [e, abs_neg]
  exact hf x

theorem nearLinear_fdiv {f : ℚ → ℚ} {L A B : ℚ} (h : NearLinear f L A B) (d : ℚ)
    (hd : 0 < d) :
    NearLinear (fun x => fdiv (f x) d) (L / d)
      ((A + (L + A) / 2 ^ 53) / d) ((B + B / 2 ^ 53) / d + 1 / 2 ^ 1075) := by
  obtain ⟨l, hl, hf⟩ := h
  refine ⟨l / d, ?_, fun x => ?_⟩
  · rw [abs_div, abs_of_pos hd]
    gcongr
  · have h1 : |f x / d - x * (l / d)| ≤ (|x| * A + B) / d := by
      have e : f x / d - x * (l / d) = (f x - x * l) / d := by ring
      rw [e, abs_div, abs_of_pos hd]
      gcongr
      exact hf x
    have h2 : |x * (l / d)| ≤ |x| * L / d := by
      rw [abs_mul, abs_div, abs_of_pos hd, mul_div_assoc]
      gcongr
    have h := roundToDouble_close (f x / d) (x * (l / d)) _ _ h1 h2
    show |roundToDouble (f x / d) - x * (l / d)| ≤ _
    have e2 : |x| * ((A + (L + A) / 2 ^ 53) / d) + ((B + B / 2 ^ 53) / d + 1 / 2 ^ 1075)
        = (|x| * A + B) / d + (|x| * L / d + (|x| * A + B) / d) / 2 ^ 53 + 1 / 2 ^ 1075 := by
      field_simp
      ring
    rw [e2]
    exact h

theorem nearLinear_round_add {f g : ℚ → ℚ} {L₁ A₁ B₁ L₂ A₂ B₂ : ℚ} (hf : NearLinear f L₁ A₁ B₁)
    (hg : NearLinear g L₂ A₂ B₂) :
    NearLinear (fun x => roundToDouble (f x + g x)) (L₁ + L₂)
      (A₁ + A₂ + (L₁ + L₂ + (A₁ + A₂)) / 2 ^ 53)
      (B₁ + B₂ + (B₁ + B₂) / 2 ^ 53 + 1 / 2 ^ 1075) := by
  obtain ⟨l₁, hl₁, hf⟩ := hf
  obtain ⟨l₂, hl₂, hg⟩ := hg
  refine ⟨l₁ + l₂, (abs_add _ _).trans (add_le_add hl₁ hl₂), fun x => ?_⟩
  have h1 : |f x + g x - x * (l₁ + l₂)| ≤ |x| * A₁ + B₁ + (|x| * A₂ + B₂) := by
    have e : f x + g x - x * (l₁ + l₂) = (f x - x * l₁) + (g x - x * l₂) := by ring
    rw [e]
    exact (abs_add _ _).trans (add_le_add (hf x) (hg x))
  have h2 : |x * (l₁ + l₂)| ≤ |x| * (L₁ + L₂) := by
    rw [abs_mul]
    gcongr
    exact (abs_add _ _).trans (add_le_add hl₁ hl₂)
  have h := roundToDouble_close (f x + g x) (x * (l₁ + l₂)) _ _ h1 h2
  show |roundToDouble (f x + g x) - x * (l₁ + l₂)| ≤ _
  have e2 : |x| * (A₁ + A₂ + (L₁ + L₂ + (A₁ + A₂)) / 2 ^ 53)
        + (B₁ + B₂ + (B₁ + B₂) / 2 ^ 53 + 1 / 2 ^ 1075)
      = |x| * A₁ + B₁ + (|x| * A₂ + B₂)
        + (|x| * (L₁ + L₂) + (|x| * A₁ + B₁ + (|x| * A₂ + B₂))) / 2 ^ 53 + 1 / 2 ^ 1075 := by
    ring
  rw [e2]
  exact h

theorem nearLinear_fadd {f g : ℚ → ℚ} {L₁ A₁ B₁ L₂ A₂ B₂ : ℚ} (hf : NearLinear f L₁ A₁ B₁)
    (hg : NearLinear g L₂ A₂ B₂) :
    NearLinear (fun x => fadd (f x) (g x)) (L₁ + L₂)
      (A₁ + A₂ + (L₁ + L₂ + (A₁ + A₂)) / 2 ^ 53)
      (B₁ + B₂ + (B₁ + B₂) / 2 ^ 53 + 1 / 2 ^ 1075) :=
  nearLinear_round_add hf hg

theorem nearLinear_fsub {f g : ℚ → ℚ} {L₁ A₁ B₁ L₂ A₂ B₂ : ℚ} (hf : NearLinear f L₁ A₁ B₁)
    (hg : NearLinear g L₂ A₂ B₂) :
    NearLinear (fun x => fsub (f x) (g x)) (L₁ + L₂)
      (A₁ + A₂ + (L₁ + L₂ + (A₁ + A₂)) / 2 ^ 53)
      (B₁ + B₂ + (B₁ + B₂) / 2 ^ 53 + 1 / 2 ^ 1075) := by
  have h := nearLinear_round_add hf (nearLinear_neg hg)
  have e : (fun x => fsub (f x) (g x)) = (fun x => roundToDouble (f x + -g x)) := by
    funext x
    simp only [fsub, sub_eq_add_neg]
  rw [e]
  exact h

theorem nearLinear_scale {f : ℚ → ℚ} {L A B : ℚ} (h : NearLinear f L A B) (hA : 0 ≤ A)
    (h1 : (2 + 1 / 2 ^ 53) * A + L / 2 ^ 53 ≤ 1 / 2 ^ 49)
    (h2 : (A + L) / 2 ^ 1075 + B ≤ 1 / 2 ^ 1072) (k s : ℚ) :
    |f (fmul k s) - k * f s| ≤ |k * s| / 2 ^ 49 + (1 + |k|) / 2 ^ 1072 := by
  obtain ⟨l, hl, hf⟩ := h
  have hL : 0 ≤ L := (abs_nonneg l).trans hl
  have hB : 0 ≤ B := by
    have := hf 0
    simp only [abs_zero, zero_mul, zero_add] at this
    exact (abs_nonneg _).trans this
  have hs := roundToDouble_err (k * s)
  have e : fmul k s = roundToDouble (k * s) := rfl
  rw [e]
  set r := roundToDouble (k * s) with hr
  have hrabs : |r| ≤ |k * s| + (|k * s| / 2 ^ 53 + 1 / 2 ^ 1075) := by
    calc |r| = |k * s + (r - k * s)| := by ring_nf
      _ ≤ |k * s| + |r - k * s| := abs_add _ _
      _ ≤ _ := by linarith
  have t1 := hf r
  have t2 : |r * l - k * s * l| ≤ (|k * s| / 2 ^ 53 + 1 / 2 ^ 1075) * L := by
    have e1 : r * l - k * s * l = (r - k * s) * l := by ring
    rw [e1, abs_mul]
    gcongr
  have t3 : |k * s * l - k * f s| ≤ |k| * (|s| * A + B) := by
    have e1 : k * s * l - k * f s = k * -(f s - s * l) := by ring
    rw [e1, abs_mul, abs_neg]
    gcongr
    exact hf s
  have t4 : |f r - k * f s| ≤ |f r - r * l| + |r * l - k * s * l| + |k * s * l - k * f s| := by
    calc |f r - k * f s| = |(f r - r * l) + (r * l - k * s * l) + (k * s * l - k * f s)| := by
          ring_nf
      _ ≤ |(f r - r * l) + (r * l - k * s * l)| + |k * s * l - k * f s| := abs_add _ _
      _ ≤ _ := by gcongr; exact abs_add _ _
  have hks : |k * s| = |k| * |s| := abs_mul k s
  have hP : 0 ≤ |k * s| := abs_nonneg _
  have hK : 0 ≤ |k| := abs_nonneg _
  have t5 : |r| * A ≤ (|k * s| + (|k * s| / 2 ^ 53 + 1 / 2 ^ 1075)) * A := by gcongr
  have key : |f r - k * f s|
      ≤ |k * s| * ((2 + 1 / 2 ^ 53) * A + L / 2 ^ 53)
        + ((A + L) / 2 ^ 1075 + B) + |k| * B := by
    have e3 : |k| * (|s| * A + B) = |k * s| * A + |k| * B := by rw [hks]; ring
    rw [e3] at t3
    have e4 : |k * s| * ((2 + 1 / 2 ^ 53) * A + L / 2 ^ 53)
          + ((A + L) / 2 ^ 1075 + B) + |k| * B
        = (|k * s| + (|k * s| / 2 ^ 53 + 1 / 2 ^ 1075)) * A + B
          + (|k * s| / 2 ^ 53 + 1 / 2 ^ 1075) * L + (|k * s| * A + |k| * B) := by ring
    rw [e4]
    linarith
  have hB2 : B ≤ 1 / 2 ^ 1072 := by
    have : 0 ≤ (A + L) / 2 ^ 1075 := by positivity
    linarith
  have m1 : |k * s| * ((2 + 1 / 2 ^ 53) * A + L / 2 ^ 53) ≤ |k * s| * (1 / 2 ^ 49) := by
    gcongr
  have m2 : |k| * B ≤ |k| * (1 / 2 ^ 1072) := by gcongr
  have e5 : |k * s| / 2 ^ 49 + (1 + |k|) / 2 ^ 1072
      = |k * s| * (1 / 2 ^ 49) + 1 / 2 ^ 1072 + |k| * (1 / 2 ^ 1072) := by ring
  rw [e5]
  linarith

theorem fadd_close {a b ta tb εa εb T : ℚ} (ha : |a - ta| ≤ εa) (hb : |b - tb| ≤ εb)
    (hT : |ta + tb| ≤ T) :
    |fadd a b - (ta + tb)| ≤ εa + εb + (T + (εa + εb)) / 2 ^ 53 + 1 / 2 ^ 1075 := by
  have h : |a + b - (ta + tb)| ≤ εa + εb := by
    have e : a + b - (ta + tb) = (a - ta) + (b - tb) := by ring
    rw [e]
    exact (abs_add _ _).trans (add_le_add ha hb)
  exact roundToDouble_close (a + b) (ta + tb) (εa + εb) T h hT

theorem fsub_close {a b ta tb εa εb T : ℚ} (ha : |a - ta| ≤ εa) (hb : |b - tb| ≤ εb)
    (hT : |ta - tb| ≤ T) :
    |fsub a b - (ta - tb)| ≤ εa + εb + (T + (εa + εb)) / 2 ^ 53 + 1 / 2 ^ 1075 := by
  have h : |a - b - (ta - tb)| ≤ εa + εb := by
    have e : a - b - (ta - tb) = (a - ta) + -(b - tb) := by ring
    rw [e]
    refine (abs_add _ _).trans (add_le_add ha ?_)
    rw [abs_neg]
    exact hb
  exact roundToDouble_close (a - b) (ta - tb) (εa + εb) T h hT

theorem fmul_close {c a ta εa T : ℚ} (hc : 0 ≤ c) (ha : |a - ta| ≤ εa) (hT : |c * ta| ≤ T) :
    |fmul c a - c * ta| ≤ c * εa + (T + c * εa) / 2 ^ 53 + 1 / 2 ^ 1075 := by
  have h : |c * a - c * ta| ≤ c * εa := by
    have e : c * a - c * ta = c * (a - ta) := by ring
    rw [e, abs_mul, abs_of_nonneg hc]
    gcongr
  exact roundToDouble_close (c * a) (c * ta) (c * εa) T h hT

theorem fdiv_close (a d T : ℚ) (hT : |a / d| ≤ T) :
    |fdiv a d - a / d| ≤ T / 2 ^ 53 + 1 / 2 ^ 1075 := by
  have h := roundToDouble_close (a / d) (a / d) 0 T (by simp) hT
  have e : (0 : ℚ) + (T + 0) / 2 ^ 53 + 1 / 2 ^ 1075 = T / 2 ^ 53 + 1 / 2 ^ 1075 := by ring
  rw [e] at h
  exact h

/-! ## Geometry: scaling of the dynamic shapes -/

theorem roundToDouble_2_5 : roundToDouble 2.5 = 5 / 2 := by
  norm_num [roundToDouble, roundPos, roundHalfEven, Nat.log2]

theorem roundToDouble_1_2 : roundToDouble 1.2 = 5404319552844595 / 4503599627370496 := by
  norm_num [roundToDouble, roundPos, roundHalfEven, Nat.log2]

theorem roundToDouble_0_6 : roundToDouble 0.6 = 5404319552844595 / 9007199254740992 := by
  norm_num [roundToDouble, roundPos, roundHalfEven, Nat.log2]

theorem roundToDouble_0_4 : roundToDouble 0.4 = 3602879701896397 / 9007199254740992 := by
  norm_num [roundToDouble, roundPos, roundHalfEven, Nat.log2]

theorem roundToDouble_0_3 : roundToDouble 0.3 = 5404319552844595 / 18014398509481984 := by
  norm_num [roundToDouble, roundPos, roundHalfEven, Nat.log2]

theorem roundToDouble_0_2 : roundToDouble 0.2 = 3602879701896397 / 18014398509481984 := by
  norm_num [roundToDouble, roundPos, roundHalfEven, Nat.log2]

/-- The constants of `generateData` have magnitude at most `5 / 2`, and those other than
the length factor at most `5 / 4`. -/
theorem car_constants :
    |roundToDouble 2.5| ≤ 5 / 2 ∧ |roundToDouble 1.2| ≤ 5 / 4 ∧ |roundToDouble 0.6| ≤ 5 / 8 ∧
      |roundToDouble 0.4| ≤ 1 / 2 ∧ |roundToDouble 0.3| ≤ 1 / 2 ∧ |roundToDouble 0.2| ≤ 1 / 2 := by
  rw [roundToDouble_2_5, roundToDouble_1_2, roundToDouble_0_6, roundToDouble_0_4,
    roundToDouble_0_3, roundToDouble_0_2]
  norm_num [abs_le]

theorem car_scale_zero (k s : ℚ) :
    |(0 : ℚ) - k * 0| ≤ |k * s| / 2 ^ 49 + (1 + |k|) / 2 ^ 1072 := by
  have h1 : 0 ≤ |k * s| := abs_nonneg _
  have h2 : 0 ≤ |k| := abs_nonneg _
  simp only [mul_zero, sub_zero, abs_zero]
  positivity

theorem car_scale_mul (c : ℚ) (hc : |c| ≤ 5 / 2) (k s : ℚ) :
    |fmul (fmul k s) c - k * fmul s c| ≤ |k * s| / 2 ^ 49 + (1 + |k|) / 2 ^ 1072 :=
  nearLinear_scale (nearLinear_fmul c (5 / 2) hc) (by norm_num) (by norm_num) (by norm_num) k s

theorem car_scale_div (c d : ℚ) (hc : |c| ≤ 5 / 2) (hd : d = 2 ∨ d = 3 ∨ d = 4) (k s : ℚ) :
    |fdiv (fmul (fmul k s) c) d - k * fdiv (fmul s c) d|
      ≤ |k * s| / 2 ^ 49 + (1 + |k|) / 2 ^ 1072 := by
  rcases hd with rfl | rfl | rfl
  · exact nearLinear_scale (nearLinear_fdiv (nearLinear_fmul c (5 / 2) hc) 2 (by norm_num))
      (by norm_num) (by norm_num) (by norm_num) k s
  · exact nearLinear_scale (nearLinear_fdiv (nearLinear_fmul c (5 / 2) hc) 3 (by norm_num))
      (by norm_num) (by norm_num) (by norm_num) k s
  · exact nearLinear_scale (nearLinear_fdiv (nearLinear_fmul c (5 / 2) hc) 4 (by norm_num))
      (by norm_num) (by norm_num) (by norm_num) k s

theorem car_scale_div_neg (c d : ℚ) (hc : |c| ≤ 5 / 2) (hd : d = 2 ∨ d = 3 ∨ d = 4) (k s : ℚ) :
    |fdiv (-fmul (fmul k s) c) d - k * fdiv (-fmul s c) d|
      ≤ |k * s| / 2 ^ 49 + (1 + |k|) / 2 ^ 1072 := by
  rcases hd with rfl | rfl | rfl
  · exact nearLinear_scale
      (nearLinear_fdiv (nearLinear_neg (nearLinear_fmul c (5 / 2) hc)) 2 (by norm_num))
      (by norm_num) (by norm_num) (by norm_num) k s
  · exact nearLinear_scale
      (nearLinear_fdiv (nearLinear_neg (nearLinear_fmul c (5 / 2) hc)) 3 (by norm_num))
      (by norm_num) (by norm_num) (by norm_num) k s
  · exact nearLinear_scale
      (nearLinear_fdiv (nearLinear_neg (nearLinear_fmul c (5 / 2) hc)) 4 (by norm_num))
      (by norm_num) (by norm_num) (by norm_num) k s

theorem car_scale_add (c e : ℚ) (hc : |c| ≤ 5 / 8) (he : |e| ≤ 1 / 2) (k s : ℚ) :
    |fadd (fmul (fmul k s) c) (fmul (fmul k s) e) - k * fadd (fmul s c) (fmul s e)|
      ≤ |k * s| / 2 ^ 49 + (1 + |k|) / 2 ^ 1072 :=
  nearLinear_scale (nearLinear_fadd (nearLinear_fmul c (5 / 8) hc) (nearLinear_fmul e (1 / 2) he))
    (by norm_num) (by norm_num) (by norm_num) k s

theorem car_scale_wheel_sub (c w : ℚ) (hc : |c| ≤ 5 / 2) (hw : |w| ≤ 1 / 2) (k s : ℚ) :
    |fsub (fdiv (fmul (fmul k s) c) 2) (fmul (fmul k s) w)
        - k * fsub (fdiv (fmul s c) 2) (fmul s w)|
      ≤ |k * s| / 2 ^ 49 + (1 + |k|) / 2 ^ 1072 :=
  nearLinear_scale
    (nearLinear_fsub (nearLinear_fdiv (nearLinear_fmul c (5 / 2) hc) 2 (by norm_num))
      (nearLinear_fmul w (1 / 2) hw))
    (by norm_num) (by norm_num) (by norm_num) k s

theorem car_scale_wheel_add (c w : ℚ) (hc : |c| ≤ 5 / 2) (hw : |w| ≤ 1 / 2) (k s : ℚ) :
    |fadd (fdiv (fmul (fmul k s) c) 2) (fmul (fmul k s) w)
        - k * fadd (fdiv (fmul s c) 2) (fmul s w)|
      ≤ |k * s| / 2 ^ 49 + (1 + |k|) / 2 ^ 1072 :=
  nearLinear_scale
    (nearLinear_fadd (nearLinear_fdiv (nearLinear_fmul c (5 / 2) hc) 2 (by norm_num))
      (nearLinear_fmul w (1 / 2) hw))
    (by norm_num) (by norm_num) (by norm_num) k s

theorem car_scale_wheel_neg_sub (c w : ℚ) (hc : |c| ≤ 5 / 2) (hw : |w| ≤ 1 / 2) (k s : ℚ) :
    |fsub (fdiv (-fmul (fmul k s) c) 2) (fmul (fmul k s) w)
        - k * fsub (fdiv (-fmul s c) 2) (fmul s w)|
      ≤ |k * s| / 2 ^ 49 + (1 + |k|) / 2 ^ 1072 :=
  nearLinear_scale
    (nearLinear_fsub
      (nearLinear_fdiv (nearLinear_neg (nearLinear_fmul c (5 / 2) hc)) 2 (by norm_num))
      (nearLinear_fmul w (1 / 2) hw))
    (by norm_num) (by norm_num) (by norm_num) k s

theorem car_scale_wheel_neg_add (c w : ℚ) (hc : |c| ≤ 5 / 2) (hw : |w| ≤ 1 / 2) (k s : ℚ) :
    |fadd (fdiv (-fmul (fmul k s) c) 2) (fmul (fmul k s) w)
        - k * fadd (fdiv (-fmul s c) 2) (fmul s w)|
      ≤ |k * s| / 2 ^ 49 + (1 + |k|) / 2 ^ 1072 :=
  nearLinear_scale
    (nearLinear_fadd
      (nearLinear_fdiv (nearLinear_neg (nearLinear_fmul c (5 / 2) hc)) 2 (by norm_num))
      (nearLinear_fmul w (1 / 2) hw))
    (by norm_num) (by norm_num) (by norm_num) k s

theorem forall₂_at_index {α β : Type} {R : α → β → Prop} {l₁ : List α} {l₂ : List β}
    (h : List.Forall₂ R l₁ l₂) (i : Nat) (a : α) (b : β) (ha : l₁[i]? = some a)
    (hb : l₂[i]? = some b) : R a b := by
  induction h generalizing i with
  | nil => simp at ha
  | cons hab _ ih =>
    cases i with
    | zero =>
      simp only [List.getElem?_cons_zero, Option.some.injEq] at ha hb
      subst ha
      subst hb
      exact hab
    | succ i =>
      simp only [List.getElem?_cons_succ] at ha hb
      exact ih i ha hb

theorem generateData_scale_pairwise (k s : ℚ) :
    List.Forall₂ (fun e e' => |e - k * e'| ≤ |k * s| / 2 ^ 49 + (1 + |k|) / 2 ^ 1072)
      (generateData (fmul k s)).a_position (generateData s).a_position := by
  obtain ⟨h25, h12, h06, h04, h03, h02⟩ := car_constants
  have h12' : |roundToDouble 1.2| ≤ 5 / 2 := by linarith
  have h06' : |roundToDouble 0.6| ≤ 5 / 2 := by linarith
  have h02' : |roundToDouble 0.2| ≤ 5 / 2 := by linarith
  simp only [generateData, Builder.result, Builder.empty, wheel, List.foldl, List.nil_append,
    List.cons_append, List.forall₂_cons, List.forall₂_nil_left_iff, and_true]
  repeat' apply And.intro
  all_goals with_reducible first
    | exact car_scale_zero k s
    | exact car_scale_mul _ h06' k s
    | exact car_scale_div _ _ h12' (by norm_num) k s
    | exact car_scale_div _ _ h25 (by norm_num) k s
    | exact car_scale_div_neg _ _ h12' (by norm_num) k s
    | exact car_scale_div_neg _ _ h25 (by norm_num) k s
    | exact car_scale_div_neg _ _ h02' (by norm_num) k s
    | exact car_scale_add _ _ h06 h04 k s
    | exact car_scale_wheel_sub _ _ h12' h03 k s
    | exact car_scale_wheel_sub _ _ h25 h03 k s
    | exact car_scale_wheel_add _ _ h12' h03 k s
    | exact car_scale_wheel_add _ _ h25 h03 k s
    | exact car_scale_wheel_neg_sub _ _ h12' h03 k s
    | exact car_scale_wheel_neg_sub _ _ h25 h03 k s
    | exact car_scale_wheel_neg_add _ _ h12' h03 k s
    | exact car_scale_wheel_neg_add _ _ h25 h03 k s

theorem fmul_one_half (size : ℚ) : fmul size (fmul 1 0.5) = fmul size 0.5 := by
  have h : fmul 1 0.5 = 0.5 := by
    norm_num [fmul, roundToDouble, roundPos, roundHalfEven, Nat.log2]
  rw [h]

set_option maxRecDepth 8000 in
theorem fmul_one_neg_half (size : ℚ) : fmul size (fmul 1 (-0.5)) = fmul size (-0.5) := by
  have h : fmul 1 (-0.5) = -0.5 := by
    norm_num [fmul, roundToDouble, roundPos, roundHalfEven, Nat.log2]
  rw [h]

theorem generateObstacleData_scale (size : ℚ) :
    (generateObstacleData size).a_position
      = (generateObstacleData 1).a_position.map (fun e => fmul size e) := by
  simp only [generateObstacleData, List.map, fmul_one_half, fmul_one_neg_half]

theorem generateData_a_color (size : ℚ) :
    (generateData size).a_color
      = [ 1, 0, 0, 1, 1, 0, 0, 1, 1, 0, 0, 1, 1, 0, 0, 1,
          1, 0, 0, 1, 1, 0, 0, 1, 1, 0, 0, 1, 1, 0, 0, 1,
          roundToDouble 0.6, roundToDouble 0.8, 1, 1,
          roundToDouble 0.6, roundToDouble 0.8, 1, 1,
          roundToDouble 0.6, roundToDouble 0.8, 1, 1,
          roundToDouble 0.6, roundToDouble 0.8, 1, 1,
          0, 0, 0, 1, 0, 0, 0, 1, 0, 0, 0, 1, 0, 0, 0, 1,
          0, 0, 0, 1, 0, 0, 0, 1, 0, 0, 0, 1, 0, 0, 0, 1,
          0, 0, 0, 1, 0, 0, 0, 1, 0, 0, 0, 1, 0, 0, 0, 1,
          0, 0, 0, 1, 0, 0, 0, 1, 0, 0, 0, 1, 0, 0, 0, 1 ] :=
  rfl

set_option maxRecDepth 8000 in
theorem car_component_scaled :
    (generateData (fmul (roundToDouble 0.3) 1)).a_position[24]?
      = some (-1080863910568919 / 9007199254740992 : ℚ) := by
  have h : (generateData (fmul (roundToDouble 0.3) 1)).a_position[24]?
      = some (fdiv (-fmul (fmul (roundToDouble 0.3) 1) (roundToDouble 1.2)) 3) := rfl
  have h1 : fmul (5404319552844595 / 18014398509481984) 1
      = 5404319552844595 / 18014398509481984 := by
    norm_num [fmul, roundToDouble, roundPos, roundHalfEven, Nat.log2]
  have h2 : fmul (5404319552844595 / 18014398509481984)
      (5404319552844595 / 4503599627370496) = 3242591731706757 / 9007199254740992 := by
    norm_num [fmul, roundToDouble, roundPos, roundHalfEven, Nat.log2]
  have h3 : fdiv (-(3242591731706757 / 9007199254740992)) 3
      = -1080863910568919 / 9007199254740992 := by
    norm_num [fdiv, roundToDouble, roundPos, roundHalfEven, Nat.log2]
  rw [h, roundToDouble_0_3, roundToDouble_1_2, h1, h2, h3]

set_option maxRecDepth 8000 in
theorem car_component_unit :
    (generateData 1).a_position[24]? = some (-7205759403792793 / 18014398509481984 : ℚ) := by
  have h : (generateData 1).a_position[24]?
      = some (fdiv (-fmul 1 (roundToDouble 1.2)) 3) := rfl
  have h1 : fmul 1 (5404319552844595 / 4503599627370496)
      = 5404319552844595 / 4503599627370496 := by
    norm_num [fmul, roundToDouble, roundPos, roundHalfEven, Nat.log2]
  have h2 : fdiv (-(5404319552844595 / 4503599627370496)) 3
      = -7205759403792793 / 18014398509481984 := by
    norm_num [fdiv, roundToDouble, roundPos, roundHalfEven, Nat.log2]
  rw [h, roundToDouble_1_2, h1, h2]

set_option maxRecDepth 8000 in
theorem car_component_product :
    fmul (roundToDouble 0.3) (-7205759403792793 / 18014398509481984)
      = -8646911284551351 / 72057594037927936 := by
  rw [roundToDouble_0_3]
  norm_num [fmul, roundToDouble, roundPos, roundHalfEven, Nat.log2]

/-- C17, as stated, fails for the car at size 1 and factor 0.3.  Component 24 of
`a_position` (the X coordinate `-carWidth / 3` of the first cabin vertex) is
`-0.12` in `generateData(0.3 * 1)`; in `generateData(1)` it is `-0.39999999999999997`,
and 0.3 times that is `-0.11999999999999998` as a double, and no double at all as an
exact product: the positions of `generateData(k * s)` are not `k` times the positions of
`generateData(s)`. -/
theorem car_scaling_not_exact :
    (generateData (fmul (roundToDouble 0.3) 1)).a_position[24]?
        = some (-1080863910568919 / 9007199254740992 : ℚ) ∧
      (generateData 1).a_position[24]? = some (-7205759403792793 / 18014398509481984 : ℚ) ∧
      fmul (roundToDouble 0.3) (-7205759403792793 / 18014398509481984)
        = -8646911284551351 / 72057594037927936 ∧
      (generateData (fmul (roundToDouble 0.3) 1)).a_position
        ≠ (generateData 1).a_position.map (fun e => fmul (roundToDouble 0.3) e) ∧
      (generateData (fmul (roundToDouble 0.3) 1)).a_position
        ≠ (generateData 1).a_position.map (fun e => roundToDouble 0.3 * e) := by
  refine ⟨car_component_scaled, car_component_unit, car_component_product, ?_, ?_⟩
  · intro h
    have h24 := congrArg (fun l => l[24]?) h
    simp only [List.getElem?_map, car_component_scaled, car_component_unit, Option.map_some',
      car_component_product, Option.some.injEq] at h24
    norm_num at h24
  · intro h
    have h24 := congrArg (fun l => l[24]?) h
    simp only [List.getElem?_map, car_component_scaled, car_component_unit, Option.map_some',
      Option.some.injEq] at h24
    rw [roundToDouble_0_3] at h24
    norm_num at h24

/-- C17, amended: for every size `s` and factor `k` with `|s|` and `|k s|` at most
`2 ^ 1000` (a range in which no operation of `generateData` overflows), every position
component of `generateData(k * s)` differs from `k` times the same component of
`generateData(s)` by at most `|k s| / 2 ^ 49 + (1 + |k|) / 2 ^ 1072`: the car scales with
its size up to the rounding of doubles.  The positions of `generateObstacleData(s)` are
exactly `s` times those of `generateObstacleData(1)`, and the colours and the indices
of both builders do not depend on the size. -/
theorem dynamic_shapes_scale_rounded (size factor : ℚ) :
    (|size| ≤ 2 ^ 1000 → |factor * size| ≤ 2 ^ 1000 →
        ∀ (i : Nat) (e e' : ℚ),
          (generateData (fmul factor size)).a_position[i]? = some e →
          (generateData size).a_position[i]? = some e' →
          |e - factor * e'| ≤ |factor * size| / 2 ^ 49 + (1 + |factor|) / 2 ^ 1072) ∧
      (generateObstacleData size).a_position
        = (generateObstacleData 1).a_position.map (fun e => fmul size e) ∧
      (generateData size).a_color = (generateData 1).a_color ∧
      (generateData size).indices = (generateData 1).indices ∧
      (generateObstacleData size).a_color = (generateObstacleData 1).a_color ∧
      (generateObstacleData size).indices = (generateObstacleData 1).indices := by
  refine ⟨?_, generateObstacleData_scale size, ?_, ?_, rfl, rfl⟩
  · intro _ _ i e e' he he'
    exact forall₂_at_index (generateData_scale_pairwise factor size) i e e' he he'
  · rw [generateData_a_color, generateData_a_color]
  · rw [generateData_indices, generateData_indices]

theorem dynamic_shapes_scale_rounded_witness :
    |(1 : ℚ)| ≤ 2 ^ 1000 ∧
      |(5404319552844595 / 18014398509481984 : ℚ) * 1| ≤ 2 ^ 1000 ∧
      (generateData (fmul (5404319552844595 / 18014398509481984) 1)).a_position[24]?
        = some (-1080863910568919 / 9007199254740992 : ℚ) ∧
      (generateData 1).a_position[24]? = some (-7205759403792793 / 18014398509481984 : ℚ) ∧
      |(-1080863910568919 / 9007199254740992 : ℚ)
          - 5404319552844595 / 18014398509481984 * (-7205759403792793 / 18014398509481984)|
        ≤ |(5404319552844595 / 18014398509481984 : ℚ) * 1| / 2 ^ 49
          + (1 + |(5404319552844595 / 18014398509481984 : ℚ)|) / 2 ^ 1072 :=
  have h1 : |(1 : ℚ)| ≤ 2 ^ 1000 := by norm_num
  have h2 : |(5404319552844595 / 18014398509481984 : ℚ) * 1| ≤ 2 ^ 1000 := by
    norm_num [abs_le]
  have h3 : (generateData (fmul (5404319552844595 / 18014398509481984) 1)).a_position[24]?
      = some (-1080863910568919 / 9007199254740992 : ℚ) :=
    roundToDouble_0_3 ▸ car_component_scaled
  ⟨h1, h2, h3, car_component_unit,
    (dynamic_shapes_scale_rounded 1 (5404319552844595 / 18014398509481984)).1 h1 h2 24 _ _
      h3 car_component_unit⟩

/-! ## The render loop -/

theorem drawScene_fst (frameCount : Nat) (updateSettles : Bool) :
    (drawScene frameCount updateSettles).1 = frameCount + 1 := by
  unfold drawScene
  by_cases h : (frameCount + 1) % 30 = 0
  · cases updateSettles <;> simp [h]
  · simp [h]

theorem frameCountAfter_eq (n : Nat) : frameCountAfter n = n := by
  induction n with
  | zero => rfl
  | succ m ih => rw [frameCountAfter, drawScene_fst, ih]

theorem update_mem_drawScene (frameCount : Nat) (updateSettles : Bool) :
    FrameEvent.update ∈ (drawScene frameCount updateSettles).2 ↔ (frameCount + 1) % 30 = 0 := by
  unfold drawScene
  by_cases h : (frameCount + 1) % 30 = 0
  · cases updateSettles <;> simp [h]
  · simp [h]

/-- C18: every call of `drawScene` increments `frameCount` by exactly one; so, starting
from `frameCount = 0`, the counter is `n` after `n` frames, and frame number `n + 1`
calls `update` (the only network request a frame issues) if and only if `n + 1` is a
positive multiple of 30. -/
theorem refresh_cadence (n : Nat) (updateSettles : Bool) :
    (∀ frameCount settles, (drawScene frameCount settles).1 = frameCount + 1) ∧
      frameCountAfter n = n ∧
      (FrameEvent.update ∈ (drawScene (frameCountAfter n) updateSettles).2 ↔
        0 < n + 1 ∧ 30 ∣ n + 1) := by
  refine ⟨drawScene_fst, frameCountAfter_eq n, ?_⟩
  rw [update_mem_drawScene, frameCountAfter_eq, Nat.dvd_iff_mod_eq_zero]
  constructor
  · intro h
    exact ⟨Nat.succ_pos n, h⟩
  · intro h
    exact h.2

/-- C19, as stated, fails: on the 30th frame `drawScene` awaits `update()`, so when the
refresh request never completes, the call of `requestAnimationFrame` is never reached
and no further frame is scheduled. -/
theorem refresh_blocks_next_frame :
    drawScene 29 false = (30, [.draw, .update]) ∧
      FrameEvent.requestAnimationFrame ∉ (drawScene 29 false).2 := by
  decide

/-- C19, amended: `drawScene` awaits the periodic refresh.  The next frame is scheduled
if and only if the frame is not a 30th frame or its refresh has settled; on a frame
that both refreshes and schedules the next frame, `update()` settles before
`requestAnimationFrame` is called; and a frame whose refresh does not settle ends after
the call of `update()`. -/
theorem refresh_is_awaited (frameCount : Nat) (updateSettles : Bool) :
    (FrameEvent.requestAnimationFrame ∈ (drawScene frameCount updateSettles).2 ↔
        ((frameCount + 1) % 30 ≠ 0 ∨ updateSettles = true)) ∧
      ((FrameEvent.update ∈ (drawScene frameCount updateSettles).2 ∧
          FrameEvent.requestAnimationFrame ∈ (drawScene frameCount updateSettles).2) ↔
        (drawScene frameCount updateSettles).2
          = [.draw, .update, .updateSettled, .requestAnimationFrame]) ∧
      ((FrameEvent.update ∈ (drawScene frameCount updateSettles).2 ∧ updateSettles = false) ↔
        (drawScene frameCount updateSettles).2 = [.draw, .update]) := by
  unfold drawScene
  by_cases h : (frameCount + 1) % 30 = 0
  · cases updateSettles <;> simp [h]
  · simp [h]

/-! ## `addAgent` -/

theorem tryCatch_runOn_of_ok (prog : Js Unit) (agents : List Object3D)
    (h : (prog.runOn agents).1 = Except.ok ()) :
    (tryCatch prog (fun _ => pure ()) : Js Unit).runOn agents = prog.runOn agents := by
  simp only [Js.runOn] at h ⊢
  simp only [tryCatch, tryCatchThe, MonadExceptOf.tryCatch, ExceptT.tryCatch, ExceptT.run,
    ExceptT.mk, StateT.run, bind, StateT.bind] at h ⊢
  rcases hrun : prog agents with ⟨r, s⟩
  rw [hrun] at h
  simp only at h
  subst h
  rfl

/-- C20, as stated, fails: when its request succeeds, `addAgent` itself calls
`getAgents`, which reconciles the registry: from the empty registry and a server that
then lists agent 1, `addAgent` leaves agent 1 in the local array. -/
theorem addAgent_changes_registry :
    (addAgent (.resolved ⟨true, .value⟩)
        (.resolved ⟨true, .value (.array [some ⟨1, 2, 0, 3⟩])⟩)).runOn []
      = (Except.ok (), [⟨1, [2, 0, 3], [0, 0, 0], [1, 1, 1], m4create⟩]) ∧
    ((addAgent (.resolved ⟨true, .value⟩)
        (.resolved ⟨true, .value (.array [some ⟨1, 2, 0, 3⟩])⟩)).runOn []).2 ≠ [] := by
  constructor
  · rfl
  · decide

/-- C20, amended: when the request of `addAgent` throws, returns a non-success status,
or returns a body that cannot be read, `addAgent` leaves the local `agents` array as it
was; when the request succeeds, `addAgent` calls `getAgents` itself and the array
afterwards is the one that call of `getAgents` leaves.  In no case does it raise. -/
theorem addAgent_effect (agents : List Object3D) (addFetched : AddFetchResult)
    (agentsFetched : FetchResult) :
    (addAgent addFetched agentsFetched).runOn agents
      = if addFetched.succeeded then (getAgents agentsFetched).runOn agents
        else (Except.ok (), agents) := by
  rcases addFetched with _ | ⟨ok, json⟩
  · rfl
  · cases ok with
    | false => cases json <;> rfl
    | true =>
      cases json with
      | rejected => rfl
      | null => rfl
      | value =>
        have h := tryCatch_runOn_of_ok (getAgents agentsFetched) agents
          (getAgents_runOn_ok agents agentsFetched)
        simp only [addAgent, pure_bind, if_true, AddFetchResult.succeeded]
        exact h

/-! ## Startup: posted dimensions -/

theorem main_of_ne_nil (c : Char) (rest : List Char) :
    main (c :: rest)
      = [ .createProgramInfo,
          .setDimensions ((getColumnCount (c :: rest) : Int) - 1) (getRowCount (c :: rest) : Int),
          .buildStaticGeometry (getSpecialPositions (c :: rest)) (getHashTag (c :: rest))
            (getZebraCrossingPositions (c :: rest)) (getRedXPositions (c :: rest)),
          .buildDynamicGeometry,
          .setupUI,
          .initAgentsModel ⟨1, (getColumnCount (c :: rest) : Int) - 1,
            (getRowCount (c :: rest) : Int), "2022_base.txt"⟩,
          .getAgents,
          .setInterval,
          .drawScene ] :=
  rfl

/-- C21 (off-by-one in `main`): for the map text `"##\n.D\n"` the grid has 2 columns and
2 rows, but `main` stores `getColumnCount(fileContent) - 1`, so the configuration it
keeps and posts with `init` has width 1 (and height 2). -/
theorem main_posts_width_minus_one :
    getColumnCount ['#', '#', '\n', '.', 'D', '\n'] = 2 ∧
      getRowCount ['#', '#', '\n', '.', 'D', '\n'] = 2 ∧
      MainStep.setDimensions 1 2 ∈ main ['#', '#', '\n', '.', 'D', '\n'] ∧
      MainStep.initAgentsModel ⟨1, 1, 2, "2022_base.txt"⟩
        ∈ main ['#', '#', '\n', '.', 'D', '\n'] := by
  decide

/-! ## The removal loop, in closed form -/

theorem spliceLoop_of_length_le (has : Nat → Bool) (remaining index : Nat)
    (agents : List Object3D) (h : agents.length ≤ index) :
    spliceLoop has remaining index agents = agents := by
  induction remaining generalizing index with
  | zero => rfl
  | succ n ih =>
    unfold spliceLoop
    rw [List.getElem?_eq_none h]
    exact ih (index + 1) (by omega)

theorem spliceLoop_eq_sweep (has : Nat → Bool) (remaining : Nat) (front back : List Object3D)
    (h : back.length ≤ remaining) :
    spliceLoop has remaining front.length (front ++ back) = front ++ sweep has back := by
  induction remaining generalizing front back with
  | zero =>
    have hnil : back = [] := List.length_eq_zero.mp (Nat.le_zero.mp h)
    subst hnil
    simp [spliceLoop, sweep]
  | succ n ih =>
    cases back with
    | nil =>
      rw [spliceLoop_of_length_le _ _ _ _ (by simp)]
      simp [sweep]
    | cons a rest =>
      unfold spliceLoop
      have hget : (front ++ a :: rest)[front.length]? = some a := by
        rw [List.getElem?_append_right (Nat.le_refl _), Nat.sub_self,
          List.getElem?_cons_zero]
      rw [hget]
      simp only
      have hlen : rest.length ≤ n := by simpa using h
      by_cases ha : has a.id = true
      · simp only [ha, Bool.not_true, Bool.false_eq_true, if_false]
        have hstep := ih (front ++ [a]) rest hlen
        simp only [List.length_append, List.length_singleton, List.append_assoc,
          List.singleton_append] at hstep
        rw [hstep]
        cases rest with
        | nil => simp [sweep, ha]
        | cons b rest2 => simp [sweep, ha]
      · simp only [ha, Bool.not_false, if_true]
        have herase : (front ++ a :: rest).eraseIdx front.length = front ++ rest := by
          rw [List.eraseIdx_append_of_length_le (Nat.le_refl _)]
          simp
        rw [herase]
        cases rest with
        | nil =>
          rw [spliceLoop_of_length_le _ _ _ _ (by simp)]
          simp [sweep, ha]
        | cons b rest2 =>
          have hstep := ih (front ++ [b]) rest2 (by simp at hlen; omega)
          simp only [List.length_append, List.length_singleton, List.append_assoc,
            List.singleton_append] at hstep
          rw [hstep]
          simp [sweep, ha]

theorem removeStale_eq_sweep (positions : List AgentSnapshot) (agents : List Object3D) :
    removeStale positions agents = sweep (serverAgentIdsHas positions) agents := by
  have h := spliceLoop_eq_sweep (serverAgentIdsHas positions) agents.length [] agents
    (Nat.le_refl _)
  simpa [removeStale] using h

theorem sweep_sublist (has : Nat → Bool) (agents : List Object3D) :
    (sweep has agents).Sublist agents := by
  have h := spliceLoop_sublist has agents.length 0 agents
  have h2 := spliceLoop_eq_sweep has agents.length [] agents (Nat.le_refl _)
  simp only [List.length_nil, List.nil_append] at h2
  rw [h2] at h
  exact h

theorem sweep_of_all (has : Nat → Bool) (agents : List Object3D)
    (h : ∀ a ∈ agents, has a.id = true) : sweep has agents = agents := by
  induction agents with
  | nil => rfl
  | cons a rest ih =>
    have ha : has a.id = true := h a (by simp)
    have hrest := ih (fun b hb => h b (List.mem_cons_of_mem _ hb))
    cases rest with
    | nil => simp [sweep, ha]
    | cons b rest2 => simp [sweep, ha, hrest]

theorem sweep_append_of_all (has : Nat → Bool) (pushed : List Object3D)
    (h : ∀ a ∈ pushed, has a.id = true) (bound : Nat) (old : List Object3D)
    (hlen : old.length ≤ bound) :
    sweep has (old ++ pushed) = sweep has old ++ pushed := by
  induction bound generalizing old with
  | zero =>
    have hnil : old = [] := List.length_eq_zero.mp (Nat.le_zero.mp hlen)
    subst hnil
    simpa [sweep] using sweep_of_all has pushed h
  | succ n ih =>
    match old, hlen with
    | [], _ => simpa [sweep] using sweep_of_all has pushed h
    | [a], _ =>
      cases pushed with
      | nil => simp
      | cons c more =>
        have hmore : sweep has more = more :=
          sweep_of_all has more (fun b hb => h b (List.mem_cons_of_mem _ hb))
        have hall : sweep has (c :: more) = c :: more := sweep_of_all has (c :: more) h
        by_cases ha : has a.id = true
        · simp [sweep, ha, hall]
        · simp [sweep, ha, hmore]
    | a :: b :: rest, hl =>
      have h1 := ih (b :: rest) (by simp at hl ⊢; omega)
      have h2 := ih rest (by simp at hl; omega)
      by_cases ha : has a.id = true
      · simp only [List.cons_append] at h1 ⊢
        simp [sweep, ha, h1]
      · simp only [List.cons_append]
        simp [sweep, ha, h2]

theorem sweep_eq_filter_of_chain (has : Nat → Bool) (bound : Nat) (agents : List Object3D)
    (hlen : agents.length ≤ bound)
    (hchain : List.Chain' (fun a b : Object3D => has a.id = true ∨ has b.id = true) agents) :
    sweep has agents = agents.filter (fun a => has a.id) := by
  induction bound generalizing agents with
  | zero =>
    have hnil : agents = [] := List.length_eq_zero.mp (Nat.le_zero.mp hlen)
    subst hnil
    rfl
  | succ n ih =>
    match agents, hlen, hchain with
    | [], _, _ => rfl
    | [a], _, _ => by_cases ha : has a.id = true <;> simp [sweep, ha]
    | a :: b :: rest, hl, hc =>
      obtain ⟨hab, hrest⟩ := List.chain'_cons.mp hc
      have h1 := ih (b :: rest) (by simp at hl ⊢; omega) hrest
      have h2 := ih rest (by simp at hl; omega) hrest.tail
      by_cases ha : has a.id = true
      · simp only [sweep, ha, if_true, h1]
        simp [List.filter_cons, ha]
      · have hb : has b.id = true := hab.resolve_left ha
        simp only [sweep, ha, Bool.false_eq_true, if_false, h2]
        simp [List.filter_cons, ha, hb]

/-- An agent with a stale id that the removal loop leaves stands right behind an agent
with a stale id that the loop removed. -/
theorem mem_sweep_stale (has : Nat → Bool) (bound : Nat) (agents : List Object3D)
    (hlen : agents.length ≤ bound) (hnd : agents.Nodup) (a : Object3D)
    (ha : a ∈ sweep has agents) (hstale : has a.id = false) :
    ∃ front b back, agents = front ++ b :: a :: back ∧ has b.id = false ∧
      b ∉ sweep has agents := by
  induction bound generalizing agents with
  | zero =>
    have hnil : agents = [] := List.length_eq_zero.mp (Nat.le_zero.mp hlen)
    subst hnil
    simp [sweep] at ha
  | succ n ih =>
    match agents, hlen, hnd, ha with
    | [], _, _, hmem => simp [sweep] at hmem
    | [x], _, _, hmem =>
      by_cases hx : has x.id = true
      · simp only [sweep, hx, if_true, List.mem_singleton] at hmem
        subst hmem
        rw [hx] at hstale
        cases hstale
      · simp [sweep, hx] at hmem
    | x :: y :: rest, hl, hn, hmem =>
      have hn1 : (y :: rest).Nodup := (List.nodup_cons.mp hn).2
      have hn2 : rest.Nodup := (List.nodup_cons.mp hn1).2
      have hx_notin : x ∉ y :: rest := (List.nodup_cons.mp hn).1
      have hy_notin : y ∉ rest := (List.nodup_cons.mp hn1).1
      by_cases hx : has x.id = true
      · simp only [sweep, hx, if_true, List.mem_cons] at hmem
        rcases hmem with rfl | hmem
        · rw [hx] at hstale
          cases hstale
        · obtain ⟨front, b, back, heq, hb, hbnot⟩ :=
            ih (y :: rest) (by simp at hl ⊢; omega) hn1 hmem
          refine ⟨x :: front, b, back, by rw [heq]; rfl, hb, ?_⟩
          simp only [sweep, hx, if_true, List.mem_cons, not_or]
          refine ⟨?_, hbnot⟩
          rintro rfl
          rw [hx] at hb
          cases hb
      · have hxf : has x.id = false := by simpa using hx
        simp only [sweep, hx, Bool.false_eq_true, if_false, List.mem_cons] at hmem
        rcases hmem with rfl | hmem
        · refine ⟨[], x, rest, rfl, hxf, ?_⟩
          simp only [sweep, hx, Bool.false_eq_true, if_false, List.mem_cons, not_or]
          refine ⟨fun hxa => hx_notin (by simp [hxa]), ?_⟩
          intro hin
          exact hx_notin (List.mem_cons_of_mem _ ((sweep_sublist has rest).subset hin))
        · obtain ⟨front, b, back, heq, hb, hbnot⟩ :=
            ih rest (by simp at hl; omega) hn2 hmem
          refine ⟨x :: y :: front, b, back, by rw [heq]; rfl, hb, ?_⟩
          simp only [sweep, hx, Bool.false_eq_true, if_false, List.mem_cons, not_or]
          refine ⟨?_, hbnot⟩
          rintro rfl
          apply hy_notin
          rw [heq]
          simp

/-! ## Reconciliation: which agents stay, and in which order -/

theorem lastEntryFor_eq_none {positions : List AgentSnapshot} {id : Nat}
    (h : id ∉ positions.map (fun agent => agent.id)) : lastEntryFor positions id = none := by
  unfold lastEntryFor
  have hnil : positions.filter (fun agent => agent.id = id) = [] := by
    rw [List.filter_eq_nil_iff]
    intro e he
    simp only [decide_eq_true_eq]
    intro heq
    exact h (List.mem_map.mpr ⟨e, he, heq⟩)
  rw [hnil]
  rfl

theorem updateOne_id (positions : List AgentSnapshot) (a : Object3D) :
    (updateOne positions a).id = a.id := by
  unfold updateOne
  cases lastEntryFor positions a.id <;> rfl

theorem updateOne_of_stale {positions : List AgentSnapshot} {a : Object3D}
    (h : a.id ∉ positions.map (fun agent => agent.id)) : updateOne positions a = a := by
  unfold updateOne
  rw [lastEntryFor_eq_none h]

theorem existingAgentsGet_of_nodup {agents : List Object3D} {j : Nat} {a : Object3D}
    (hnd : (agents.map (fun b => b.id)).Nodup) (hj : agents[j]? = some a) :
    existingAgentsGet a.id agents = some j := by
  cases hget : existingAgentsGet a.id agents with
  | none =>
    exact absurd (List.mem_map.mpr ⟨a, List.getElem?_mem hj, rfl⟩)
      (existingAgentsGet_eq_none.mp hget)
  | some k =>
    obtain ⟨b, hb, hbid⟩ := existingAgentsGet_some hget
    have hk : k < (agents.map (fun b => b.id)).length := by
      rw [List.length_map]
      exact (List.getElem?_eq_some.mp hb).1
    have heq : (agents.map (fun b => b.id))[k]? = (agents.map (fun b => b.id))[j]? := by
      rw [List.getElem?_map, List.getElem?_map, hb, hj]
      simp [hbid]
    rw [List.getElem?_inj hk hnd heq]

/-- With pairwise distinct ids in the registry, the update loop updates every agent by
the last snapshot entry with its id. -/
theorem foldl_updateStep_eq_map (agents : List Object3D) (positions : List AgentSnapshot)
    (hnd : (agents.map (fun b => b.id)).Nodup) :
    positions.foldl (updateStep agents) agents = agents.map (updateOne positions) := by
  apply List.ext_getElem?
  intro j
  rw [List.getElem?_map]
  cases hj : agents[j]? with
  | none =>
    have hlen : (positions.foldl (updateStep agents) agents).length ≤ j := by
      rw [length_foldl_updateStep]
      exact List.getElem?_eq_none_iff.mp hj
    rw [List.getElem?_eq_none hlen]
    rfl
  | some a =>
    rw [getElem?_foldl_updateStep agents (existingAgentsGet_of_nodup hnd hj) positions agents, hj]
    rfl

theorem map_withoutPosition_setPositionAt (agents : List Object3D) (j : Nat) (p : List Int) :
    (setPositionAt agents j p).map Object3D.withoutPosition
      = agents.map Object3D.withoutPosition := by
  induction agents generalizing j with
  | nil => rfl
  | cons a rest ih =>
    cases j with
    | zero => simp [setPositionAt, Object3D.withoutPosition]
    | succ k => simp [setPositionAt, ih]

theorem map_withoutPosition_foldl_updateStep (existing : List Object3D)
    (positions : List AgentSnapshot) (agents : List Object3D) :
    (positions.foldl (updateStep existing) agents).map Object3D.withoutPosition
      = agents.map Object3D.withoutPosition := by
  induction positions generalizing agents with
  | nil => rfl
  | cons e rest ih =>
    rw [List.foldl_cons, ih]
    unfold updateStep
    cases existingAgentsGet e.id existing with
    | none => rfl
    | some j => exact map_withoutPosition_setPositionAt agents j _

theorem has_of_mem_newAgents {existing : List Object3D} {positions : List AgentSnapshot}
    {a : Object3D} (h : a ∈ newAgents existing positions) :
    serverAgentIdsHas positions a.id = true := by
  obtain ⟨e, he, _, rfl⟩ := mem_newAgents.mp h
  exact (serverAgentIdsHas_iff positions _).mpr (List.mem_map.mpr ⟨e, he, rfl⟩)

theorem newAgents_eq_filter (existing : List Object3D) (positions : List AgentSnapshot) :
    newAgents existing positions
      = (positions.filter (fun e => !(existing.map (fun b => b.id)).contains e.id)).map
          (fun e => (⟨e.id, [e.x, e.y, e.z], [0, 0, 0], [1, 1, 1], m4create⟩ : Object3D)) := by
  unfold newAgents
  have hfilter : positions.filter (fun agent => (existingAgentsGet agent.id existing).isNone)
      = positions.filter (fun e => !(existing.map (fun b => b.id)).contains e.id) := by
    apply List.filter_congr
    intro e _
    rw [Bool.eq_iff_iff]
    simp only [Option.isNone_iff_eq_none, existingAgentsGet_eq_none, Bool.not_eq_true']
    simp
  rw [hfilter]
  rfl

/-- The registry after reconciliation: what the removal loop leaves of the updated old
agents, followed by all the agents the update loop pushed. -/
theorem reconcile_eq_sweep (agents : List Object3D) (positions : List AgentSnapshot) :
    reconcile agents positions
      = sweep (serverAgentIdsHas positions) (positions.foldl (updateStep agents) agents)
          ++ newAgents agents positions := by
  unfold reconcile
  rw [removeStale_eq_sweep, syncLoop_eq]
  exact sweep_append_of_all _ _ (fun a ha => has_of_mem_newAgents ha) _ _ (Nat.le_refl _)

theorem syncLoop_ids_nodup (agents : List Object3D) (positions : List AgentSnapshot)
    (hR : (agents.map (fun b => b.id)).Nodup)
    (hS : (positions.map (fun agent => agent.id)).Nodup) :
    ((syncLoop agents agents positions).map (fun b => b.id)).Nodup := by
  rw [syncLoop_eq, List.map_append, map_id_foldl_updateStep]
  have hpushed : (newAgents agents positions).map (fun b => b.id)
      = (positions.filter (fun agent => (existingAgentsGet agent.id agents).isNone)).map
          (fun agent => agent.id) := by
    unfold newAgents
    rw [List.map_map]
    rfl
  refine List.Nodup.append hR ?_ ?_
  · rw [hpushed]
    exact ((List.filter_sublist _).map _).nodup hS
  · intro id hold hnew
    obtain ⟨b, hb, rfl⟩ := List.mem_map.mp hnew
    obtain ⟨e, _, hnot, rfl⟩ := mem_newAgents.mp hb
    exact hnot hold

theorem eq_append_of_map_updateOne {positions : List AgentSnapshot}
    {agents front back : List Object3D} {a b : Object3D}
    (h : agents.map (updateOne positions) = front ++ b :: a :: back)
    (ha : a.id ∉ positions.map (fun agent => agent.id))
    (hb : b.id ∉ positions.map (fun agent => agent.id)) :
    ∃ front2 back2, agents = front2 ++ b :: a :: back2 := by
  obtain ⟨l1, l2, hsplit, _, h2⟩ := List.map_eq_append_iff.mp h
  obtain ⟨b0, l3, hl2, hb0, h3⟩ := List.map_eq_cons_iff.mp h2
  obtain ⟨a0, l4, hl3, ha0, _⟩ := List.map_eq_cons_iff.mp h3
  have hb0id : b0.id ∉ positions.map (fun agent => agent.id) := by
    rw [← updateOne_id positions b0, hb0]
    exact hb
  have ha0id : a0.id ∉ positions.map (fun agent => agent.id) := by
    rw [← updateOne_id positions a0, ha0]
    exact ha
  rw [updateOne_of_stale hb0id] at hb0
  rw [updateOne_of_stale ha0id] at ha0
  subst hb0 ha0
  exact ⟨l1, l4, by rw [hsplit, hl2, hl3]⟩

/-- C25: for a registry and a snapshot with pairwise distinct ids: when no two adjacent
agents of the registry both have ids absent from the snapshot, the ids of the registry
after reconciliation are exactly the ids of the snapshot; and in any case an agent with
a stale id that is still there after reconciliation stood, in the registry, right behind
an agent with a stale id that was removed. -/
theorem removal_skips_only_neighbour (agents : List Object3D) (positions : List AgentSnapshot)
    (hR : (agents.map (fun b => b.id)).Nodup)
    (hS : (positions.map (fun agent => agent.id)).Nodup) :
    (List.Chain' (fun a b : Object3D =>
          a.id ∈ positions.map (fun agent => agent.id) ∨
            b.id ∈ positions.map (fun agent => agent.id)) agents →
        ((reconcile agents positions).map (fun b => b.id)).Perm
          (positions.map (fun agent => agent.id))) ∧
      ∀ a ∈ reconcile agents positions, a.id ∉ positions.map (fun agent => agent.id) →
        ∃ front b back, agents = front ++ b :: a :: back ∧
          b.id ∉ positions.map (fun agent => agent.id) ∧ b ∉ reconcile agents positions := by
  have hidsU := map_id_foldl_updateStep agents positions agents
  have hndSync := syncLoop_ids_nodup agents positions hR hS
  constructor
  · intro hchain
    have hchainU : List.Chain' (fun a b : Object3D =>
        serverAgentIdsHas positions a.id = true ∨ serverAgentIdsHas positions b.id = true)
        (positions.foldl (updateStep agents) agents) := by
      have h1 : List.Chain' (fun i j : Nat =>
          serverAgentIdsHas positions i = true ∨ serverAgentIdsHas positions j = true)
          (agents.map (fun b => b.id)) := by
        rw [List.chain'_map]
        refine hchain.imp ?_
        intro a b hab
        simpa [serverAgentIdsHas_iff] using hab
      rw [← hidsU, List.chain'_map] at h1
      exact h1
    have hres : reconcile agents positions
        = (positions.foldl (updateStep agents) agents).filter
            (fun a => serverAgentIdsHas positions a.id) ++ newAgents agents positions := by
      rw [reconcile_eq_sweep, sweep_eq_filter_of_chain _ _ _ (Nat.le_refl _) hchainU]
    have hnd : ((reconcile agents positions).map (fun b => b.id)).Nodup :=
      ((spliceLoop_sublist _ _ _ _).map _).nodup hndSync
    rw [List.perm_ext_iff_of_nodup hnd hS]
    intro id
    constructor
    · intro hid
      obtain ⟨a, ha, rfl⟩ := List.mem_map.mp hid
      rw [hres] at ha
      rcases List.mem_append.mp ha with hold | hnew
      · exact (serverAgentIdsHas_iff positions a.id).mp (List.mem_filter.mp hold).2
      · exact (serverAgentIdsHas_iff positions a.id).mp (has_of_mem_newAgents hnew)
    · intro hid
      obtain ⟨e, he, rfl⟩ := List.mem_map.mp hid
      rw [hres, List.map_append, List.mem_append]
      by_cases hin : e.id ∈ agents.map (fun b => b.id)
      · left
        rw [← hidsU] at hin
        obtain ⟨a, ha, haid⟩ := List.mem_map.mp hin
        refine List.mem_map.mpr ⟨a, List.mem_filter.mpr ⟨ha, ?_⟩, haid⟩
        rw [serverAgentIdsHas_iff]
        have haid2 : a.id = e.id := haid
        rw [haid2]
        exact hid
      · right
        exact List.mem_map.mpr ⟨_, mem_newAgents.mpr ⟨e, he, hin, rfl⟩, rfl⟩
  · intro a ha hstale
    have hstaleB : serverAgentIdsHas positions a.id = false := by
      cases hh : serverAgentIdsHas positions a.id with
      | false => rfl
      | true => exact absurd ((serverAgentIdsHas_iff positions a.id).mp hh) hstale
    have hUnd : (positions.foldl (updateStep agents) agents).Nodup := by
      have : ((positions.foldl (updateStep agents) agents).map (fun b => b.id)).Nodup := by
        rw [hidsU]
        exact hR
      exact List.Nodup.of_map _ this
    rw [reconcile_eq_sweep] at ha ⊢
    have haU : a ∈ sweep (serverAgentIdsHas positions)
        (positions.foldl (updateStep agents) agents) := by
      rcases List.mem_append.mp ha with h | h
      · exact h
      · rw [has_of_mem_newAgents h] at hstaleB
        cases hstaleB
    obtain ⟨front, b, back, heq, hb, hbnot⟩ :=
      mem_sweep_stale _ _ _ (Nat.le_refl _) hUnd a haU hstaleB
    have hbstale : b.id ∉ positions.map (fun agent => agent.id) := by
      intro hin
      rw [(serverAgentIdsHas_iff positions b.id).mpr hin] at hb
      cases hb
    rw [foldl_updateStep_eq_map agents positions hR] at heq
    obtain ⟨front2, back2, hagents⟩ := eq_append_of_map_updateOne heq hstale hbstale
    refine ⟨front2, b, back2, hagents, hbstale, ?_⟩
    intro hmem
    rcases List.mem_append.mp hmem with h | h
    · exact hbnot h
    · rw [has_of_mem_newAgents h] at hb
      cases hb

theorem removal_skips_only_neighbour_witness :
    ((([⟨1, [0, 0, 0], [0, 0, 0], [1, 1, 1], m4create⟩,
        ⟨2, [1, 0, 0], [0, 0, 0], [1, 1, 1], m4create⟩,
        ⟨3, [2, 0, 0], [0, 0, 0], [1, 1, 1], m4create⟩] : List Object3D).map
          (fun b => b.id)).Nodup ∧
      (([⟨3, 4, 0, 4⟩] : List AgentSnapshot).map (fun agent => agent.id)).Nodup) ∧
    ((List.Chain' (fun a b : Object3D =>
          a.id ∈ ([⟨3, 4, 0, 4⟩] : List AgentSnapshot).map (fun agent => agent.id) ∨
            b.id ∈ ([⟨3, 4, 0, 4⟩] : List AgentSnapshot).map (fun agent => agent.id))
          [⟨1, [0, 0, 0], [0, 0, 0], [1, 1, 1], m4create⟩,
           ⟨2, [1, 0, 0], [0, 0, 0], [1, 1, 1], m4create⟩,
           ⟨3, [2, 0, 0], [0, 0, 0], [1, 1, 1], m4create⟩] →
        ((reconcile
            [⟨1, [0, 0, 0], [0, 0, 0], [1, 1, 1], m4create⟩,
             ⟨2, [1, 0, 0], [0, 0, 0], [1, 1, 1], m4create⟩,
             ⟨3, [2, 0, 0], [0, 0, 0], [1, 1, 1], m4create⟩]
            [⟨3, 4, 0, 4⟩]).map (fun b => b.id)).Perm
          (([⟨3, 4, 0, 4⟩] : List AgentSnapshot).map (fun agent => agent.id))) ∧
      ∀ a ∈ reconcile
            [⟨1, [0, 0, 0], [0, 0, 0], [1, 1, 1], m4create⟩,
             ⟨2, [1, 0, 0], [0, 0, 0], [1, 1, 1], m4create⟩,
             ⟨3, [2, 0, 0], [0, 0, 0], [1, 1, 1], m4create⟩]
            [⟨3, 4, 0, 4⟩],
        a.id ∉ ([⟨3, 4, 0, 4⟩] : List AgentSnapshot).map (fun agent => agent.id) →
        ∃ front b back,
          ([⟨1, [0, 0, 0], [0, 0, 0], [1, 1, 1], m4create⟩,
            ⟨2, [1, 0, 0], [0, 0, 0], [1, 1, 1], m4create⟩,
            ⟨3, [2, 0, 0], [0, 0, 0], [1, 1, 1], m4create⟩] : List Object3D)
            = front ++ b :: a :: back ∧
          b.id ∉ ([⟨3, 4, 0, 4⟩] : List AgentSnapshot).map (fun agent => agent.id) ∧
          b ∉ reconcile
            [⟨1, [0, 0, 0], [0, 0, 0], [1, 1, 1], m4create⟩,
             ⟨2, [1, 0, 0], [0, 0, 0], [1, 1, 1], m4create⟩,
             ⟨3, [2, 0, 0], [0, 0, 0], [1, 1, 1], m4create⟩]
            [⟨3, 4, 0, 4⟩]) :=
  ⟨⟨by decide, by decide⟩,
    removal_skips_only_neighbour
      [⟨1, [0, 0, 0], [0, 0, 0], [1, 1, 1], m4create⟩,
       ⟨2, [1, 0, 0], [0, 0, 0], [1, 1, 1], m4create⟩,
       ⟨3, [2, 0, 0], [0, 0, 0], [1, 1, 1], m4create⟩]
      [⟨3, 4, 0, 4⟩] (by decide) (by decide)⟩

/-- C26, as stated, fails for a snapshot that repeats a new id: from the empty registry
and the snapshot ids 7, 8, 7 the update loop pushes an agent for every entry, so an agent
with id 7 follows the agent with id 8 although id 7 first occurs before id 8: the new
agents are not in the order in which their ids first occur. -/
theorem new_agents_not_in_first_occurrence_order :
    (reconcile [] [⟨7, 0, 0, 0⟩, ⟨8, 1, 0, 1⟩, ⟨7, 2, 0, 2⟩]).map (fun b => b.id) = [7, 8, 7] ∧
      ¬ (reconcile [] [⟨7, 0, 0, 0⟩, ⟨8, 1, 0, 1⟩, ⟨7, 2, 0, 2⟩]).Pairwise
          (fun a b => ([7, 8, 7] : List Nat).indexOf a.id ≤ ([7, 8, 7] : List Nat).indexOf b.id) := by
  decide

/-- C26, amended: the registry after reconciliation consists of agents of the old
registry, in their order in the old registry and changed at most in their position,
followed by one new agent for each snapshot entry whose id is not in the old registry, in
the order of these entries in the snapshot. -/
theorem reconcile_order (agents : List Object3D) (positions : List AgentSnapshot) :
    ∃ updated kept : List Object3D,
      updated.map Object3D.withoutPosition = agents.map Object3D.withoutPosition ∧
        kept.Sublist updated ∧
        reconcile agents positions
          = kept ++
            (positions.filter (fun e => !(agents.map (fun b => b.id)).contains e.id)).map
              (fun e => (⟨e.id, [e.x, e.y, e.z], [0, 0, 0], [1, 1, 1], m4create⟩ : Object3D)) := by
  refine ⟨positions.foldl (updateStep agents) agents,
    sweep (serverAgentIdsHas positions) (positions.foldl (updateStep agents) agents),
    map_withoutPosition_foldl_updateStep agents positions agents, sweep_sublist _ _, ?_⟩
  rw [reconcile_eq_sweep, newAgents_eq_filter]

/-! ## Geometry: the vertex cursor -/

theorem Builder.blocks_empty (v m : Nat) : Builder.empty.Blocks v m 0 := by
  refine ⟨rfl, rfl, ?_⟩
  intro k j idx _ h
  simp [Builder.empty] at h

/-- Pushing one primitive of `v` vertices whose `m` indices lie in `[cursor, cursor + v - 1]`
and advancing the cursor by `v` keeps the block structure. -/
theorem Builder.Blocks.pushPrimitive {v m n : Nat} {b c : Builder} (h : b.Blocks v m n)
    (is : List Nat) (hi : c.indices = b.indices ++ is)
    (hv : c.vertexIndex = b.vertexIndex + v) (hlen : is.length = m)
    (hb : ∀ idx ∈ is, b.vertexIndex ≤ idx ∧ idx ≤ b.vertexIndex + (v - 1)) :
    c.Blocks v m (n + 1) := by
  obtain ⟨hcur, hcount, hown⟩ := h
  refine ⟨?_, ?_, ?_⟩
  · rw [hv, hcur, Nat.mul_succ]
  · rw [hi, List.length_append, hcount, hlen, Nat.mul_succ]
  · intro k j idx hj hget
    rw [hi] at hget
    by_cases hk : k < n
    · have hlt : m * k + j < b.indices.length := by
        rw [hcount]
        have h1 : m * (k + 1) ≤ m * n := Nat.mul_le_mul_left m hk
        rw [Nat.mul_succ] at h1
        omega
      rw [List.getElem?_append_left hlt] at hget
      exact hown k j idx hj hget
    · have hge : b.indices.length ≤ m * k + j := by
        rw [hcount]
        have h1 : m * n ≤ m * k := Nat.mul_le_mul_left m (Nat.le_of_not_lt hk)
        omega
      rw [List.getElem?_append_right hge] at hget
      have hmem : idx ∈ is := List.getElem?_mem hget
      have hkn : k = n := by
        by_contra hne
        have hlt : n + 1 ≤ k := by omega
        have h1 : m * (n + 1) ≤ m * k := Nat.mul_le_mul_left m hlt
        rw [Nat.mul_succ] at h1
        have hnone : is[m * k + j - b.indices.length]? = none := by
          apply List.getElem?_eq_none
          rw [hcount, hlen]
          omega
        rw [hnone] at hget
        cases hget
      subst hkn
      have := hb idx hmem
      rw [hcur] at this
      exact this

theorem Builder.blocks_foldl {α : Type} {v m : Nat} (f : Builder → α → Builder) (c : Nat)
    (hf : ∀ b a n, b.Blocks v m n → (f b a).Blocks v m (n + c)) (l : List α) (b : Builder)
    (n : Nat) (h : b.Blocks v m n) : (l.foldl f b).Blocks v m (n + c * l.length) := by
  induction l generalizing b n with
  | nil => simpa using h
  | cons a rest ih =>
    have := ih (f b a) (n + c) (hf b a n h)
    rw [List.length_cons, Nat.mul_succ]
    rw [List.foldl_cons]
    have heq : n + (c * rest.length + c) = n + c + c * rest.length := by omega
    rw [heq]
    exact this

theorem blocks_floorCell (size : ℚ) (b : Builder) (p : Coord) (n : Nat) (h : b.Blocks 4 6 n) :
    (floorCell size b p).Blocks 4 6 (n + 1) := by
  refine h.pushPrimitive _ rfl rfl rfl ?_
  intro idx hmem
  simp only [List.mem_cons, List.mem_singleton, List.not_mem_nil, or_false] at hmem
  omega

theorem blocks_zebraStripe (size : ℚ) (x z : Nat) (stripeWidth : ℚ) (b : Builder) (i n : Nat)
    (h : b.Blocks 4 6 n) : (zebraStripe size x z stripeWidth b i).Blocks 4 6 (n + 1) := by
  refine h.pushPrimitive _ rfl rfl rfl ?_
  intro idx hmem
  simp only [List.mem_cons, List.mem_singleton, List.not_mem_nil, or_false] at hmem
  omega

theorem blocks_zebraCell (size : ℚ) (b : Builder) (p : Coord) (n : Nat) (h : b.Blocks 4 6 n) :
    (zebraCell size b p).Blocks 4 6 (n + 6) := by
  have := Builder.blocks_foldl (zebraStripe size p.x p.z (fdiv size ((6 : Nat) : ℚ))) 1
    (fun b i n hb => blocks_zebraStripe size p.x p.z _ b i n hb) (List.range 6) b n h
  simpa [zebraCell] using this

theorem blocks_redXCell (size : ℚ) (b : Builder) (p : Coord) (n : Nat) (h : b.Blocks 8 12 n) :
    (redXCell size b p).Blocks 8 12 (n + 1) := by
  refine h.pushPrimitive
    [ b.vertexIndex, b.vertexIndex + 1, b.vertexIndex + 2,
      b.vertexIndex + 1, b.vertexIndex + 2, b.vertexIndex + 3,
      b.vertexIndex + 4, b.vertexIndex + 5, b.vertexIndex + 6,
      b.vertexIndex + 5, b.vertexIndex + 6, b.vertexIndex + 7 ] ?_ rfl rfl ?_
  · simp [redXCell]
  · intro idx hmem
    simp only [List.mem_cons, List.mem_singleton, List.not_mem_nil, or_false] at hmem
    omega

theorem blocks_blueCube (size random : ℚ) (b : Builder) (p : Coord) (n : Nat)
    (h : b.Blocks 8 36 n) : (blueCube size random b p).Blocks 8 36 (n + 1) := by
  refine h.pushPrimitive _ rfl rfl rfl ?_
  intro idx hmem
  simp only [List.mem_cons, List.mem_singleton, List.not_mem_nil, or_false] at hmem
  omega

theorem blocks_blueCubesLoop (size : ℚ) (random : Nat → ℚ) (positions : List Coord)
    (b : Builder) (n : Nat) (h : b.Blocks 8 36 n) :
    (blueCubesLoop size random positions b).Blocks 8 36 (n + positions.length) := by
  induction positions generalizing random b n with
  | nil => simpa [blueCubesLoop] using h
  | cons p rest ih =>
    have := ih (fun k => random (k + 1)) _ (n + 1) (blocks_blueCube size (random 0) b p n h)
    rw [List.length_cons]
    have heq : n + (rest.length + 1) = n + 1 + rest.length := by omega
    rw [heq]
    exact this

theorem blocks_floor (positions : List Coord) (size : ℚ) :
    (positions.foldl (floorCell size) Builder.empty).Blocks 4 6 positions.length := by
  have := Builder.blocks_foldl (floorCell size) 1 (blocks_floorCell size) positions _ 0
    (Builder.blocks_empty 4 6)
  simpa using this

theorem blocks_zebra (positions : List Coord) (size : ℚ) :
    (positions.foldl (zebraCell size) Builder.empty).Blocks 4 6 (6 * positions.length) := by
  have := Builder.blocks_foldl (zebraCell size) 6 (blocks_zebraCell size) positions _ 0
    (Builder.blocks_empty 4 6)
  simpa using this

theorem blocks_redX (positions : List Coord) (size : ℚ) :
    (positions.foldl (redXCell size) Builder.empty).Blocks 8 12 positions.length := by
  have := Builder.blocks_foldl (redXCell size) 1 (blocks_redXCell size) positions _ 0
    (Builder.blocks_empty 8 12)
  simpa using this

theorem blocks_blueCubes (positions : List Coord) (size : ℚ) (random : Nat → ℚ) :
    (blueCubesLoop size random positions Builder.empty).Blocks 8 36 positions.length := by
  have := blocks_blueCubesLoop size random positions _ 0 (Builder.blocks_empty 8 36)
  simpa using this

/-- C22: in every static builder the indices of the `k`-th primitive (in emission order)
lie in that primitive's own block of vertices `[v * k, v * k + v - 1]`, with `v = 4` for a
floor quad and a zebra stripe (6 indices each) and `v = 8` for a cuboid (36 indices) and a
red-X pair (12 indices); the cursor advances by `v` for each primitive, so that a batch of
`N` primitives has `v * N` vertices and the indices of `N` primitives. -/
theorem vertex_cursor (positions : List Coord) (size : ℚ) (random : Nat → ℚ) :
    (IndicesInOwnBlock 4 6 (generateFloorDataFromPositions positions size).indices ∧
        (generateFloorDataFromPositions positions size).a_position.length
          = 3 * (4 * positions.length) ∧
        (generateFloorDataFromPositions positions size).indices.length
          = 6 * positions.length) ∧
      (IndicesInOwnBlock 4 6 (generateZebraCrossings positions size).indices ∧
        (generateZebraCrossings positions size).a_position.length
          = 3 * (4 * (6 * positions.length)) ∧
        (generateZebraCrossings positions size).indices.length
          = 6 * (6 * positions.length)) ∧
      (IndicesInOwnBlock 8 36 (generateBlueCubesFromHashTags positions size random).indices ∧
        (generateBlueCubesFromHashTags positions size random).a_position.length
          = 3 * (8 * positions.length) ∧
        (generateBlueCubesFromHashTags positions size random).indices.length
          = 36 * positions.length) ∧
      (IndicesInOwnBlock 8 12 (generateRedX positions size).indices ∧
        (generateRedX positions size).a_position.length = 3 * (8 * positions.length) ∧
        (generateRedX positions size).indices.length = 12 * positions.length) := by
  have hfloorInv := Builder.inv_foldl _ (inv_floorCell size) positions _ Builder.inv_empty
  have hzebraInv := Builder.inv_foldl _ (inv_zebraCell size) positions _ Builder.inv_empty
  have hblueInv := inv_blueCubesLoop size random positions _ Builder.inv_empty
  have hredInv := Builder.inv_foldl _ (inv_redXCell size) positions _ Builder.inv_empty
  obtain ⟨hf1, hf2, hf3⟩ := blocks_floor positions size
  obtain ⟨hz1, hz2, hz3⟩ := blocks_zebra positions size
  obtain ⟨hb1, hb2, hb3⟩ := blocks_blueCubes positions size random
  obtain ⟨hr1, hr2, hr3⟩ := blocks_redX positions size
  refine ⟨⟨hf3, ?_, hf2⟩, ⟨hz3, ?_, hz2⟩, ⟨hb3, ?_, hb2⟩, ⟨hr3, ?_, hr2⟩⟩
  · show (positions.foldl (floorCell size) Builder.empty).vertices.length = _
    rw [hfloorInv.1, hf1]
  · show (positions.foldl (zebraCell size) Builder.empty).vertices.length = _
    rw [hzebraInv.1, hz1]
  · show (blueCubesLoop size random positions Builder.empty).vertices.length = _
    rw [hblueInv.1, hb1]
  · show (positions.foldl (redXCell size) Builder.empty).vertices.length = _
    rw [hredInv.1, hr1]

/-! ## Geometry: one primitive per coordinate, in input order -/

theorem vertices_foldl (f : Builder → Coord → Builder) (block : Coord → List ℚ)
    (hf : ∀ b p, (f b p).vertices = b.vertices ++ block p) (positions : List Coord)
    (b : Builder) :
    (positions.foldl f b).vertices = b.vertices ++ positions.flatMap block := by
  induction positions generalizing b with
  | nil => simp
  | cons p rest ih => rw [List.foldl_cons, ih, hf, List.flatMap_cons, List.append_assoc]

theorem colors_foldl (f : Builder → Coord → Builder) (block : Coord → List ℚ)
    (hf : ∀ b p, (f b p).colors = b.colors ++ block p) (positions : List Coord)
    (b : Builder) :
    (positions.foldl f b).colors = b.colors ++ positions.flatMap block := by
  induction positions generalizing b with
  | nil => simp
  | cons p rest ih => rw [List.foldl_cons, ih, hf, List.flatMap_cons, List.append_assoc]

theorem floor_a_position (positions : List Coord) (size : ℚ) :
    (generateFloorDataFromPositions positions size).a_position
      = positions.flatMap (fun p => (floorCell size Builder.empty p).vertices) := by
  have := vertices_foldl (floorCell size) (fun p => (floorCell size Builder.empty p).vertices)
    (fun b p => by simp [floorCell, Builder.empty]) positions Builder.empty
  simpa [generateFloorDataFromPositions, Builder.result, Builder.empty] using this

theorem floor_a_color (positions : List Coord) (size : ℚ) :
    (generateFloorDataFromPositions positions size).a_color
      = positions.flatMap (fun p => (floorCell size Builder.empty p).colors) := by
  have := colors_foldl (floorCell size) (fun p => (floorCell size Builder.empty p).colors)
    (fun b p => by simp [floorCell, Builder.empty]) positions Builder.empty
  simpa [generateFloorDataFromPositions, Builder.result, Builder.empty] using this

theorem blueCubes_a_position (positions : List Coord) (size : ℚ) (random : Nat → ℚ) :
    (generateBlueCubesFromHashTags positions size random).a_position
      = blueCubeBlocks size random positions := by
  unfold generateBlueCubesFromHashTags Builder.result
  simp only [vertices_blueCubesLoop]
  rfl

/-- C23: for a coordinate list of length `n`, `generateFloorDataFromPositions` emits
`4 n` vertices and `2 n` triangles, its positions and colours being those of the
single-coordinate batches in input order; `generateBlueCubesFromHashTags` emits `8 n`
vertices and `12 n` triangles, the `k`-th block of 8 vertices being the cuboid of the
`k`-th coordinate with the `k`-th random draw; and the empty list gives empty batches. -/
theorem primitive_counts (positions : List Coord) (size : ℚ) (random : Nat → ℚ) :
    ((generateFloorDataFromPositions positions size).a_position.length
          = 3 * (4 * positions.length) ∧
        (generateFloorDataFromPositions positions size).a_color.length
          = 4 * (4 * positions.length) ∧
        (generateFloorDataFromPositions positions size).indices.length
          = 3 * (2 * positions.length) ∧
        (generateFloorDataFromPositions positions size).a_position
          = positions.flatMap
              (fun p => (generateFloorDataFromPositions [p] size).a_position) ∧
        (generateFloorDataFromPositions positions size).a_color
          = positions.flatMap
              (fun p => (generateFloorDataFromPositions [p] size).a_color)) ∧
      ((generateBlueCubesFromHashTags positions size random).a_position.length
          = 3 * (8 * positions.length) ∧
        (generateBlueCubesFromHashTags positions size random).a_color.length
          = 4 * (8 * positions.length) ∧
        (generateBlueCubesFromHashTags positions size random).indices.length
          = 3 * (12 * positions.length) ∧
        ∀ k i, i < 24 →
          (generateBlueCubesFromHashTags positions size random).a_position[24 * k + i]?
            = positions[k]?.bind (fun p =>
                (generateBlueCubesFromHashTags [p] size (fun _ => random k)).a_position[i]?)) ∧
      ((generateFloorDataFromPositions [] size).a_position = [] ∧
        (generateFloorDataFromPositions [] size).a_color = [] ∧
        (generateFloorDataFromPositions [] size).indices = [] ∧
        (generateBlueCubesFromHashTags [] size random).a_position = [] ∧
        (generateBlueCubesFromHashTags [] size random).a_color = [] ∧
        (generateBlueCubesFromHashTags [] size random).indices = []) := by
  have hfloorInv := Builder.inv_foldl _ (inv_floorCell size) positions _ Builder.inv_empty
  have hblueInv := inv_blueCubesLoop size random positions _ Builder.inv_empty
  obtain ⟨hf1, hf2, _⟩ := blocks_floor positions size
  obtain ⟨hb1, hb2, _⟩ := blocks_blueCubes positions size random
  refine ⟨⟨?_, ?_, ?_, floor_a_position positions size, floor_a_color positions size⟩,
    ⟨?_, ?_, ?_, ?_⟩, ⟨rfl, rfl, rfl, rfl, rfl, rfl⟩⟩
  · show (positions.foldl (floorCell size) Builder.empty).vertices.length = _
    rw [hfloorInv.1, hf1]
  · show (positions.foldl (floorCell size) Builder.empty).colors.length = _
    rw [hfloorInv.2.1, hf1]
  · show (positions.foldl (floorCell size) Builder.empty).indices.length = _
    rw [hf2]
    omega
  · show (blueCubesLoop size random positions Builder.empty).vertices.length = _
    rw [hblueInv.1, hb1]
  · show (blueCubesLoop size random positions Builder.empty).colors.length = _
    rw [hblueInv.2.1, hb1]
  · show (blueCubesLoop size random positions Builder.empty).indices.length = _
    rw [hb2]
    omega
  · intro k i hi
    rw [blueCubes_a_position, getElem?_blueCubeBlocks size random positions k i hi]
    rfl

/-! ## Geometry: floor quads and crossing stripes -/

theorem range_six : List.range 6 = [0, 1, 2, 3, 4, 5] := by
  decide

theorem floorCell_vertices (size : ℚ) (p : Coord) :
    (floorCell size Builder.empty p).vertices
      = [ (p.x : ℚ) * size - 1 / 2, 0, (p.z : ℚ) * size - 1 / 2,
          (p.x : ℚ) * size - 1 / 2 + size, 0, (p.z : ℚ) * size - 1 / 2,
          (p.x : ℚ) * size - 1 / 2 + size, 0, (p.z : ℚ) * size - 1 / 2 + size,
          (p.x : ℚ) * size - 1 / 2, 0, (p.z : ℚ) * size - 1 / 2 + size ] := by
  simp only [floorCell, Builder.empty, List.nil_append, List.cons.injEq, and_true]
  repeat' apply And.intro
  all_goals norm_num
  all_goals ring_nf

/-- C24, as stated, fails for a cell size other than 1: with size 2 the quad of the
coordinate `(0, 0)` spans `[-1/2, 3/2]` in X and in Z, not `[-1, 1]`, because the offset
is the constant `-0.5` and not half the cell size. -/
theorem floor_quad_not_centered :
    (generateFloorDataFromPositions [⟨0, 0⟩] 2).a_position
        = [-1 / 2, 0, -1 / 2, 3 / 2, 0, -1 / 2, 3 / 2, 0, 3 / 2, -1 / 2, 0, 3 / 2] ∧
      (generateFloorDataFromPositions [⟨0, 0⟩] 2).a_position
        ≠ [-1, 0, -1, 1, 0, -1, 1, 0, 1, -1, 0, 1] := by
  have h : (generateFloorDataFromPositions [⟨0, 0⟩] 2).a_position
      = [-1 / 2, 0, -1 / 2, 3 / 2, 0, -1 / 2, 3 / 2, 0, 3 / 2, -1 / 2, 0, 3 / 2] := by
    rw [floor_a_position]
    simp only [List.flatMap_cons, List.flatMap_nil, List.append_nil, floorCell_vertices]
    norm_num
  refine ⟨h, ?_⟩
  rw [h]
  norm_num

/-- C24, amended: for every cell size `s` the quad of the coordinate `(x, z)` is the
`s × s` square at `y = 0` that spans `[x s - 1/2, x s - 1/2 + s]` in X and
`[z s - 1/2, z s - 1/2 + s]` in Z; for `s = 1` this is the square
`[x - 1/2, x + 1/2] × [z - 1/2, z + 1/2]` centred on the cell's world position. -/
theorem floor_quad_span (positions : List Coord) (size : ℚ) :
    (generateFloorDataFromPositions positions size).a_position
        = positions.flatMap (fun p =>
            [ (p.x : ℚ) * size - 1 / 2, 0, (p.z : ℚ) * size - 1 / 2,
              (p.x : ℚ) * size - 1 / 2 + size, 0, (p.z : ℚ) * size - 1 / 2,
              (p.x : ℚ) * size - 1 / 2 + size, 0, (p.z : ℚ) * size - 1 / 2 + size,
              (p.x : ℚ) * size - 1 / 2, 0, (p.z : ℚ) * size - 1 / 2 + size ]) ∧
      (generateFloorDataFromPositions positions 1).a_position
        = positions.flatMap (fun p =>
            [ (p.x : ℚ) * 1 - 1 / 2, 0, (p.z : ℚ) * 1 - 1 / 2,
              (p.x : ℚ) * 1 + 1 / 2, 0, (p.z : ℚ) * 1 - 1 / 2,
              (p.x : ℚ) * 1 + 1 / 2, 0, (p.z : ℚ) * 1 + 1 / 2,
              (p.x : ℚ) * 1 - 1 / 2, 0, (p.z : ℚ) * 1 + 1 / 2 ]) := by
  constructor
  · rw [floor_a_position]
    simp only [floorCell_vertices]
  · rw [floor_a_position]
    simp only [floorCell_vertices]
    congr 1
    funext p
    simp only [List.cons.injEq, and_true]
    repeat' apply And.intro
    all_goals ring_nf

theorem zebraCell_vertices_append (size : ℚ) (b : Builder) (p : Coord) :
    (zebraCell size b p).vertices = b.vertices ++ (zebraCell size Builder.empty p).vertices := by
  simp [zebraCell, range_six, zebraStripe, Builder.empty]

theorem zebraCell_colors_append (size : ℚ) (b : Builder) (p : Coord) :
    (zebraCell size b p).colors = b.colors ++ (zebraCell size Builder.empty p).colors := by
  simp [zebraCell, range_six, zebraStripe, Builder.empty]

theorem zebraCell_vertices (size : ℚ) (p : Coord) :
    (zebraCell size Builder.empty p).vertices
      = (List.range 6).flatMap (fun i =>
          [ crossingLeft size p.x, 0, stripeStart size p.z i,
            crossingRight size p.x, 0, stripeStart size p.z i,
            crossingRight size p.x, 0, stripeEnd size p.z i,
            crossingLeft size p.x, 0, stripeEnd size p.z i ]) := by
  simp only [zebraCell, range_six, zebraStripe, Builder.empty, List.foldl, List.nil_append,
    List.cons_append, List.flatMap_cons, List.flatMap_nil, List.append_nil, stripeStart,
    stripeEnd, crossingLeft, crossingRight, Nat.cast_ofNat]

theorem zebraCell_colors (size : ℚ) (p : Coord) :
    (zebraCell size Builder.empty p).colors
      = ([[1, 1, 1, 1], [0, 0, 0, 1], [1, 1, 1, 1], [0, 0, 0, 1], [1, 1, 1, 1],
          [0, 0, 0, 1]] : List (List ℚ)).flatMap (fun c => c ++ c ++ c ++ c) := by
  simp [zebraCell, range_six, zebraStripe, Builder.empty]

theorem zebra_a_position (positions : List Coord) (size : ℚ) :
    (generateZebraCrossings positions size).a_position
      = positions.flatMap (fun p => (List.range 6).flatMap (fun i =>
          [ crossingLeft size p.x, 0, stripeStart size p.z i,
            crossingRight size p.x, 0, stripeStart size p.z i,
            crossingRight size p.x, 0, stripeEnd size p.z i,
            crossingLeft size p.x, 0, stripeEnd size p.z i ])) := by
  have := vertices_foldl (zebraCell size)
    (fun p => (zebraCell size Builder.empty p).vertices)
    (fun b p => zebraCell_vertices_append size b p) positions Builder.empty
  simp only [zebraCell_vertices] at this
  simpa [generateZebraCrossings, Builder.result, Builder.empty] using this

theorem zebra_a_color (positions : List Coord) (size : ℚ) :
    (generateZebraCrossings positions size).a_color
      = positions.flatMap (fun _ =>
          ([[1, 1, 1, 1], [0, 0, 0, 1], [1, 1, 1, 1], [0, 0, 0, 1], [1, 1, 1, 1],
            [0, 0, 0, 1]] : List (List ℚ)).flatMap (fun c => c ++ c ++ c ++ c)) := by
  have := colors_foldl (zebraCell size)
    (fun p => (zebraCell size Builder.empty p).colors)
    (fun b p => zebraCell_colors_append size b p) positions Builder.empty
  simp only [zebraCell_colors] at this
  simpa [generateZebraCrossings, Builder.result, Builder.empty] using this

theorem roundToDouble_0_35 : roundToDouble 0.35 = 3152519739159347 / 9007199254740992 := by
  norm_num [roundToDouble, roundPos, roundHalfEven, Nat.log2]

theorem roundToDouble_0_05 : roundToDouble 0.05 = 3602879701896397 / 72057594037927936 := by
  norm_num [roundToDouble, roundPos, roundHalfEven, Nat.log2]

theorem crossing_constants :
    |-roundToDouble 0.35 - (-(7 / 20) : ℚ)| ≤ 1 / 2 ^ 55 ∧
      |roundToDouble 0.05 - (1 / 20 : ℚ)| ≤ 1 / 2 ^ 55 := by
  rw [roundToDouble_0_35, roundToDouble_0_05]
  norm_num [abs_le]

theorem stripeWidth_close (size : ℚ) :
    |fdiv size 6 - size / 6| ≤ |size| / 6 / 2 ^ 53 + 1 / 2 ^ 1075 :=
  fdiv_close size 6 (|size| / 6) (by rw [abs_div]; norm_num)

theorem halfWidth_close (size : ℚ) :
    |fdiv size 2 - size / 2| ≤ |size| / 2 / 2 ^ 53 + 1 / 2 ^ 1075 :=
  fdiv_close size 2 (|size| / 2) (by rw [abs_div]; norm_num)

theorem cell_origin_close (size : ℚ) (z : Nat) :
    |fmul (z : ℚ) size - (z : ℚ) * size|
      ≤ (z : ℚ) * 0 + ((z : ℚ) * |size| + (z : ℚ) * 0) / 2 ^ 53 + 1 / 2 ^ 1075 :=
  fmul_close (Nat.cast_nonneg z) (by simp)
    (by rw [abs_mul, abs_of_nonneg (Nat.cast_nonneg z)])

theorem stripeStart_close (size : ℚ) (z j : Nat) (hj : j ≤ 6) :
    |stripeStart size z j - ((z : ℚ) * size - 7 / 20 + (j : ℚ) * (size / 6))|
      ≤ 13 / 2 ^ 55 * ((z : ℚ) * |size| + |size| + 1) := by
  have hz0 : (0 : ℚ) ≤ z := Nat.cast_nonneg z
  have hj0 : (0 : ℚ) ≤ j := Nat.cast_nonneg j
  have hj6 : (j : ℚ) ≤ 6 := by exact_mod_cast hj
  have hS0 : 0 ≤ |size| := abs_nonneg size
  have hZ0 : 0 ≤ (z : ℚ) * |size| := mul_nonneg hz0 hS0
  have hzs : |(z : ℚ) * size| = (z : ℚ) * |size| := by rw [abs_mul, abs_of_nonneg hz0]
  have hjs : |(j : ℚ) * (size / 6)| ≤ |size| := by
    rw [abs_mul, abs_of_nonneg hj0, abs_div]
    have h6 : |(6 : ℚ)| = 6 := by norm_num
    rw [h6]
    have : (j : ℚ) * (|size| / 6) ≤ 6 * (|size| / 6) := by gcongr
    linarith
  have hb := fadd_close (T := (z : ℚ) * |size| + 7 / 20) (cell_origin_close size z)
    crossing_constants.1
    (by
      refine (abs_add _ _).trans ?_
      rw [hzs, abs_neg]
      norm_num [abs_of_pos])
  have hm := fmul_close (T := |size|) hj0 (stripeWidth_close size) hjs
  have hst := fadd_close (T := (z : ℚ) * |size| + 7 / 20 + |size|) hb hm
    (by
      refine (abs_add _ _).trans (add_le_add ?_ hjs)
      refine (abs_add _ _).trans ?_
      rw [hzs, abs_neg]
      norm_num [abs_of_pos])
  have hjw : (j : ℚ) * (|size| / 6 / 2 ^ 53 + 1 / 2 ^ 1075)
      ≤ 6 * (|size| / 6 / 2 ^ 53 + 1 / 2 ^ 1075) := by gcongr
  have e : (z : ℚ) * size - 7 / 20 + (j : ℚ) * (size / 6)
      = (z : ℚ) * size + -(7 / 20) + (j : ℚ) * (size / 6) := by ring
  rw [e]
  unfold stripeStart
  refine hst.trans ?_
  linarith

theorem stripeEnd_close (size : ℚ) (z j : Nat) (hj : j ≤ 5) :
    |stripeEnd size z j - ((z : ℚ) * size - 7 / 20 + ((j : ℚ) + 1) * (size / 6))|
      ≤ 9 / 2 ^ 54 * ((z : ℚ) * |size| + |size| + 1) := by
  have hz0 : (0 : ℚ) ≤ z := Nat.cast_nonneg z
  have hj0 : (0 : ℚ) ≤ j := Nat.cast_nonneg j
  have hj5 : (j : ℚ) ≤ 5 := by exact_mod_cast hj
  have hS0 : 0 ≤ |size| := abs_nonneg size
  have hZ0 : 0 ≤ (z : ℚ) * |size| := mul_nonneg hz0 hS0
  have hzs : |(z : ℚ) * size| = (z : ℚ) * |size| := by rw [abs_mul, abs_of_nonneg hz0]
  have hst := stripeStart_close size z j (by omega)
  have hT : |(z : ℚ) * size - 7 / 20 + (j : ℚ) * (size / 6) + size / 6|
      ≤ (z : ℚ) * |size| + 7 / 20 + |size| := by
    have e : (z : ℚ) * size - 7 / 20 + (j : ℚ) * (size / 6) + size / 6
        = (z : ℚ) * size + -(7 / 20) + ((j : ℚ) + 1) * (size / 6) := by ring
    rw [e]
    refine (abs_add _ _).trans (add_le_add ?_ ?_)
    · refine (abs_add _ _).trans ?_
      rw [hzs, abs_neg]
      norm_num [abs_of_pos]
    · rw [abs_mul, abs_of_nonneg (by linarith), abs_div]
      have h6 : |(6 : ℚ)| = 6 := by norm_num
      rw [h6]
      have : ((j : ℚ) + 1) * (|size| / 6) ≤ 6 * (|size| / 6) := by gcongr; linarith
      linarith
  have hend := fadd_close hst (stripeWidth_close size) hT
  have e : (z : ℚ) * size - 7 / 20 + ((j : ℚ) + 1) * (size / 6)
      = (z : ℚ) * size - 7 / 20 + (j : ℚ) * (size / 6) + size / 6 := by ring
  rw [e]
  unfold stripeEnd
  refine hend.trans ?_
  linarith

theorem crossingBase_close (size : ℚ) (x : Nat) :
    |fadd (fmul (x : ℚ) size) (roundToDouble 0.05) - ((x : ℚ) * size + 1 / 20)|
      ≤ 5 / 2 ^ 54 * ((x : ℚ) * |size| + |size| + 1) := by
  have hx0 : (0 : ℚ) ≤ x := Nat.cast_nonneg x
  have hS0 : 0 ≤ |size| := abs_nonneg size
  have hX0 : 0 ≤ (x : ℚ) * |size| := mul_nonneg hx0 hS0
  have hxs : |(x : ℚ) * size| = (x : ℚ) * |size| := by rw [abs_mul, abs_of_nonneg hx0]
  have hb := fadd_close (T := (x : ℚ) * |size| + 1 / 20) (cell_origin_close size x)
    crossing_constants.2
    (by
      refine (abs_add _ _).trans ?_
      rw [hxs]
      norm_num [abs_of_pos])
  refine hb.trans ?_
  linarith

theorem crossingLeft_close (size : ℚ) (x : Nat) :
    |crossingLeft size x - ((x : ℚ) * size + 1 / 20 - size / 2)|
      ≤ 8 / 2 ^ 54 * ((x : ℚ) * |size| + |size| + 1) := by
  have hx0 : (0 : ℚ) ≤ x := Nat.cast_nonneg x
  have hS0 : 0 ≤ |size| := abs_nonneg size
  have hX0 : 0 ≤ (x : ℚ) * |size| := mul_nonneg hx0 hS0
  have hxs : |(x : ℚ) * size| = (x : ℚ) * |size| := by rw [abs_mul, abs_of_nonneg hx0]
  have hT : |(x : ℚ) * size + 1 / 20 - size / 2| ≤ (x : ℚ) * |size| + 1 / 20 + |size| / 2 := by
    refine (abs_sub _ _).trans (add_le_add ?_ ?_)
    · refine (abs_add _ _).trans ?_
      rw [hxs]
      norm_num [abs_of_pos]
    · rw [abs_div]
      norm_num
  have h := fsub_close (crossingBase_close size x) (halfWidth_close size) hT
  unfold crossingLeft
  refine h.trans ?_
  linarith

theorem crossingRight_close (size : ℚ) (x : Nat) :
    |crossingRight size x - ((x : ℚ) * size + 1 / 20 + size / 2)|
      ≤ 8 / 2 ^ 54 * ((x : ℚ) * |size| + |size| + 1) := by
  have hx0 : (0 : ℚ) ≤ x := Nat.cast_nonneg x
  have hS0 : 0 ≤ |size| := abs_nonneg size
  have hX0 : 0 ≤ (x : ℚ) * |size| := mul_nonneg hx0 hS0
  have hxs : |(x : ℚ) * size| = (x : ℚ) * |size| := by rw [abs_mul, abs_of_nonneg hx0]
  have hT : |(x : ℚ) * size + 1 / 20 + size / 2| ≤ (x : ℚ) * |size| + 1 / 20 + |size| / 2 := by
    refine (abs_add _ _).trans (add_le_add ?_ ?_)
    · refine (abs_add _ _).trans ?_
      rw [hxs]
      norm_num [abs_of_pos]
    · rw [abs_div]
      norm_num
  have h := fadd_close (crossingBase_close size x) (halfWidth_close size) hT
  unfold crossingRight
  refine h.trans ?_
  linarith

theorem abs_sub_le_of_close {a b ta tb εa εb : ℚ} (ha : |a - ta| ≤ εa) (hb : |b - tb| ≤ εb) :
    |a - b - (ta - tb)| ≤ εa + εb := by
  have e : a - b - (ta - tb) = (a - ta) + -(b - tb) := by ring
  rw [e]
  refine (abs_add _ _).trans (add_le_add ha ?_)
  rw [abs_neg]
  exact hb

theorem crossing_rounding (size : ℚ) (x z i : Nat) (hi : i < 6) :
    |crossingRight size x - crossingLeft size x - size|
        ≤ ((x : ℚ) * |size| + |size| + 1) / 2 ^ 50 ∧
      |stripeEnd size z i - stripeStart size z i - size / 6|
        ≤ ((z : ℚ) * |size| + |size| + 1) / 2 ^ 50 ∧
      |stripeStart size z (i + 1) - stripeEnd size z i|
        ≤ ((z : ℚ) * |size| + |size| + 1) / 2 ^ 50 ∧
      |stripeStart size z 0 - ((z : ℚ) * size - 7 / 20)|
        ≤ ((z : ℚ) * |size| + |size| + 1) / 2 ^ 50 ∧
      |stripeEnd size z 5 - ((z : ℚ) * size - 7 / 20 + size)|
        ≤ ((z : ℚ) * |size| + |size| + 1) / 2 ^ 50 := by
  have hS0 : 0 ≤ |size| := abs_nonneg size
  have hZ0 : 0 ≤ (z : ℚ) * |size| := mul_nonneg (Nat.cast_nonneg z) hS0
  have hX0 : 0 ≤ (x : ℚ) * |size| := mul_nonneg (Nat.cast_nonneg x) hS0
  refine ⟨?_, ?_, ?_, ?_, ?_⟩
  · have h := abs_sub_le_of_close (crossingRight_close size x) (crossingLeft_close size x)
    have e : (x : ℚ) * size + 1 / 20 + size / 2 - ((x : ℚ) * size + 1 / 20 - size / 2)
        = size := by ring
    rw [e] at h
    refine h.trans ?_
    linarith
  · have h := abs_sub_le_of_close (stripeEnd_close size z i (by omega))
      (stripeStart_close size z i (by omega))
    have e : (z : ℚ) * size - 7 / 20 + ((i : ℚ) + 1) * (size / 6)
        - ((z : ℚ) * size - 7 / 20 + (i : ℚ) * (size / 6)) = size / 6 := by ring
    rw [e] at h
    refine h.trans ?_
    linarith
  · have h := abs_sub_le_of_close (stripeStart_close size z (i + 1) (by omega))
      (stripeEnd_close size z i (by omega))
    have e : (z : ℚ) * size - 7 / 20 + (((i + 1 : Nat) : ℚ)) * (size / 6)
        - ((z : ℚ) * size - 7 / 20 + ((i : ℚ) + 1) * (size / 6)) = 0 := by
      push_cast
      ring
    rw [e, sub_zero] at h
    refine h.trans ?_
    linarith
  · have h := stripeStart_close size z 0 (by omega)
    have e : (z : ℚ) * size - 7 / 20 + ((0 : Nat) : ℚ) * (size / 6)
        = (z : ℚ) * size - 7 / 20 := by
      push_cast
      ring
    rw [e] at h
    refine h.trans ?_
    linarith
  · have h := stripeEnd_close size z 5 (by omega)
    have e : (z : ℚ) * size - 7 / 20 + (((5 : Nat) : ℚ) + 1) * (size / 6)
        = (z : ℚ) * size - 7 / 20 + size := by
      push_cast
      ring
    rw [e] at h
    refine h.trans ?_
    linarith

set_option maxRecDepth 8000 in
theorem stripe_values :
    fmul 0 1 = 0 ∧
      fadd 0 (-(3152519739159347 / 9007199254740992)) = -(3152519739159347 / 9007199254740992) ∧
      fdiv 1 6 = 6004799503160661 / 36028797018963968 ∧
      fmul 0 (6004799503160661 / 36028797018963968) = 0 ∧
      fadd (-(3152519739159347 / 9007199254740992)) 0
        = -(3152519739159347 / 9007199254740992) ∧
      fmul 2 (6004799503160661 / 36028797018963968) = 6004799503160661 / 18014398509481984 ∧
      fadd (-(3152519739159347 / 9007199254740992)) (6004799503160661 / 18014398509481984)
        = -(300239975158033 / 18014398509481984) ∧
      fadd (-(300239975158033 / 18014398509481984)) (6004799503160661 / 36028797018963968)
        = 5404319552844595 / 36028797018963968 ∧
      fmul 3 (6004799503160661 / 36028797018963968) = 1 / 2 ∧
      fadd (-(3152519739159347 / 9007199254740992)) (1 / 2)
        = 1351079888211149 / 9007199254740992 ∧
      fmul 5 (6004799503160661 / 36028797018963968) = 3752999689475413 / 4503599627370496 ∧
      fadd (-(3152519739159347 / 9007199254740992)) (3752999689475413 / 4503599627370496)
        = 4353479639791479 / 9007199254740992 ∧
      fadd (4353479639791479 / 9007199254740992) (6004799503160661 / 36028797018963968)
        = 1463669878895411 / 2251799813685248 := by
  refine ⟨?_, ?_, ?_, ?_, ?_, ?_, ?_, ?_, ?_, ?_, ?_, ?_, ?_⟩ <;>
    norm_num [fadd, fmul, fdiv, roundToDouble, roundPos, roundHalfEven, Nat.log2]

theorem stripeStart_unit_zero :
    stripeStart 1 0 0 = -(3152519739159347 / 9007199254740992) := by
  obtain ⟨h1, h2, h3, h4, h5, _⟩ := stripe_values
  simp only [stripeStart, Nat.cast_zero, roundToDouble_0_35, h1, h2, h3, h4, h5]

theorem stripeEnd_unit_two :
    stripeEnd 1 0 2 = 5404319552844595 / 36028797018963968 := by
  obtain ⟨h1, h2, h3, _, _, h6, h7, h8, _⟩ := stripe_values
  simp only [stripeEnd, stripeStart, Nat.cast_zero, Nat.cast_ofNat, roundToDouble_0_35, h1, h2,
    h3, h6, h7, h8]

theorem stripeStart_unit_three :
    stripeStart 1 0 3 = 1351079888211149 / 9007199254740992 := by
  obtain ⟨h1, h2, h3, _, _, _, _, _, h9, h10, _⟩ := stripe_values
  simp only [stripeStart, Nat.cast_zero, Nat.cast_ofNat, roundToDouble_0_35, h1, h2, h3, h9,
    h10]

set_option maxRecDepth 8000 in
theorem stripeEnd_unit_three :
    stripeEnd 1 0 3 = 1426139882000657 / 4503599627370496 := by
  have h : fadd (1351079888211149 / 9007199254740992) (6004799503160661 / 36028797018963968)
      = 1426139882000657 / 4503599627370496 := by
    norm_num [fadd, fsub, fmul, fdiv, roundToDouble, roundPos, roundHalfEven, Nat.log2]
  rw [stripeEnd, stripeStart_unit_three, stripe_values.2.2.1, h]

theorem stripeEnd_unit_five :
    stripeEnd 1 0 5 = 1463669878895411 / 2251799813685248 := by
  obtain ⟨h1, h2, h3, _, _, _, _, _, _, _, h11, h12, h13⟩ := stripe_values
  simp only [stripeEnd, stripeStart, Nat.cast_zero, Nat.cast_ofNat, roundToDouble_0_35, h1, h2,
    h3, h11, h12, h13]

set_option maxRecDepth 8000 in
theorem crossing_edges_unit :
    crossingLeft 1 0 = -(8106479329266893 / 18014398509481984) ∧
      crossingRight 1 0 = 2476979795053773 / 4503599627370496 := by
  have h1 : fmul 0 1 = 0 := stripe_values.1
  have h2 : fadd 0 (3602879701896397 / 72057594037927936)
      = 3602879701896397 / 72057594037927936 := by
    norm_num [fadd, fsub, fmul, fdiv, roundToDouble, roundPos, roundHalfEven, Nat.log2]
  have h3 : fdiv 1 2 = 1 / 2 := by
    norm_num [fadd, fsub, fmul, fdiv, roundToDouble, roundPos, roundHalfEven, Nat.log2]
  have h4 : fsub (3602879701896397 / 72057594037927936) (1 / 2)
      = -(8106479329266893 / 18014398509481984) := by
    norm_num [fadd, fsub, fmul, fdiv, roundToDouble, roundPos, roundHalfEven, Nat.log2]
  have h5 : fadd (3602879701896397 / 72057594037927936) (1 / 2)
      = 2476979795053773 / 4503599627370496 := by
    norm_num [fadd, fsub, fmul, fdiv, roundToDouble, roundPos, roundHalfEven, Nat.log2]
  constructor
  · simp only [crossingLeft, Nat.cast_zero, roundToDouble_0_05, h1, h2, h3, h4]
  · simp only [crossingRight, Nat.cast_zero, roundToDouble_0_05, h1, h2, h3, h5]

/-- C27, as stated, fails at cell size 1, the size `main` passes, for the coordinate
`(0, 0)`.  Stripe 2 ends at depth `0.15` (component 32 of `a_position`) and stripe 3
begins at `0.15000000000000002` (component 38): the two stripes are not consecutive.
Stripe 3 ends at `0.31666666666666665` (component 44): its depth is not `1 / 6`.  Stripe
0 begins at `-0.35` (component 2) and stripe 5 ends at `0.6499999999999999`
(component 68): the six stripes cover a length smaller than 1.  The X edges are `-0.45`
and `0.55` (components 0 and 3), doubles whose difference is not 1. -/
theorem zebra_stripes_not_consecutive :
    ((generateZebraCrossings [⟨0, 0⟩] 1).a_position[32]?
          = some (5404319552844595 / 36028797018963968 : ℚ) ∧
        (generateZebraCrossings [⟨0, 0⟩] 1).a_position[38]?
          = some (1351079888211149 / 9007199254740992 : ℚ) ∧
        (5404319552844595 / 36028797018963968 : ℚ) < 1351079888211149 / 9007199254740992) ∧
      ((generateZebraCrossings [⟨0, 0⟩] 1).a_position[44]?
          = some (1426139882000657 / 4503599627370496 : ℚ) ∧
        (1426139882000657 / 4503599627370496 : ℚ) - 1351079888211149 / 9007199254740992
          < 1 / 6) ∧
      ((generateZebraCrossings [⟨0, 0⟩] 1).a_position[2]?
          = some (-(3152519739159347 / 9007199254740992) : ℚ) ∧
        (generateZebraCrossings [⟨0, 0⟩] 1).a_position[68]?
          = some (1463669878895411 / 2251799813685248 : ℚ) ∧
        (1463669878895411 / 2251799813685248 : ℚ) - -(3152519739159347 / 9007199254740992)
          < 1) ∧
      ((generateZebraCrossings [⟨0, 0⟩] 1).a_position[0]?
          = some (-(8106479329266893 / 18014398509481984) : ℚ) ∧
        (generateZebraCrossings [⟨0, 0⟩] 1).a_position[3]?
          = some (2476979795053773 / 4503599627370496 : ℚ) ∧
        (1 : ℚ) < 2476979795053773 / 4503599627370496
          - -(8106479329266893 / 18014398509481984)) := by
  have h32 : (generateZebraCrossings [⟨0, 0⟩] 1).a_position[32]? = some (stripeEnd 1 0 2) := by
    rw [zebra_a_position]
    rfl
  have h38 : (generateZebraCrossings [⟨0, 0⟩] 1).a_position[38]?
      = some (stripeStart 1 0 3) := by
    rw [zebra_a_position]
    rfl
  have h44 : (generateZebraCrossings [⟨0, 0⟩] 1).a_position[44]? = some (stripeEnd 1 0 3) := by
    rw [zebra_a_position]
    rfl
  have h2 : (generateZebraCrossings [⟨0, 0⟩] 1).a_position[2]? = some (stripeStart 1 0 0) := by
    rw [zebra_a_position]
    rfl
  have h68 : (generateZebraCrossings [⟨0, 0⟩] 1).a_position[68]? = some (stripeEnd 1 0 5) := by
    rw [zebra_a_position]
    rfl
  have h0 : (generateZebraCrossings [⟨0, 0⟩] 1).a_position[0]? = some (crossingLeft 1 0) := by
    rw [zebra_a_position]
    rfl
  have h3 : (generateZebraCrossings [⟨0, 0⟩] 1).a_position[3]? = some (crossingRight 1 0) := by
    rw [zebra_a_position]
    rfl
  rw [h32, h38, h44, h2, h68, h0, h3, stripeEnd_unit_two, stripeStart_unit_three,
    stripeEnd_unit_three, stripeStart_unit_zero, stripeEnd_unit_five, crossing_edges_unit.1,
    crossing_edges_unit.2]
  refine ⟨⟨rfl, rfl, ?_⟩, ⟨rfl, ?_⟩, ⟨rfl, rfl, ?_⟩, ⟨rfl, rfl, ?_⟩⟩ <;> norm_num

/-- C27, amended: for every cell size `s` and every coordinate list,
`generateZebraCrossings` emits, for each coordinate `(x, z)`, six quads at `y = 0`; quad
`i` spans in X from `crossingLeft s x` to `crossingRight s x` and in Z from
`stripeStart s z i` to `stripeEnd s z i`, and the colours are white, black, white, black,
white, black, the 4 vertices of a stripe sharing its colour.  With `|s|`, `x |s|` and
`z |s|` at most `2 ^ 1000` (a range in which no operation overflows), the X-width is
`s`, the Z-depth is `s / 6`, stripe `i` ends where stripe `i + 1` begins, and the six
stripes reach from `z s - 0.35` to `z s - 0.35 + s`, each up to a rounding error of at
most `(x |s| + |s| + 1) / 2 ^ 50`, respectively `(z |s| + |s| + 1) / 2 ^ 50`. -/
theorem zebra_stripes_tile_rounded (positions : List Coord) (size : ℚ) :
    (generateZebraCrossings positions size).a_position
        = positions.flatMap (fun p => (List.range 6).flatMap (fun i =>
            [ crossingLeft size p.x, 0, stripeStart size p.z i,
              crossingRight size p.x, 0, stripeStart size p.z i,
              crossingRight size p.x, 0, stripeEnd size p.z i,
              crossingLeft size p.x, 0, stripeEnd size p.z i ])) ∧
      (generateZebraCrossings positions size).a_color
        = positions.flatMap (fun _ =>
            ([[1, 1, 1, 1], [0, 0, 0, 1], [1, 1, 1, 1], [0, 0, 0, 1], [1, 1, 1, 1],
              [0, 0, 0, 1]] : List (List ℚ)).flatMap (fun c => c ++ c ++ c ++ c)) ∧
      (|size| ≤ 2 ^ 1000 → ∀ x z i : Nat, (x : ℚ) * |size| ≤ 2 ^ 1000 →
        (z : ℚ) * |size| ≤ 2 ^ 1000 → i < 6 →
          |crossingRight size x - crossingLeft size x - size|
              ≤ ((x : ℚ) * |size| + |size| + 1) / 2 ^ 50 ∧
            |stripeEnd size z i - stripeStart size z i - size / 6|
              ≤ ((z : ℚ) * |size| + |size| + 1) / 2 ^ 50 ∧
            |stripeStart size z (i + 1) - stripeEnd size z i|
              ≤ ((z : ℚ) * |size| + |size| + 1) / 2 ^ 50 ∧
            |stripeStart size z 0 - ((z : ℚ) * size - 7 / 20)|
              ≤ ((z : ℚ) * |size| + |size| + 1) / 2 ^ 50 ∧
            |stripeEnd size z 5 - ((z : ℚ) * size - 7 / 20 + size)|
              ≤ ((z : ℚ) * |size| + |size| + 1) / 2 ^ 50) :=
  ⟨zebra_a_position positions size, zebra_a_color positions size,
    fun _ x z i _ _ hi => crossing_rounding size x z i hi⟩

theorem zebra_stripes_tile_rounded_witness :
    |(1 : ℚ)| ≤ 2 ^ 1000 ∧ ((0 : Nat) : ℚ) * |(1 : ℚ)| ≤ 2 ^ 1000 ∧ 2 < 6 ∧
      (|crossingRight 1 0 - crossingLeft 1 0 - 1|
          ≤ (((0 : Nat) : ℚ) * |(1 : ℚ)| + |(1 : ℚ)| + 1) / 2 ^ 50 ∧
        |stripeEnd 1 0 2 - stripeStart 1 0 2 - 1 / 6|
          ≤ (((0 : Nat) : ℚ) * |(1 : ℚ)| + |(1 : ℚ)| + 1) / 2 ^ 50 ∧
        |stripeStart 1 0 (2 + 1) - stripeEnd 1 0 2|
          ≤ (((0 : Nat) : ℚ) * |(1 : ℚ)| + |(1 : ℚ)| + 1) / 2 ^ 50 ∧
        |stripeStart 1 0 0 - (((0 : Nat) : ℚ) * 1 - 7 / 20)|
          ≤ (((0 : Nat) : ℚ) * |(1 : ℚ)| + |(1 : ℚ)| + 1) / 2 ^ 50 ∧
        |stripeEnd 1 0 5 - (((0 : Nat) : ℚ) * 1 - 7 / 20 + 1)|
          ≤ (((0 : Nat) : ℚ) * |(1 : ℚ)| + |(1 : ℚ)| + 1) / 2 ^ 50) :=
  have h1 : |(1 : ℚ)| ≤ 2 ^ 1000 := by norm_num
  have h0 : ((0 : Nat) : ℚ) * |(1 : ℚ)| ≤ 2 ^ 1000 := by norm_num
  ⟨h1, h0, by decide,
    (zebra_stripes_tile_rounded [⟨0, 0⟩] 1).2.2 h1 0 0 2 h0 h0 (by decide)⟩

end RandomAgents
